import Mathlib

/-!
# Donna chess engine: attack tables, material, pawn evaluation, zero-window search

A shallow embedding of `init.go`, `misc.go`, `evaluate_pawns.go` and
`xsearch_zero_window.go`.  A `Bitmask` (Go `uint64`) is a natural number below
`2 ^ 64`; every operation that can leave that range is reduced modulo `2 ^ 64`.
Go `int` values that index the board or count loop iterations are integers.
-/

namespace Donna

/-! ## misc.go -/

/-- Row number for the given bit index: `n / 8` with Go's truncating division. -/
def Row (n : Int) : Int := n.tdiv 8

/-- Column number for the given bit index: `n % 8` with Go's truncating remainder. -/
def Col (n : Int) : Int := n.tmod 8

/-- Row and column numbers for the given bit index. -/
def Coordinate (n : Int) : Int × Int := (Row n, Col n)

/-- Square index of a row and a column, `(row << 3) + column`. -/
def Square (row column : Int) : Int := row * 8 + column

/-- Integer absolute value. -/
def Abs (n : Int) : Int := if n < 0 then -n else n

/-- The square `A8`, index 56 in the `A1 .. H8` enumeration. -/
def A8 : Nat := 56

/-- The row constant `A2H2` (second rank), index 1. -/
def A2H2 : Int := 1

/-! ## Bitmask primitives -/

/-- Number of values of a `uint64`. -/
def two64 : Nat := 2 ^ 64

/-- Modelled from the spec: the table `bit`, whose declaration is not among the
sources; "one bit per square, 0..63", so entry `n` is the bitmask with only bit
`n` set. -/
def bit (n : Nat) : Nat := 2 ^ n

/-! ## init.go: ray casting -/

/-- One ray loop of `createRookAttacks` / `createBishopAttacks`:
`for c, r := c0, r0; cond(c, r); c, r = c+dc, r+dr { bit := bit[r*8+c];
bitmask |= bit; if mask & bit != 0 { break } }`.
The first argument bounds the number of iterations. -/
def rayLoop (cond : Int → Int → Bool) (dc dr : Int) (mask : Nat) :
    Nat → Int → Int → Nat → Nat
  | 0, _, _, bitmask => bitmask
  | fuel + 1, c, r, bitmask =>
    if cond c r then
      let b := bit (r * 8 + c).toNat
      let bitmask := bitmask ||| b
      if mask &&& b ≠ 0 then bitmask
      else rayLoop cond dc dr mask fuel (c + dc) (r + dr) bitmask
    else bitmask

/-- The rook attack set from `square` with blockers `mask`: four rays, north,
east, south and west, each up to and including the first blocker. -/
def createRookAttacks (square : Int) (mask : Nat) : Nat :=
  let (row, col) := Coordinate square
  -- North.
  let bitmask := rayLoop (fun _ r => r ≤ 7) 0 1 mask 8 col (row + 1) 0
  -- East.
  let bitmask := rayLoop (fun c _ => c ≤ 7) 1 0 mask 8 (col + 1) row bitmask
  -- South.
  let bitmask := rayLoop (fun _ r => r ≥ 0) 0 (-1) mask 8 col (row - 1) bitmask
  -- West.
  rayLoop (fun c _ => c ≥ 0) (-1) 0 mask 8 (col - 1) row bitmask

/-- The bishop attack set from `square` with blockers `mask`: four diagonal
rays, each up to and including the first blocker. -/
def createBishopAttacks (square : Int) (mask : Nat) : Nat :=
  let (row, col) := Coordinate square
  -- North East.
  let bitmask := rayLoop (fun c r => c ≤ 7 && r ≤ 7) 1 1 mask 8 (col + 1) (row + 1) 0
  -- South East.
  let bitmask := rayLoop (fun c r => c ≤ 7 && r ≥ 0) 1 (-1) mask 8 (col + 1) (row - 1) bitmask
  -- South West.
  let bitmask := rayLoop (fun c r => c ≥ 0 && r ≥ 0) (-1) (-1) mask 8 (col - 1) (row - 1) bitmask
  -- North West.
  rayLoop (fun c r => c ≥ 0 && r ≤ 7) (-1) 1 mask 8 (col - 1) (row + 1) bitmask

/-! ## Geometry used to state the ray-casting contracts -/

/-- Square `u` lies strictly between `sq` and `t` on a common row or column. -/
def betweenStraight (sq t u : Int) : Prop :=
  (Row u = Row sq ∧ Row u = Row t ∧
      ((Col sq < Col u ∧ Col u < Col t) ∨ (Col t < Col u ∧ Col u < Col sq))) ∨
  (Col u = Col sq ∧ Col u = Col t ∧
      ((Row sq < Row u ∧ Row u < Row t) ∨ (Row t < Row u ∧ Row u < Row sq)))

/-- Squares `sq` and `t` share a diagonal or an anti-diagonal. -/
def onDiagonal (sq t : Int) : Prop :=
  Abs (Row t - Row sq) = Abs (Col t - Col sq)

/-- Square `u` lies strictly between `sq` and `t` on a common diagonal. -/
def betweenDiagonal (sq t u : Int) : Prop :=
  onDiagonal sq u ∧ onDiagonal u t ∧
    ((Row sq < Row u ∧ Row u < Row t) ∨ (Row t < Row u ∧ Row u < Row sq)) ∧
    ((Col sq < Col u ∧ Col u < Col t) ∨ (Col t < Col u ∧ Col u < Col sq))

instance (sq t u : Int) : Decidable (betweenStraight sq t u) := by
  unfold betweenStraight; infer_instance

instance (sq t : Int) : Decidable (onDiagonal sq t) := by
  unfold onDiagonal; infer_instance

instance (sq t u : Int) : Decidable (betweenDiagonal sq t u) := by
  unfold betweenDiagonal; infer_instance

/-- Index of the `k`-th square of a ray that starts at `(c, r)` and steps by `(dc, dr)`. -/
def rayIdx (dc dr c r : Int) (k : Nat) : Nat := ((r + k * dr) * 8 + (c + k * dc)).toNat


/-- Square `t` is the `(k+1)`-th square from `sq` in direction `(dc, dr)` and none
of the `k` squares before it on that ray is occupied. -/
def rayHit (dc dr : Int) (sq : Int) (t occ : Nat) : Prop :=
  ∃ k : Nat, Row t = Row sq + (k + 1) * dr ∧ Col t = Col sq + (k + 1) * dc ∧
    ∀ i : Nat, i < k →
      occ.testBit (Square (Row sq + (i + 1) * dr) (Col sq + (i + 1) * dc)).toNat = false

/-! ## init.go: relevant-occupancy masks and subset enumeration -/

/-- A magic entry: the relevant-occupancy mask and the multiplier of a square. -/
structure Magic where
  mask : Nat
  magic : Nat

/-- Modelled from the spec: the method `Bitmask.count`, whose body is not among
the sources; the "cardinality" of a bitmask, the number of squares (bits 0..63)
it holds. -/
def count (b : Nat) : Nat := (List.range 64).countP (fun i => b.testBit i)

/-- The `uint64` subtraction `b - 1`, wrapping at zero. -/
def subOne (b : Nat) : Nat := (b + two64 - 1) % two64

/-- The loop of `indexedBitmask`: `for i, his := 0, mask; i < count; i++`, with
`her` the lowest bit of `his`, which is then cleared from `his`; `her` joins the
result when bit `i` of `index` is set.  The first argument is `count - i`. -/
def indexedLoop (index : Nat) : Nat → Nat → Nat → Nat → Nat
  | 0, _, _, bitmask => bitmask
  | todo + 1, i, his, bitmask =>
    let her := ((subOne his) &&& his) ^^^ his
    let his := his &&& subOne his
    indexedLoop index todo (i + 1) his
      (if (1 <<< i) &&& index ≠ 0 then bitmask ||| her else bitmask)

/-- The subset of `mask` selected by the bits of `index`: bit `i` of `index`
decides whether the `i`-th lowest square of `mask` is taken. -/
def indexedBitmask (index : Nat) (mask : Nat) : Nat :=
  indexedLoop index (count mask) 0 mask 0

/-- One loop of `createRookMask` / `createBishopMask`:
`for c, r := c0, r0; cond(c, r); c, r = c+dc, r+dr { bitmask |= bit[r*8+c] }`.
The first argument bounds the number of iterations. -/
def maskLoop (cond : Int → Int → Bool) (dc dr : Int) : Nat → Int → Int → Nat → Nat
  | 0, _, _, bitmask => bitmask
  | fuel + 1, c, r, bitmask =>
    if cond c r then maskLoop cond dc dr fuel (c + dc) (r + dr) (bitmask ||| bit (r * 8 + c).toNat)
    else bitmask

/-- Relevant occupancy of a rook on `square`: its row and column without the
board edges and without `square` itself. -/
def createRookMask (square : Int) : Nat :=
  let (row, col) := Coordinate square
  -- North.
  let bitmask := maskLoop (fun _ r => r < 7) 0 1 8 col (row + 1) 0
  -- West.
  let bitmask := maskLoop (fun c _ => c > 0) (-1) 0 8 (col - 1) row bitmask
  -- South.
  let bitmask := maskLoop (fun _ r => r > 0) 0 (-1) 8 col (row - 1) bitmask
  -- East.
  maskLoop (fun c _ => c < 7) 1 0 8 (col + 1) row bitmask

/-- Relevant occupancy of a bishop on `square`: its diagonals without the board
edges and without `square` itself. -/
def createBishopMask (square : Int) : Nat :=
  let (row, col) := Coordinate square
  -- North West.
  let bitmask := maskLoop (fun c r => c > 0 && r < 7) (-1) 1 8 (col - 1) (row + 1) 0
  -- South West.
  let bitmask := maskLoop (fun c r => c > 0 && r > 0) (-1) (-1) 8 (col - 1) (row - 1) bitmask
  -- South East.
  let bitmask := maskLoop (fun c r => c < 7 && r > 0) 1 (-1) 8 (col + 1) (row - 1) bitmask
  -- North East.
  maskLoop (fun c r => c < 7 && r < 7) 1 1 8 (col + 1) (row + 1) bitmask

/-! ## init.go: the magic tables of `initMasks` -/

/-- The two sliding-piece tables that `initMasks` fills, `[64][4096]Bitmask` and
`[64][512]Bitmask`, as functions of the square and the index. -/
structure AttackTables where
  rookMagicMoves : Nat → Nat → Nat
  bishopMagicMoves : Nat → Nat → Nat

/-- The zero-initialised tables. -/
def AttackTables.zero : AttackTables :=
  { rookMagicMoves := fun _ _ => 0, bishopMagicMoves := fun _ _ => 0 }

/-- The table-filling loop of `initMasks` for one square and one piece kind:
`for i := 0; i < (1 << bits); i++ { bitmask := indexedBitmask(i, mask);
index := (bitmask * magic) >> shift; moves[square][index] = attacks(square, bitmask) }`
on the row `moves[square]`.  The first argument is `(1 << bits) - i`. -/
def magicLoop (attacks : Nat → Nat) (magic shift mask : Nat) :
    Nat → Nat → (Nat → Nat) → (Nat → Nat)
  | 0, _, row => row
  | todo + 1, i, row =>
    let bitmask := indexedBitmask i mask
    let index := (bitmask * magic % two64) >>> shift
    magicLoop attacks magic shift mask todo (i + 1) (Function.update row index (attacks bitmask))

/-- The body of the square loop of `initMasks`, restricted to the rook and bishop
magic tables (the other tables it fills are independent of these two). -/
def initMasksSquare (rookMagic bishopMagic : Nat → Magic) (T : AttackTables) (square : Nat) :
    AttackTables :=
  -- Rooks.
  let mask := createRookMask square
  let bits := count mask
  let rookRow := magicLoop (createRookAttacks square) (rookMagic square).magic 52 mask
    (1 <<< bits) 0 (T.rookMagicMoves square)
  -- Bishops.
  let mask := createBishopMask square
  let bits := count mask
  let bishopRow := magicLoop (createBishopAttacks square) (bishopMagic square).magic 55 mask
    (1 <<< bits) 0 (T.bishopMagicMoves square)
  { rookMagicMoves := Function.update T.rookMagicMoves square rookRow,
    bishopMagicMoves := Function.update T.bishopMagicMoves square bishopRow }

/-- The magic tables after `initMasks`: the square loop `A1 .. H8` run on the
zero-initialised tables, for the given `rookMagic` and `bishopMagic` constants
(their declarations are not among the sources). -/
def initMasks (rookMagic bishopMagic : Nat → Magic) : AttackTables :=
  (List.range 64).foldl (initMasksSquare rookMagic bishopMagic) AttackTables.zero

/-- The magic constant `magic` sends no two subsets of `mask` with different
attack sets to the same table index. -/
def NoAlias (attacks : Nat → Nat) (magic shift mask : Nat) : Prop :=
  ∀ s1 s2 : Nat, s1 &&& mask = s1 → s2 &&& mask = s2 →
    (s1 * magic % two64) >>> shift = (s2 * magic % two64) >>> shift → attacks s1 = attacks s2

/-- Reads a subset back from a table index: for each pair `(t, b)`, bit `t` of
the index gives bit `b` of the subset. -/
def gatherDecode (pairs : List (Nat × Nat)) (k : Nat) : Nat :=
  pairs.foldl (fun acc p => if k.testBit p.1 then acc ||| 2 ^ p.2 else acc) 0

/-- A rook magic table whose entry for `B2` gathers the ten mask bits of `B2` into
the table index. -/
def sampleRookMagic : Nat → Magic :=
  fun _ => { mask := 0x2020202027c00, magic := 9223407221495302144 }

/-- A bishop magic table whose entry for `B2` gathers the five mask bits of `B2`
into the table index. -/
def sampleBishopMagic : Nat → Magic :=
  fun _ => { mask := 0x40201008040000, magic := 378302508419778568 }

/-! ## Scores -/

/-- A score: a midgame and an endgame value (Go `int`s; they are centipawn sums
far inside the 64-bit range, so they are modelled as integers). -/
structure Score where
  midgame : Int
  endgame : Int
deriving DecidableEq, Repr

/-! ## init.go: material imbalance -/

/-- The local function `polynom` of `imbalance`. -/
def polynom (x a b c : Int) : Int := a * (x * x) + (b + c) * x

/-- Simplified second-degree polynomial material imbalance of one side. -/
def imbalance (w2 wP wN wB wR wQ b2 bP bN bB bR bQ : Int) : Int :=
  polynom w2 0 0 1852 +
  polynom wP 2 (39 * w2 + 37 * b2) (-162) +
  polynom wN (-4) (35 * w2 + 271 * wP + 10 * b2 + 62 * bP) (-1122) +
  polynom wB 0 (0 * w2 + 105 * wP + 4 * wN + 57 * b2 + 64 * bP + 39 * bN) (-183) +
  polynom wR (-141) (-27 * w2 + -2 * wP + 46 * wN + 100 * wB + 50 * b2 + 40 * bP + 23 * bN +
    -22 * bB) 249 +
  polynom wQ 0 (-177 * w2 + 25 * wP + 129 * wN + 142 * wB + -137 * wR + 98 * b2 + 105 * bP +
    -39 * bN + 141 * bB + 274 * bR) (-154)

/-- The piece counts of one side in the material table. -/
structure Counts where
  P : Int
  N : Int
  B : Int
  R : Int
  Q : Int
deriving DecidableEq, Repr

/-- The counts lie in the ranges the loop nest of `initMaterial` runs over. -/
def Counts.inRange (k : Counts) : Prop :=
  0 ≤ k.Q ∧ k.Q < 2 ∧ 0 ≤ k.R ∧ k.R < 3 ∧ 0 ≤ k.B ∧ k.B < 3 ∧ 0 ≤ k.N ∧ k.N < 3 ∧
    0 ≤ k.P ∧ k.P < 9

instance (k : Counts) : Decidable k.inRange := by
  unfold Counts.inRange; infer_instance

/-- The value `adjustment` of `initMaterial` for white counts `w` and black counts
`b`: `(white - black) / 32` with Go's truncating division. -/
def adjustment (w b : Counts) : Int :=
  let white := imbalance (w.B.tdiv 2) w.P w.N w.B w.R w.Q (b.B.tdiv 2) b.P b.N b.B b.R b.Q
  let black := imbalance (b.B.tdiv 2) b.P b.N b.B b.R b.Q (w.B.tdiv 2) w.P w.N w.B w.R w.Q
  (white - black).tdiv 32

/-- The imbalance step of the body of `initMaterial` on the score of the entry for
white counts `w` and black counts `b`: the adjustment is added to both components
unless the two sides hold the same counts. -/
def initMaterialScore (score : Score) (w b : Counts) : Score :=
  if w.Q ≠ b.Q ∨ w.R ≠ b.R ∨ w.B ≠ b.B ∨ w.N ≠ b.N ∨ w.P ≠ b.P then
    { midgame := score.midgame + adjustment w b, endgame := score.endgame + adjustment w b }
  else score

/-- Modelled from the spec: the method `Score.add`, whose body is not among the
sources; a score "supports accumulation (add/subtract)", component by component. -/
def Score.add (s t : Score) : Score :=
  { midgame := s.midgame + t.midgame, endgame := s.endgame + t.endgame }

/-- Modelled from the spec: the method `Score.subtract`, whose body is not among
the sources; the component-wise difference. -/
def Score.subtract (s t : Score) : Score :=
  { midgame := s.midgame - t.midgame, endgame := s.endgame - t.endgame }

/-! ## init.go: piece-square tables -/

/-- The pieces that index `pst`. -/
inductive Piece
  | Pawn | Knight | Bishop | Rook | Queen | King
  | BlackPawn | BlackKnight | BlackBishop | BlackRook | BlackQueen | BlackKing
deriving DecidableEq, Repr

/-- The bonus tables `[2][64]int` and piece values that `initPST` reads; their
declarations are not among the sources. -/
structure PstInput where
  bonusPawn : Nat → Nat → Int
  bonusKnight : Nat → Nat → Int
  bonusBishop : Nat → Nat → Int
  bonusRook : Nat → Nat → Int
  bonusQueen : Nat → Nat → Int
  bonusKing : Nat → Nat → Int
  valuePawn : Score
  valueKnight : Score
  valueBishop : Score
  valueRook : Score
  valueQueen : Score

/-- The table `pst`, indexed by piece and square. -/
abbrev Pst := Piece → Nat → Score

/-- The zeroed table. -/
def Pst.zero : Pst := fun _ _ => { midgame := 0, endgame := 0 }

/-- Assignment to `pst[piece][square]`. -/
def Pst.set (pst : Pst) (piece : Piece) (square : Nat) (v : Score) : Pst :=
  fun p s => if p = piece ∧ s = square then v else pst p s

/-- The body of the square loop of `initPST`. -/
def initPSTSquare (t : PstInput) (pst : Pst) (square : Nat) : Pst :=
  -- White pieces: flip square index.
  let flip := square ^^^ A8
  let pst := pst.set .Pawn square
    (((pst .Pawn square).add ⟨t.bonusPawn 0 flip, t.bonusPawn 1 flip⟩).add t.valuePawn)
  let pst := pst.set .Knight square
    (((pst .Knight square).add ⟨t.bonusKnight 0 flip, t.bonusKnight 1 flip⟩).add t.valueKnight)
  let pst := pst.set .Bishop square
    (((pst .Bishop square).add ⟨t.bonusBishop 0 flip, t.bonusBishop 1 flip⟩).add t.valueBishop)
  let pst := pst.set .Rook square
    (((pst .Rook square).add ⟨t.bonusRook 0 flip, t.bonusRook 1 flip⟩).add t.valueRook)
  let pst := pst.set .Queen square
    (((pst .Queen square).add ⟨t.bonusQueen 0 flip, t.bonusQueen 1 flip⟩).add t.valueQueen)
  let pst := pst.set .King square
    ((pst .King square).add ⟨t.bonusKing 0 flip, t.bonusKing 1 flip⟩)
  -- Black pieces: use square index as is, and assign negative values.
  let pst := pst.set .BlackPawn square
    (((pst .BlackPawn square).subtract ⟨t.bonusPawn 0 square, t.bonusPawn 1 square⟩).subtract
      t.valuePawn)
  let pst := pst.set .BlackKnight square
    (((pst .BlackKnight square).subtract
      ⟨t.bonusKnight 0 square, t.bonusKnight 1 square⟩).subtract t.valueKnight)
  let pst := pst.set .BlackBishop square
    (((pst .BlackBishop square).subtract
      ⟨t.bonusBishop 0 square, t.bonusBishop 1 square⟩).subtract t.valueBishop)
  let pst := pst.set .BlackRook square
    (((pst .BlackRook square).subtract ⟨t.bonusRook 0 square, t.bonusRook 1 square⟩).subtract
      t.valueRook)
  let pst := pst.set .BlackQueen square
    (((pst .BlackQueen square).subtract
      ⟨t.bonusQueen 0 square, t.bonusQueen 1 square⟩).subtract t.valueQueen)
  pst.set .BlackKing square
    ((pst .BlackKing square).subtract ⟨t.bonusKing 0 square, t.bonusKing 1 square⟩)

/-- The table after `initPST`: the square loop `A1 .. H8` run on `pst`. -/
def initPST (t : PstInput) (pst : Pst) : Pst :=
  (List.range 64).foldl (initPSTSquare t) pst

/-- The white pieces paired with their black counterparts. -/
def piecePairs : List (Piece × Piece) :=
  [(.Pawn, .BlackPawn), (.Knight, .BlackKnight), (.Bishop, .BlackBishop), (.Rook, .BlackRook),
    (.Queen, .BlackQueen), (.King, .BlackKing)]

/-- The entry that `initPST` leaves for a piece on a square of the board. -/
def pstEntry (t : PstInput) (p : Piece) (s : Nat) : Score :=
  match p with
  | .Pawn => ⟨t.bonusPawn 0 (s ^^^ 56) + t.valuePawn.midgame, t.bonusPawn 1 (s ^^^ 56) + t.valuePawn.endgame⟩
  | .Knight => ⟨t.bonusKnight 0 (s ^^^ 56) + t.valueKnight.midgame, t.bonusKnight 1 (s ^^^ 56) + t.valueKnight.endgame⟩
  | .Bishop => ⟨t.bonusBishop 0 (s ^^^ 56) + t.valueBishop.midgame, t.bonusBishop 1 (s ^^^ 56) + t.valueBishop.endgame⟩
  | .Rook => ⟨t.bonusRook 0 (s ^^^ 56) + t.valueRook.midgame, t.bonusRook 1 (s ^^^ 56) + t.valueRook.endgame⟩
  | .Queen => ⟨t.bonusQueen 0 (s ^^^ 56) + t.valueQueen.midgame, t.bonusQueen 1 (s ^^^ 56) + t.valueQueen.endgame⟩
  | .King => ⟨t.bonusKing 0 (s ^^^ 56), t.bonusKing 1 (s ^^^ 56)⟩
  | .BlackPawn => ⟨-t.bonusPawn 0 s - t.valuePawn.midgame, -t.bonusPawn 1 s - t.valuePawn.endgame⟩
  | .BlackKnight => ⟨-t.bonusKnight 0 s - t.valueKnight.midgame, -t.bonusKnight 1 s - t.valueKnight.endgame⟩
  | .BlackBishop => ⟨-t.bonusBishop 0 s - t.valueBishop.midgame, -t.bonusBishop 1 s - t.valueBishop.endgame⟩
  | .BlackRook => ⟨-t.bonusRook 0 s - t.valueRook.midgame, -t.bonusRook 1 s - t.valueRook.endgame⟩
  | .BlackQueen => ⟨-t.bonusQueen 0 s - t.valueQueen.midgame, -t.bonusQueen 1 s - t.valueQueen.endgame⟩
  | .BlackKing => ⟨-t.bonusKing 0 s, -t.bonusKing 1 s⟩

/-- Sample bonus tables and piece values for `initPST`. -/
def samplePstInput : PstInput :=
  { bonusPawn := fun ph sq => 3 * (sq : Int) + ph - 20
    bonusKnight := fun ph sq => 50 - (sq : Int) * (ph + 1)
    bonusBishop := fun ph sq => (sq : Int) % 7 + 2 * ph
    bonusRook := fun ph sq => (sq : Int) / 8 - 5 * ph
    bonusQueen := fun ph sq => 4 * ph - (sq : Int) % 5
    bonusKing := fun ph sq => (sq : Int) * (sq : Int) - 100 * ph
    valuePawn := ⟨100, 129⟩
    valueKnight := ⟨408, 423⟩
    valueBishop := ⟨418, 428⟩
    valueRook := ⟨635, 639⟩
    valueQueen := ⟨1260, 1279⟩ }

/-! ## Bitmask methods used by the pawn evaluation -/

/-- Modelled from the spec: the method `Bitmask.pushed`, whose body is not among
the sources; the "directional shift (push toward a side)": one rank up for White
(colour 0), one rank down for Black, inside 64 bits. -/
def pushed (b : Nat) (color : Nat) : Nat :=
  if color = 0 then (b <<< 8) % two64 else b >>> 8

/-- Modelled from the spec: the method `Bitmask.isClear`, whose body is not among
the sources; square `n` is not in the bitmask. -/
def isClear (b : Nat) (n : Int) : Bool := b &&& bit n.toNat = 0

/-- Modelled from the spec: the method `Bitmask.isSet`, whose body is not among
the sources; square `n` is in the bitmask. -/
def isSet (b : Nat) (n : Int) : Bool := b &&& bit n.toNat ≠ 0

/-- Modelled from the spec: the square returned by the method `Bitmask.pop`, whose
body is not among the sources; "single-bit extraction with removal", here of the
lowest square of the bitmask. -/
def popSquare (b : Nat) : Nat := ((List.range 64).find? (fun i => b.testBit i)).getD 0

/-- Modelled from the spec: the bitmask left by the method `Bitmask.pop`, the
extracted square removed. -/
def popRest (b : Nat) : Nat := b &&& subOne b

/-- Modelled from the spec: the method `Score.clear`, whose body is not among the
sources; the zero score. -/
def Score.clear (_ : Score) : Score := { midgame := 0, endgame := 0 }

/-- Modelled from the spec: the method `Score.adjust`, whose body is not among the
sources; the bonus is "boosted" by `n` in both components. -/
def Score.adjust (s : Score) (n : Int) : Score :=
  { midgame := s.midgame + n, endgame := s.endgame + n }

/-- Modelled from the spec: the method `Score.times`, whose body is not among the
sources; both components multiplied by `n` ("flat penalty per blocked pawn"). -/
def Score.times (s : Score) (n : Int) : Score :=
  { midgame := s.midgame * n, endgame := s.endgame * n }

/-! ## evaluate_pawns.go -/

/-- The part of a position that the pawn evaluation reads. -/
structure Position where
  outposts : Nat → Nat
  board : Nat
  hashPawn : Nat

/-- A line of the pawn cache. -/
structure PawnEntry where
  hash : Nat
  score : Score
  passers : Nat → Nat

/-- The evaluation state: the position, the running score, the index of the cache
line `e.pawns` points to, the attack bitmasks by colour, and the global
`pawnCache` (8192 lines). -/
structure Evaluation where
  position : Position
  score : Score
  pawns : Nat
  attacks : Nat → Nat
  pawnCache : Nat → PawnEntry

/-- The tables, constants and helpers that the pawn evaluation reads; their
declarations are not among the sources (`maskInFront`, `maskPassed` and
`pawnMoves` are filled by parts of `initMasks` that use the absent methods `fill`
and `set`). -/
structure PawnInput where
  maskIsolated : Int → Nat
  maskRank : Int → Nat
  maskInFront : Nat → Int → Nat
  maskPassed : Nat → Int → Nat
  pawnMoves : Nat → Int → Nat
  penaltyIsolatedPawn : Int → Score
  penaltyWeakIsolatedPawn : Int → Score
  penaltyDoubledPawn : Int → Score
  penaltyBackwardPawn : Int → Score
  penaltyWeakBackwardPawn : Int → Score
  bonusSupportedPawn : Int → Int
  bonusPassedPawn : Int → Score
  extraPassedPawn : Int → Int
  pawnBlocked : Score
  eight : Nat → Int
  Flip : Nat → Int → Int
  RelRow : Int → Nat → Int
  pawn : Nat → Nat
  rook : Nat → Nat
  queen : Nat → Nat
  rookMoves : Position → Int → Nat

/-- The pawn has no friendly pawns on adjacent files. -/
def pawnIsolated (tb : PawnInput) (hisPawns : Nat) (square : Int) : Bool :=
  tb.maskIsolated (Col square) &&& hisPawns = 0

/-- The pawn has no enemy pawn in front of it on its file. -/
def pawnExposed (tb : PawnInput) (color herPawns : Nat) (square : Int) : Bool :=
  tb.maskInFront color square &&& herPawns = 0

/-- The pawn has another friendly pawn in front of it. -/
def pawnDoubled (tb : PawnInput) (color hisPawns : Nat) (square : Int) : Bool :=
  tb.maskInFront color square &&& hisPawns ≠ 0

/-- The pawn is supported by friendly pawns on the same or the previous rank. -/
def pawnSupported (tb : PawnInput) (color hisPawns : Nat) (square : Int) : Bool :=
  tb.maskIsolated (Col square) &&&
    (tb.maskRank (Row square) ||| pushed (tb.maskRank (Row square)) (color ^^^ 1)) &&&
    hisPawns ≠ 0

/-- The pawn is passed: no enemy pawns on the same and adjacent columns in front
of it, and not doubled. -/
def pawnPassed (tb : PawnInput) (color hisPawns herPawns : Nat) (square : Int) : Bool :=
  tb.maskPassed color square &&& herPawns = 0 && !pawnDoubled tb color hisPawns square

/-- The isolated-pawn penalty of `pawnStructure`. -/
def isolatedStage (tb : PawnInput) (color hisPawns herPawns : Nat) (square : Int)
    (score : Score) : Score :=
  if pawnIsolated tb hisPawns square then
    if !pawnExposed tb color herPawns square then
      score.subtract (tb.penaltyIsolatedPawn (Col square))
    else score.subtract (tb.penaltyWeakIsolatedPawn (Col square))
  else score

/-- The doubled-pawn penalty of `pawnStructure`. -/
def doubledStage (tb : PawnInput) (color hisPawns : Nat) (square : Int) (score : Score) :
    Score :=
  if pawnDoubled tb color hisPawns square then
    score.subtract (tb.penaltyDoubledPawn (Col square))
  else score

/-- The supported-pawn bonus of `pawnStructure`. -/
def supportedStage (tb : PawnInput) (color hisPawns : Nat) (square : Int) (score : Score) :
    Score :=
  if pawnSupported tb color hisPawns square then
    let flip := tb.Flip color square
    score.add ⟨tb.bonusSupportedPawn flip, tb.bonusSupportedPawn flip⟩
  else score

/-- The backward-pawn penalty of `pawnStructure`. -/
def backwardStage (tb : PawnInput) (color hisPawns herPawns : Nat) (square : Int)
    (score : Score) : Score :=
  if !pawnPassed tb color hisPawns herPawns square && !pawnSupported tb color hisPawns square &&
      !pawnIsolated tb hisPawns square then
    -- Backward pawn should not be attacking enemy pawns.
    if tb.pawnMoves color square &&& herPawns = 0 then
      -- Backward pawn should not have friendly pawns behind.
      if tb.maskPassed (color ^^^ 1) square &&& tb.maskIsolated (Col square) &&& hisPawns = 0 then
        -- Backward pawn should face enemy pawns on the next two ranks.
        let enemy := pushed (tb.pawnMoves color square) color
        if (enemy ||| pushed enemy color) &&& herPawns ≠ 0 then
          if !pawnExposed tb color herPawns square then
            score.subtract (tb.penaltyBackwardPawn (Col square))
          else score.subtract (tb.penaltyWeakBackwardPawn (Col square))
        else score
      else score
    else score
  else score

/-- The body of the pawn loop of `pawnStructure` on the running score and the
passed-pawn bitmask of the side. -/
def pawnStep (tb : PawnInput) (color hisPawns herPawns : Nat) (st : Score × Nat)
    (square : Int) : Score × Nat :=
  let score := isolatedStage tb color hisPawns herPawns square st.1
  let score := doubledStage tb color hisPawns square score
  let score := supportedStage tb color hisPawns square score
  let passers :=
    if pawnPassed tb color hisPawns herPawns square then st.2 ||| bit square.toNat else st.2
  (backwardStage tb color hisPawns herPawns square score, passers)

/-- The pawn loop of `pawnStructure`: `for pawns != 0 { square := pawns.pop(); ... }`.
The first argument bounds the number of iterations. -/
def pawnStructureLoop (tb : PawnInput) (color hisPawns herPawns : Nat) :
    Nat → Nat → Score × Nat → Score × Nat
  | 0, _, st => st
  | fuel + 1, pawns, st =>
    if pawns ≠ 0 then
      pawnStructureLoop tb color hisPawns herPawns fuel (popRest pawns)
        (pawnStep tb color hisPawns herPawns st (popSquare pawns))
    else st

/-- Assignment to entry `k` of an array given as a function of the index. -/
def writeAt {α : Type} (f : Nat → α) (k : Nat) (v : α) : Nat → α :=
  fun i => if i = k then v else f i

/-- The cache line `e.pawns` points to. -/
def Evaluation.slot (e : Evaluation) : PawnEntry := e.pawnCache e.pawns

/-- Assignment through the pointer `e.pawns`. -/
def Evaluation.setSlot (e : Evaluation) (v : PawnEntry) : Evaluation :=
  { e with pawnCache := writeAt e.pawnCache e.pawns v }

/-- Writes `e.pawns.passers[color]`. -/
def Evaluation.setPassers (e : Evaluation) (color passers : Nat) : Evaluation :=
  e.setSlot { e.slot with passers := writeAt e.slot.passers color passers }

/-- The pawn loop of `pawnStructure` run on the pawns of `color`: the score and
the passed-pawn bitmask of the side. -/
def pawnStructureRun (tb : PawnInput) (p : Position) (color : Nat) : Score × Nat :=
  let hisPawns := p.outposts (tb.pawn color)
  let herPawns := p.outposts (tb.pawn (color ^^^ 1))
  pawnStructureLoop tb color hisPawns herPawns 64 hisPawns (⟨0, 0⟩, 0)

/-- The score of the pawn structure of one side; the passed pawns found are left
in `e.pawns.passers[color]`. -/
def pawnStructure (tb : PawnInput) (e : Evaluation) (color : Nat) : Score × Evaluation :=
  ((pawnStructureRun tb e.position color).1,
    e.setPassers color (pawnStructureRun tb e.position color).2)

/-- The pawn-cache lookup of the evaluation; `trace` is `Settings.Trace` (the
`checkpoint` call under tracing only records the two scores for display). -/
def analyzePawns (tb : PawnInput) (trace : Bool) (e : Evaluation) : Evaluation :=
  let key := e.position.hashPawn
  -- Since pawn hash is fairly small we can use much faster 32-bit index.
  let index := key % 2 ^ 32 % 8192
  let e := { e with pawns := index }
  -- Bypass pawns cache if evaluation tracing is enabled.
  let e :=
    if e.slot.hash ≠ key ∨ trace = true then
      let w := pawnStructure tb e 0
      let b := pawnStructure tb w.2 1
      b.2.setSlot
        { b.2.slot with score := ((b.2.slot.score.clear).add w.1).subtract b.1, hash := key }
    else e
  { e with score := e.score.add e.slot.score }

/-- The squares in front of the passed pawn that count as attacked in
`pawnPassers`: all of them when an enemy rook or queen attacks the pawn from
behind, else those attacked or occupied by the enemy. -/
def passerAttacked (tb : PawnInput) (e : Evaluation) (color : Nat) (square : Int) : Nat :=
  let p := e.position
  let attacked := tb.maskInFront color square
  let enemy := tb.maskInFront (color ^^^ 1) square &&&
    (p.outposts (tb.queen (color ^^^ 1)) ||| p.outposts (tb.rook (color ^^^ 1)))
  if enemy = 0 ∨ enemy &&& tb.rookMoves p square = 0 then
    attacked &&& (e.attacks (color ^^^ 1) ||| p.outposts (color ^^^ 1))
  else attacked

/-- The value `extra` of `pawnPassers` for a passed pawn whose next square is
clear. -/
def passerExtra (tb : PawnInput) (e : Evaluation) (color : Nat) (square : Int) : Int :=
  let nextSquare := square + tb.eight color
  let protectedBits := tb.maskInFront color square &&& e.attacks color
  let attacked := passerAttacked tb e color square
  let extra : Int := 0
  let extra := if attacked = 0 then 10 else if isClear attacked nextSquare then 6 else extra
  if protectedBits = tb.maskInFront color square then extra + 4
  else if isSet protectedBits nextSquare then extra + 2
  else extra

/-- The bonus that the loop of `pawnPassers` adds for the passed pawn on `square`. -/
def passerBonus (tb : PawnInput) (e : Evaluation) (color : Nat) (square : Int) : Score :=
  let row := tb.RelRow square color
  let bonus := tb.bonusPassedPawn row
  if row > A2H2 then
    let nextSquare := square + tb.eight color
    -- Check if the pawn can step forward.
    if isClear e.position.board nextSquare then
      let extra := passerExtra tb e color square
      if extra > 0 then bonus.adjust (extra * tb.extraPassedPawn row) else bonus
    else bonus
  else bonus

/-- The loop of `pawnPassers` over the passed pawns of the side. -/
def pawnPassersLoop (tb : PawnInput) (e : Evaluation) (color : Nat) : Nat → Nat → Score → Score
  | 0, _, score => score
  | fuel + 1, pawns, score =>
    if pawns ≠ 0 then
      pawnPassersLoop tb e color fuel (popRest pawns)
        (score.add (passerBonus tb e color (popSquare pawns)))
    else score

/-- The passed-pawn score of one side, with the penalty for blocked pawns. -/
def pawnPassers (tb : PawnInput) (e : Evaluation) (color : Nat) : Score :=
  let p := e.position
  let score := pawnPassersLoop tb e color 64 (e.slot.passers color) ⟨0, 0⟩
  -- Penalty for blocked pawns.
  let blocked := count (pushed (p.outposts (tb.pawn color)) color &&& p.board)
  score.subtract (tb.pawnBlocked.times blocked)

/-- The value `extra` as the contract words it: `a + b`, where `a` is 10 if no
square in front of the pawn is contested (in `passerAttacked`), else 6 if the next
square is not contested, else 0, and `b` is 4 if every square in front is attacked
by the pawn's own side, else 2 if the next square is, else 0. -/
def passerExtraSpec (tb : PawnInput) (e : Evaluation) (color : Nat) (square : Int) : Int :=
  let next := (square + tb.eight color).toNat
  let inFront := tb.maskInFront color square
  let contested := passerAttacked tb e color square
  let own := e.attacks color
  let a : Int :=
    if ∀ t : Nat, t < 64 → inFront.testBit t = true → contested.testBit t = false then 10
    else if contested.testBit next = false then 6
    else 0
  let b : Int :=
    if ∀ t : Nat, t < 64 → inFront.testBit t = true → own.testBit t = true then 4
    else if own.testBit next = true then 2
    else 0
  a + b

/-! ## xsearch_zero_window.go -/

/-- The collaborators of the zero-window search whose code is not among the
sources, over positions `P` and moves `M`: the repetition test, the value of
`Ply()` while the position is the current node, the constant `Checkmate`, the
ranked move list that `NextMove` enumerates, `MakeMove` (`none` for an illegal
move), the check test for the side to move, and the quiescence and in-check
searches (`none` when they do not return). -/
structure SearchEnv (P M : Type) where
  isRepetition : P → Bool
  ply : P → Int
  checkmate : Int
  moves : P → List M
  makeMove : P → M → Option P
  isInCheck : P → Bool
  xSearchQuiescence : P → Int → Int → Option Int
  xSearchInCheck : P → Int → Int → Option Int

/-- The depth at which the position reached by a legal move is searched:
`depth - 1`, incremented when the side to move is in check. -/
def reducedDepth {P M : Type} (env : SearchEnv P M) (position : P) (depth : Int) : Int :=
  if env.isInCheck position then depth - 1 + 1 else depth - 1

/-- The value `moveScore` for the position reached by a legal move: the negated
result of the quiescence search, of the in-check search or of the recursive
zero-window search `search`. -/
def moveScore {P M : Type} (env : SearchEnv P M) (search : P → Int → Int → Option Int)
    (position : P) (beta depth : Int) : Option Int :=
  let inCheck := env.isInCheck position
  let reducedDepth := reducedDepth env position depth
  if reducedDepth = 0 then
    (env.xSearchQuiescence position (-beta) (1 - beta)).map (fun s => -s)
  else if inCheck then
    (env.xSearchInCheck position (1 - beta) reducedDepth).map (fun s => -s)
  else
    (search position (1 - beta) reducedDepth).map (fun s => -s)

/-- The move loop of `xSearchWithZeroWindow` on the remaining moves, with the
running `bestScore` and `moveCount`, and what follows the loop. -/
def moveLoop {P M : Type} (env : SearchEnv P M) (search : P → Int → Int → Option Int)
    (p : P) (beta depth : Int) : List M → Int → Nat → Option Int
  | [], bestScore, moveCount => if moveCount = 0 then some 0 else some bestScore
  | move :: rest, bestScore, moveCount =>
    match env.makeMove p move with
    | none => moveLoop env search p beta depth rest bestScore moveCount
    | some position =>
      match moveScore env search position beta depth with
      | none => none
      | some moveScore =>
        if moveScore > bestScore then
          if moveScore ≥ beta then some moveScore
          else moveLoop env search p beta depth rest moveScore (moveCount + 1)
        else moveLoop env search p beta depth rest bestScore (moveCount + 1)

/-- Search with zero window.  The first argument bounds the depth of the
recursion; `none` stands for a search that does not return within it. -/
def xSearchWithZeroWindow {P M : Type} (env : SearchEnv P M) :
    Nat → P → Int → Int → Option Int
  | 0, _, _, _ => none
  | fuel + 1, p, beta, depth =>
    if env.isRepetition p then some 0
    else
      let bestScore := env.ply p - env.checkmate
      if bestScore ≥ beta then some bestScore
      else moveLoop env (xSearchWithZeroWindow env fuel) p beta depth (env.moves p) bestScore 0

/-- The negated child score of a position reached by a legal move, the recursion
bounded by `fuel`. -/
def negChildScore {P M : Type} (env : SearchEnv P M) (fuel : Nat) (beta depth : Int)
    (position : P) : Option Int :=
  moveScore env (xSearchWithZeroWindow env fuel) position beta depth

/-- The positions reached by the legal moves of `p`, in ranked order. -/
def legalChildren {P M : Type} (env : SearchEnv P M) (p : P) : List P :=
  (env.moves p).filterMap (env.makeMove p)

/-- A three-move position for the examples: moves 1 and 3 are legal, move 2 is
not; the positions reached are leaves scored by the quiescence search. -/
def sampleSearchEnv : SearchEnv Nat Nat where
  isRepetition := fun _ => false
  ply := fun p => if p = 0 then 0 else 1
  checkmate := 32766
  moves := fun p => if p = 0 then [1, 2, 3] else []
  makeMove := fun p m => if p = 0 ∧ m ≠ 2 then some m else none
  isInCheck := fun _ => false
  xSearchQuiescence := fun p _ _ => some (if p = 1 then -20 else -70)
  xSearchInCheck := fun _ _ _ => none

/-- Sample tables for the pawn evaluation: a white pawn on `E4` with the squares
`E5 .. E8` in front of it. -/
def samplePawnInput : PawnInput where
  maskIsolated := fun _ => 0
  maskRank := fun _ => 0
  maskInFront := fun color sq =>
    if color = 0 ∧ sq = 28 then 2 ^ 36 + 2 ^ 44 + 2 ^ 52 + 2 ^ 60
    else if color = 1 ∧ sq = 28 then 2 ^ 20 + 2 ^ 12 + 2 ^ 4
    else 0
  maskPassed := fun _ _ => 0
  pawnMoves := fun _ _ => 0
  penaltyIsolatedPawn := fun _ => ⟨0, 0⟩
  penaltyWeakIsolatedPawn := fun _ => ⟨0, 0⟩
  penaltyDoubledPawn := fun _ => ⟨0, 0⟩
  penaltyBackwardPawn := fun _ => ⟨0, 0⟩
  penaltyWeakBackwardPawn := fun _ => ⟨0, 0⟩
  bonusSupportedPawn := fun _ => 0
  bonusPassedPawn := fun row => ⟨10 * row, 20 * row⟩
  extraPassedPawn := fun row => row
  pawnBlocked := ⟨2, 6⟩
  eight := fun color => if color = 0 then 8 else -8
  Flip := fun color sq => if color = 0 then sq else 63 - sq
  RelRow := fun sq color => if color = 0 then Row sq else 7 - Row sq
  pawn := fun color => color + 2
  rook := fun color => color + 8
  queen := fun color => color + 10
  rookMoves := fun p sq => createRookAttacks sq p.board

/-- A sample evaluation state: a white passed pawn on `E4`, a black piece on `E7`,
and `E5` attacked by White. -/
def sampleEvaluation : Evaluation where
  position :=
    { outposts := fun i => if i = 1 then 2 ^ 52 else if i = 2 then 2 ^ 28 else 0
      board := 2 ^ 28 + 2 ^ 52
      hashPawn := 12345 }
  score := ⟨0, 0⟩
  pawns := 0
  attacks := fun color => if color = 0 then 2 ^ 36 else 0
  pawnCache := fun _ => { hash := 0, score := ⟨0, 0⟩, passers := fun _ => 0 }

/-! ## init.go: evaluation flags and endgame handlers -/

/-- The evaluation flags of a material entry.  In the source they are distinct
bits of a `uint8` (their declarations are not among the sources); each bit is a
field here. -/
structure Flags where
  whiteKingSafety : Bool
  blackKingSafety : Bool
  materialDraw : Bool
  knownEndgame : Bool
  lesserKnownEndgame : Bool
  singleBishops : Bool
deriving DecidableEq, Repr

/-- No flag set. -/
def Flags.none : Flags :=
  { whiteKingSafety := false, blackKingSafety := false, materialDraw := false,
    knownEndgame := false, lesserKnownEndgame := false, singleBishops := false }

/-- The endgame handlers that `endgames` can select. -/
inductive Endgame
  | kingAndPawnVsBareKing
  | knightAndBishopVsBareKing
  | twoBishopsVsBareKing
  | winAgainstBareKing
  | kingAndPawnsVsBareKing
  | queenVsRookAndPawns
  | kingAndPawnVsKingAndPawn
  | bishopAndPawnVsBareKing
  | rookAndPawnVsRook
  | bishopsAndPawns
  | drawishBishops
deriving DecidableEq, Repr

/-- The value that an arithmetic result `n` has as a Go `int` (64 bits, two's
complement): `n` wrapped into `-2^63 .. 2^63 - 1`. -/
def wrap64 (n : Int) : Int := (n + 2 ^ 63) % 2 ^ 64 - 2 ^ 63

/-- The prologue of `endgames`: the king safety flags, set if the opposing side has
a queen and at least one piece.  Sums are Go `int` sums. -/
def kingSafetyFlags (wN wB wR wQ bN bB bR bQ : Int) : Flags :=
  let flags := Flags.none
  let flags :=
    if wQ > 0 ∧ wrap64 (wrap64 (wN + wB) + wR) > 0 then { flags with blackKingSafety := true }
    else flags
  let flags :=
    if bQ > 0 ∧ wrap64 (wrap64 (bN + bB) + bR) > 0 then { flags with whiteKingSafety := true }
    else flags
  flags

/-- The `if / else if` chain of `endgames`, entered with the king safety flags
already in `flags`.  Every sum, difference and product is a Go `int` operation,
wrapped by `wrap64` in the order in which Go evaluates it. -/
def endgamesChain (flags : Flags) (wP wN wB wR wQ bP bN bB bR bQ : Int) :
    Flags × Option Endgame :=
  let wMinor := wrap64 (wN + wB)
  let wMajor := wrap64 (wR + wQ)
  let bMinor := wrap64 (bN + bB)
  let bMajor := wrap64 (bR + bQ)
  let allMinor := wrap64 (wMinor + bMinor)
  let allMajor := wrap64 (wMajor + bMajor)
  let noPawns : Bool := wrap64 (wP + bP) = 0
  -- Bare king (white, black or both).
  let bareKing : Bool :=
    wrap64 (wrap64 (wrap64 (wP + wMinor) + wMajor) * wrap64 (wrap64 (bP + bMinor) + bMajor)) = 0
  -- Insufficient material endgames that don't require further evaluation:
  -- 1) Two bare kings.
  if wrap64 (wrap64 (wrap64 (wP + bP) + allMinor) + allMajor) = 0 then
    ({ flags with materialDraw := true }, none)
  -- 2) No pawns and king with a minor.
  else if noPawns ∧ allMajor = 0 ∧ wMinor < 2 ∧ bMinor < 2 then
    ({ flags with materialDraw := true }, none)
  -- 3) No pawns and king with two knights.
  else if noPawns ∧ allMajor = 0 ∧ allMinor = 2 ∧ (wN = 2 ∨ bN = 2) then
    ({ flags with materialDraw := true }, none)
  -- Known endgame: king and a pawn vs. bare king.
  else if wrap64 (wP + bP) = 1 ∧ allMinor = 0 ∧ allMajor = 0 then
    ({ flags with knownEndgame := true }, some .kingAndPawnVsBareKing)
  -- Known endgame: king with a knight and a bishop vs. bare king.
  else if noPawns ∧ allMajor = 0 ∧ ((wN = 1 ∧ wB = 1) ∨ (bN = 1 ∧ bB = 1)) then
    ({ flags with knownEndgame := true }, some .knightAndBishopVsBareKing)
  -- Known endgame: two bishops vs. bare king.
  else if noPawns ∧ allMajor = 0 ∧ ((wN = 0 ∧ wB = 2) ∨ (bN = 0 ∧ bB = 2)) then
    ({ flags with knownEndgame := true }, some .twoBishopsVsBareKing)
  -- Known endgame: king with some winning material vs. bare king.
  else if bareKing ∧ allMajor > 0 then
    ({ flags with knownEndgame := true }, some .winAgainstBareKing)
  -- Lesser known endgame: king and two or more pawns vs. bare king.
  else if bareKing ∧ wrap64 (allMinor + allMajor) = 0 ∧ wrap64 (wP + bP) > 1 then
    ({ flags with lesserKnownEndgame := true }, some .kingAndPawnsVsBareKing)
  -- Lesser known endgame: queen vs. rook with pawn(s)
  else if (wrap64 (wrap64 (wP + wMinor) + wR) = 0 ∧ wQ = 1 ∧ wrap64 (bMinor + bQ) = 0 ∧
        bP > 0 ∧ bR = 1) ∨
      (wrap64 (wrap64 (bP + bMinor) + bR) = 0 ∧ bQ = 1 ∧ wrap64 (wMinor + wQ) = 0 ∧
        wP > 0 ∧ wR = 1) then
    ({ flags with lesserKnownEndgame := true }, some .queenVsRookAndPawns)
  -- Lesser known endgame: king and pawn vs. king and pawn.
  else if wrap64 (allMinor + allMajor) = 0 ∧ wP = 1 ∧ bP = 1 then
    ({ flags with lesserKnownEndgame := true }, some .kingAndPawnVsKingAndPawn)
  -- Lesser known endgame: bishop and pawn vs. bare king.
  else if bareKing ∧ allMajor = 0 ∧ allMinor = 1 ∧
      ((wrap64 (wB + wP) = 2) ∨ (wrap64 (bB + bP) = 2)) then
    ({ flags with lesserKnownEndgame := true }, some .bishopAndPawnVsBareKing)
  -- Lesser known endgame: rook and pawn vs. rook.
  else if allMinor = 0 ∧ wrap64 (wQ + bQ) = 0 ∧
      ((wrap64 (wR + wP) = 2) ∨ (wrap64 (bR + bP) = 2)) then
    ({ flags with lesserKnownEndgame := true }, some .rookAndPawnVsRook)
  -- Check for potential opposite-colored bishops.
  else if wrap64 (wB * bB) = 1 then
    let flags := { flags with singleBishops := true }
    if allMajor = 0 ∧ allMinor = 2 ∧ wrap64 (Abs (wrap64 (wP - bP))) < 3 then
      ({ flags with lesserKnownEndgame := true }, some .bishopsAndPawns)
    else if flags.whiteKingSafety = false ∧ flags.blackKingSafety = false then
      ({ flags with lesserKnownEndgame := true }, some .drawishBishops)
    else (flags, none)
  else (flags, none)

/-- The evaluation flags and the endgame handler (`none` for `nil`) of a
combination of piece counts. -/
def endgames (wP wN wB wR wQ bP bN bB bR bQ : Int) : Flags × Option Endgame :=
  endgamesChain (kingSafetyFlags wN wB wR wQ bN bB bR bQ) wP wN wB wR wQ bP bN bB bR bQ

/-- The flags with the two king-safety flags exchanged. -/
def Flags.swapKingSafety (f : Flags) : Flags :=
  { f with whiteKingSafety := f.blackKingSafety, blackKingSafety := f.whiteKingSafety }

/-- A position with one legal move, which gives check: the position reached is
scored 5 by the quiescence search and 7 by the in-check search. -/
def sampleCheckEnv : SearchEnv Nat Nat where
  isRepetition := fun _ => false
  ply := fun p => if p = 0 then 0 else 1
  checkmate := 32766
  moves := fun p => if p = 0 then [1] else []
  makeMove := fun p m => if p = 0 ∧ m = 1 then some 1 else none
  isInCheck := fun p => decide (p = 1)
  xSearchQuiescence := fun _ _ _ => some 5
  xSearchInCheck := fun _ _ _ => some 7

/-! ## Relevant occupancy and subset ranks, for the claims on the magic tables -/

/-- The mask `M` holds every square of the ray from `(c, r)` in direction `(dc, dr)`
that has a further square of the ray behind it. -/
def rayCovered (cond : Int → Int → Bool) (dc dr c r : Int) (M : Nat) : Prop :=
  ∀ k : Nat, k < 8 → cond (c + k * dc) (r + k * dr) = true →
    cond (c + (k + 1 : Nat) * dc) (r + (k + 1 : Nat) * dr) = true →
      M.testBit (rayIdx dc dr c r k) = true

instance (cond : Int → Int → Bool) (dc dr c r : Int) (M : Nat) :
    Decidable (rayCovered cond dc dr c r M) := by
  unfold rayCovered; infer_instance

/-- The number of set bits of `mask` below position `p`.  Position `p` is the
`j`-th lowest set bit of `mask` (counting from 0) when bit `p` of `mask` is set
and `setBitsBelow mask p = j`. -/
def setBitsBelow (mask p : Nat) : Nat := (List.range p).countP (fun i => mask.testBit i)


/-! ## init.go: the fixed tables of `initMasks` and `setupMasks` -/

/-- Modelled from the spec: the colour constant `White`, whose declaration is not
among the sources; the first index of the `[2][64]` tables. -/
def White : Nat := 0

/-- Modelled from the spec: the colour constant `Black`, whose declaration is not
among the sources; the second index of the `[2][64]` tables. -/
def Black : Nat := 1

/-- The row constant `A7H7` (seventh rank), index 6. -/
def A7H7 : Int := 6

/-- The bit pattern of a Go `int` converted to an unsigned 64-bit value. -/
def toUint64 (n : Int) : Nat := (n % (two64 : Int)).toNat

/-- Modelled from the spec: the method `Bitmask.set`, whose body is not among the
sources; square `n` is added to the bitmask. -/
def Bitmask.set (b : Nat) (n : Int) : Nat := b ||| bit n.toNat

/-- Modelled from the spec: the table `maskRank`, whose declaration is not among
the sources; entry `r` is the complete rank `r`, the eight squares `8 * r .. 8 * r + 7`. -/
def maskRank (r : Int) : Nat := (0xFF <<< (8 * r.toNat)) % two64

/-- Modelled from the spec: the table `maskFile`, whose declaration is not among
the sources; entry `c` is the complete file `c`, the eight squares `c, c + 8, .. , c + 56`. -/
def maskFile (c : Int) : Nat := (0x0101010101010101 <<< c.toNat) % two64

/-- Modelled from the spec: the constant `maskA1H8`, whose declaration is not
among the sources; the eight squares of the diagonal from `A1` to `H8`. -/
def maskA1H8 : Nat := 0x8040201008040201

/-- Modelled from the spec: the constant `maskH1A8`, whose declaration is not
among the sources; the eight squares of the anti-diagonal from `H1` to `A8`. -/
def maskH1A8 : Nat := 0x0102040810204080

/-- The fixed tables of `initMasks` that the claims are about: `kingMoves`,
`knightMoves`, `pawnMoves`, `maskStraight`, `maskDiagonal` and `maskPawn`, as
functions of their indices. -/
structure FixedMasks where
  kingMoves : Nat → Nat
  knightMoves : Nat → Nat
  pawnMoves : Nat → Nat → Nat
  maskStraight : Nat → Nat → Nat
  maskDiagonal : Nat → Nat → Nat
  maskPawn : Nat → Nat → Nat

/-- The zero-initialised fixed tables. -/
def FixedMasks.zero : FixedMasks :=
  { kingMoves := fun _ => 0, knightMoves := fun _ => 0, pawnMoves := fun _ _ => 0,
    maskStraight := fun _ _ => 0, maskDiagonal := fun _ _ => 0, maskPawn := fun _ _ => 0 }

/-- Assignment to entry `[i][j]` of a two-dimensional array. -/
def writeAt2 (f : Nat → Nat → Nat) (i j : Nat) (v : Nat) : Nat → Nat → Nat :=
  writeAt f i (writeAt (f i) j v)

/-- The function `setupMasks`, restricted to `maskStraight` and `maskDiagonal`
(the tables `maskBlock` and `maskEvade` that it also fills are written through
`fill` and `spot`, which are not among the sources, and are read nowhere here). -/
def setupMasks (T : FixedMasks) (square target : Nat) (row col r c : Int) : FixedMasks :=
  if row = r then
    if col ≠ c then
      { T with maskStraight := writeAt2 T.maskStraight square target (maskRank r) }
    else T
  else if col = c then
    if row ≠ r then
      { T with maskStraight := writeAt2 T.maskStraight square target (maskFile c) }
    else T
  else if r + col = row + c then
    -- Diagonals (A1->H8).
    let shift := toUint64 (r - c) &&& 15
    if shift < 8 then
      -- A1-A8-H8
      { T with maskDiagonal :=
          writeAt2 T.maskDiagonal square target ((maskA1H8 <<< (toUint64 (8 * shift))) % two64) }
    else
      -- B1-H1-H7
      { T with maskDiagonal :=
          writeAt2 T.maskDiagonal square target (maskA1H8 >>> (toUint64 (8 * (16 - (shift : Int))))) }
  else if row + col = r + c then
    -- AntiDiagonals (H1->A8).
    let shift := 7 ^^^ toUint64 (r + c)
    if shift < 8 then
      -- A8-A1-H1
      { T with maskDiagonal :=
          writeAt2 T.maskDiagonal square target (maskH1A8 >>> (toUint64 (8 * shift))) }
    else
      -- B8-H8-H2
      { T with maskDiagonal :=
          (writeAt2 T.maskDiagonal square target
            ((maskH1A8 <<< (toUint64 (8 * (16 - (shift : Int))))) % two64)) }
  else T

/-- The body of the loop `for i := A1; i <= H8; i++` of `initMasks`, restricted to
the tables of `FixedMasks` (the table `distance` is not modelled). -/
def initMasksTarget (square : Nat) (row col : Int) (T : FixedMasks) (i : Nat) : FixedMasks :=
  let (r, c) := Coordinate i
  let T := setupMasks T square i row col r c
  if (i : Int) = square ∨ Abs ((i : Int) - square) > 17 then
    -- No king or knight can reach that far.
    T
  else
    let T :=
      if (Abs (r - row) = 2 ∧ Abs (c - col) = 1) ∨ (Abs (r - row) = 1 ∧ Abs (c - col) = 2) then
        { T with knightMoves := writeAt T.knightMoves square (Bitmask.set (T.knightMoves square) i) }
      else T
    if Abs (r - row) ≤ 1 ∧ Abs (c - col) ≤ 1 then
      { T with kingMoves := writeAt T.kingMoves square (Bitmask.set (T.kingMoves square) i) }
    else T

/-- The statement group `// Pawns.` of `initMasks`. -/
def initMasksPawnMoves (T : FixedMasks) (square : Nat) (row col : Int) : FixedMasks :=
  if row ≥ A2H2 ∧ row ≤ A7H7 then
    let T :=
      if col > 0 then
        let T := { T with pawnMoves := (writeAt2 T.pawnMoves White square
          (Bitmask.set (T.pawnMoves White square) (Square (row + 1) (col - 1)))) }
        { T with pawnMoves := (writeAt2 T.pawnMoves Black square
          (Bitmask.set (T.pawnMoves Black square) (Square (row - 1) (col - 1)))) }
      else T
    if col < 7 then
      let T := { T with pawnMoves := (writeAt2 T.pawnMoves White square
        (Bitmask.set (T.pawnMoves White square) (Square (row + 1) (col + 1)))) }
      { T with pawnMoves := (writeAt2 T.pawnMoves Black square
        (Bitmask.set (T.pawnMoves Black square) (Square (row - 1) (col + 1)))) }
    else T
  else T

/-- The statement group `// Pawn attacks.` of `initMasks`. -/
def initMasksPawnAttacks (T : FixedMasks) (square : Nat) (row col : Int) : FixedMasks :=
  let T :=
    -- White pawns can't attack first two ranks.
    if row > 1 then
      let T :=
        if col ≠ 0 then
          { T with maskPawn := (writeAt2 T.maskPawn White square
            (T.maskPawn White square ||| bit ((square : Int) - 9).toNat)) }
        else T
      if col ≠ 7 then
        { T with maskPawn := (writeAt2 T.maskPawn White square
          (T.maskPawn White square ||| bit ((square : Int) - 7).toNat)) }
      else T
    else T
  if row < 6 then
    let T :=
      if col ≠ 0 then
        { T with maskPawn := (writeAt2 T.maskPawn Black square
          (T.maskPawn Black square ||| bit ((square : Int) + 7).toNat)) }
      else T
    if col ≠ 7 then
      { T with maskPawn := (writeAt2 T.maskPawn Black square
        (T.maskPawn Black square ||| bit ((square : Int) + 9).toNat)) }
    else T
  else T

/-- The body of the square loop of `initMasks`, restricted to the tables of
`FixedMasks`. -/
def initMasksFixedSquare (T : FixedMasks) (square : Nat) : FixedMasks :=
  let (row, col) := Coordinate square
  -- Pawns.
  let T := initMasksPawnMoves T square row col
  -- Distance, Blocks, Evasions, Straight, Diagonals, Knights, and Kings.
  let T := (List.range 64).foldl (initMasksTarget square row col) T
  -- Pawn attacks.
  initMasksPawnAttacks T square row col

/-- The fixed tables after `initMasks`: the square loop `A1 .. H8` run on the
zero-initialised tables. -/
def initMasksFixed : FixedMasks :=
  (List.range 64).foldl initMasksFixedSquare FixedMasks.zero

/-- The bitmask of the squares `0 .. 63` that satisfy `P`. -/
def squaresWhere (P : Nat → Bool) : Nat :=
  (List.range 64).foldl (fun m t => if P t then m ||| bit t else m) 0

/-- Tables `T` and `T1` hold the same entries for square `a`: the entries
`[a]` of `kingMoves` and `knightMoves`, `[colour][a]` of `pawnMoves` and `maskPawn`,
and `[a][b]` of `maskStraight` and `maskDiagonal`. -/
def FixedMasks.agree (T T1 : FixedMasks) (a : Nat) : Prop :=
  T.kingMoves a = T1.kingMoves a ∧ T.knightMoves a = T1.knightMoves a ∧
  (∀ c, T.pawnMoves c a = T1.pawnMoves c a) ∧ (∀ c, T.maskPawn c a = T1.maskPawn c a) ∧
  (∀ b, T.maskStraight a b = T1.maskStraight a b) ∧
  (∀ b, T.maskDiagonal a b = T1.maskDiagonal a b)

/-! ## Sample state and call trace for the last claims -/

/-- A sample evaluation state: a white passed pawn on `E4` with a black rook
behind it on `E1`; `E5` is attacked by White. -/
def sampleRookBehind : Evaluation where
  position :=
    { outposts := fun i => if i = 1 then 2 ^ 4 else if i = 9 then 2 ^ 4
        else if i = 2 then 2 ^ 28 else 0
      board := 2 ^ 28 + 2 ^ 4
      hashPawn := 12345 }
  score := ⟨0, 0⟩
  pawns := 0
  attacks := fun color => if color = 0 then 2 ^ 36 else 0
  pawnCache := fun _ => { hash := 0, score := ⟨0, 0⟩, passers := fun _ => 0 }

/-- The calls of `MakeMove` and `TakeBack` that `xSearchWithZeroWindow` makes on
its own position: `make move result` for `p.MakeMove(move)` with the position it
yields (`none` for `nil`), and `takeBack position move` for
`position.TakeBack(move)`. -/
inductive SearchCall (P M : Type)
  | make (move : M) (result : Option P)
  | takeBack (position : P) (move : M)
deriving DecidableEq, Repr

/-- The move loop of `xSearchWithZeroWindow` with the calls of `MakeMove` and
`TakeBack` recorded in program order next to the value returned. -/
def moveLoopCalls {P M : Type} (env : SearchEnv P M) (search : P → Int → Int → Option Int)
    (p : P) (beta depth : Int) : List M → Int → Nat → Option (Int × List (SearchCall P M))
  | [], bestScore, moveCount => some (if moveCount = 0 then 0 else bestScore, [])
  | move :: rest, bestScore, moveCount =>
    match env.makeMove p move with
    | none =>
      (moveLoopCalls env search p beta depth rest bestScore moveCount).map
        (fun r => (r.1, SearchCall.make move none :: r.2))
    | some position =>
      match moveScore env search position beta depth with
      | none => none
      | some moveScore =>
        -- position.TakeBack(move)
        if moveScore > bestScore then
          if moveScore ≥ beta then
            some (moveScore, [SearchCall.make move (some position), SearchCall.takeBack position move])
          else
            (moveLoopCalls env search p beta depth rest moveScore (moveCount + 1)).map
              (fun r => (r.1, SearchCall.make move (some position) ::
                SearchCall.takeBack position move :: r.2))
        else
          (moveLoopCalls env search p beta depth rest bestScore (moveCount + 1)).map
            (fun r => (r.1, SearchCall.make move (some position) ::
              SearchCall.takeBack position move :: r.2))

/-- The function `xSearchWithZeroWindow` with its calls of `MakeMove` and `TakeBack`
recorded.  The first argument bounds the depth of the recursion. -/
def xSearchWithZeroWindowCalls {P M : Type} (env : SearchEnv P M) :
    Nat → P → Int → Int → Option (Int × List (SearchCall P M))
  | 0, _, _, _ => none
  | fuel + 1, p, beta, depth =>
    if env.isRepetition p then some (0, [])
    else
      let bestScore := env.ply p - env.checkmate
      if bestScore ≥ beta then some (bestScore, [])
      else moveLoopCalls env (xSearchWithZeroWindow env fuel) p beta depth (env.moves p) bestScore 0

/-- The calls that belong to one tried move: `MakeMove` alone when it returns
`nil`, else `MakeMove` followed by one `TakeBack` of the same move on the position
that `MakeMove` returned. -/
def movePair {P M : Type} (env : SearchEnv P M) (p : P) (move : M) : List (SearchCall P M) :=
  match env.makeMove p move with
  | none => [SearchCall.make move none]
  | some position => [SearchCall.make move (some position), SearchCall.takeBack position move]

/-! ## Passed pawns: modelled tables and the squares the loop visits -/

/-- Modelled from the spec: the table `maskInFront`, which `initMasks` fills through
the method `fill` that is not among the sources; "same column, ranks ahead": the
squares of the column of `square` on the rows above it for White, below it for
Black. -/
def maskInFront (color : Nat) (square : Int) : Nat :=
  if color = White then squaresWhere (fun t => decide (Col t = Col square ∧ Row t > Row square))
  else squaresWhere (fun t => decide (Col t = Col square ∧ Row t < Row square))

/-- Modelled from the spec: the table `eight`, whose declaration is not among the
sources; the step to the next square of a pawn, one row up for White and one row
down for Black. -/
def eight (color : Nat) : Int := if color = White then 8 else -8

/-- The pawn tables `tb` with `maskInFront` and `eight` as modelled. -/
def PawnInput.withInFront (tb : PawnInput) : PawnInput :=
  { tb with maskInFront := Donna.maskInFront, eight := Donna.eight }

/-- The squares that the loop `for pawns != 0 { square := pawns.pop() ... }` of
`pawnPassers` visits, in order.  The first argument bounds the number of
iterations, as in `pawnPassersLoop`. -/
def poppedSquares : Nat → Nat → List Nat
  | 0, _ => []
  | fuel + 1, pawns =>
    if pawns ≠ 0 then popSquare pawns :: poppedSquares fuel (popRest pawns) else []

/-- A sample evaluation state for `pawnPassers`: the state `sampleEvaluation` with
the white pawn on `E4` recorded as passed in the cache line. -/
def samplePassers : Evaluation :=
  { sampleEvaluation with
    pawnCache := fun _ =>
      { hash := 0, score := ⟨0, 0⟩, passers := fun color => if color = 0 then 2 ^ 28 else 0 } }


/-! ## Ray lemmas -/

theorem Row_nonneg_eq (n : Int) (h : 0 ≤ n) : Row n = n / 8 := by
  unfold Row; exact Int.tdiv_eq_ediv h (by decide)

theorem Col_nonneg_eq (n : Int) (h : 0 ≤ n) : Col n = n % 8 := by
  unfold Col; exact Int.tmod_eq_emod h (by decide)

theorem land_bit_ne_zero (mask n : Nat) : (mask &&& bit n ≠ 0) ↔ mask.testBit n = true := by
  unfold bit
  rw [Nat.and_two_pow]
  cases h : mask.testBit n <;> simp

theorem testBit_lor_bit (a n j : Nat) :
    (a ||| bit n).testBit j = (a.testBit j || decide (n = j)) := by
  unfold bit
  rw [Nat.testBit_lor, Nat.testBit_two_pow]

/-- Bits of a ray: the bits already present, and for each step `k` that the loop
reaches (every earlier square satisfied the guard and held no blocker) the
`k`-th square of the ray. -/
theorem rayLoop_testBit (cond : Int → Int → Bool) (dc dr : Int) (mask : Nat) (j : Nat) :
    ∀ (fuel : Nat) (c r : Int) (bitmask : Nat),
      (rayLoop cond dc dr mask fuel c r bitmask).testBit j = true ↔
        (bitmask.testBit j = true ∨
          ∃ k, k < fuel ∧ j = rayIdx dc dr c r k ∧
            (∀ i, i ≤ k → cond (c + i * dc) (r + i * dr) = true) ∧
            (∀ i, i < k → mask.testBit (rayIdx dc dr c r i) = false)) := by
  intro fuel
  induction fuel with
  | zero =>
    intro c r bitmask
    simp [rayLoop]
  | succ n ih =>
    intro c r bitmask
    have shiftIdx : ∀ i : Nat, rayIdx dc dr (c + dc) (r + dr) i = rayIdx dc dr c r (i + 1) := by
      intro i
      unfold rayIdx
      congr 1
      push_cast
      ring
    have shiftC : ∀ i : Nat, c + dc + (i : Int) * dc = c + ((i + 1 : Nat) : Int) * dc := by
      intro i; push_cast; ring
    have shiftR : ∀ i : Nat, r + dr + (i : Int) * dr = r + ((i + 1 : Nat) : Int) * dr := by
      intro i; push_cast; ring
    have idx0 : rayIdx dc dr c r 0 = (r * 8 + c).toNat := by
      unfold rayIdx; simp
    unfold rayLoop
    by_cases hc : cond c r = true
    · simp only [hc, if_true]
      by_cases hb : mask.testBit (r * 8 + c).toNat = true
      · have hb2 : mask &&& bit (r * 8 + c).toNat ≠ 0 := (land_bit_ne_zero _ _).2 hb
        simp only [hb2, ne_eq, not_false_eq_true, if_true, not_true_eq_false]
        rw [testBit_lor_bit]
        constructor
        · intro h
          rcases Bool.or_eq_true _ _ ▸ h with h | h
          · exact Or.inl h
          · right
            refine ⟨0, Nat.succ_pos _, ?_, ?_, ?_⟩
            · rw [idx0]; exact (of_decide_eq_true h).symm
            · intro i hi
              have : i = 0 := Nat.le_zero.mp hi
              subst this
              simpa using hc
            · intro i hi; exact absurd hi (Nat.not_lt_zero _)
        · intro h
          rcases h with h | ⟨k, _, hj, _, hm⟩
          · simp [h]
          · cases k with
            | zero => rw [hj, idx0]; simp
            | succ k =>
              have := hm 0 (Nat.succ_pos _)
              rw [idx0, hb] at this
              exact absurd this (by simp)
      · have hb2 : ¬ (mask &&& bit (r * 8 + c).toNat ≠ 0) := fun h => hb ((land_bit_ne_zero _ _).1 h)
        have hb3 : mask.testBit (r * 8 + c).toNat = false := by simpa using hb
        simp only [hb2, if_false]
        rw [ih, testBit_lor_bit]
        constructor
        · intro h
          rcases h with h | ⟨k, hk, hj, hcond, hm⟩
          · rcases Bool.or_eq_true _ _ ▸ h with h | h
            · exact Or.inl h
            · right
              refine ⟨0, Nat.succ_pos _, ?_, ?_, ?_⟩
              · rw [idx0]; exact (of_decide_eq_true h).symm
              · intro i hi
                have : i = 0 := Nat.le_zero.mp hi
                subst this
                simpa using hc
              · intro i hi; exact absurd hi (Nat.not_lt_zero _)
          · right
            refine ⟨k + 1, Nat.succ_lt_succ hk, ?_, ?_, ?_⟩
            · rw [hj, shiftIdx]
            · intro i hi
              cases i with
              | zero => simpa using hc
              | succ i =>
                have := hcond i (Nat.le_of_succ_le_succ hi)
                rw [shiftC, shiftR] at this
                exact this
            · intro i hi
              cases i with
              | zero => rw [idx0]; exact hb3
              | succ i =>
                have := hm i (Nat.lt_of_succ_lt_succ hi)
                rw [shiftIdx] at this
                exact this
        · intro h
          rcases h with h | ⟨k, hk, hj, hcond, hm⟩
          · left; simp [h]
          · cases k with
            | zero =>
              left
              rw [hj, idx0]; simp
            | succ k =>
              right
              refine ⟨k, Nat.lt_of_succ_lt_succ hk, ?_, ?_, ?_⟩
              · rw [hj, shiftIdx]
              · intro i hi
                have := hcond (i + 1) (Nat.succ_le_succ hi)
                rw [shiftC, shiftR]
                exact this
              · intro i hi
                have := hm (i + 1) (Nat.succ_lt_succ hi)
                rw [shiftIdx]
                exact this
    · have hc2 : cond c r = false := by simpa using hc
      simp only [hc2, Bool.false_eq_true, if_false]
      constructor
      · intro h; exact Or.inl h
      · intro h
        rcases h with h | ⟨k, _, _, hcond, _⟩
        · exact h
        · have := hcond 0 (Nat.zero_le _)
          simp [hc2] at this


/-- A ray loop whose guard is the on-board test along its ray adds exactly the
squares that `rayHit` describes. -/
theorem rayLoop_hit (cond : Int → Int → Bool) (dc dr : Int)
    (hdc : dc = -1 ∨ dc = 0 ∨ dc = 1) (hdr : dr = -1 ∨ dr = 0 ∨ dr = 1)
    (hne : dc ≠ 0 ∨ dr ≠ 0)
    (sq : Int) (h0 : 0 ≤ sq) (h1 : sq ≤ 63) (occ t bm : Nat) (ht : t ≤ 63)
    (hcond : ∀ i : Nat, (cond (sq % 8 + dc + i * dc) (sq / 8 + dr + i * dr) = true ↔
      (0 ≤ sq % 8 + dc + i * dc ∧ sq % 8 + dc + i * dc ≤ 7 ∧
        0 ≤ sq / 8 + dr + i * dr ∧ sq / 8 + dr + i * dr ≤ 7))) :
    (rayLoop cond dc dr occ 8 (sq % 8 + dc) (sq / 8 + dr) bm).testBit t = true ↔
      (bm.testBit t = true ∨ rayHit dc dr sq t occ) := by
  rw [rayLoop_testBit]
  apply or_congr Iff.rfl
  unfold rayHit
  rw [Row_nonneg_eq sq h0, Col_nonneg_eq sq h0,
    Row_nonneg_eq (t : Int) (Int.natCast_nonneg t), Col_nonneg_eq (t : Int) (Int.natCast_nonneg t)]
  have idxEq : ∀ i : Nat, rayIdx dc dr (sq % 8 + dc) (sq / 8 + dr) i =
      (Square (sq / 8 + (i + 1) * dr) (sq % 8 + (i + 1) * dc)).toNat := by
    intro i
    unfold rayIdx Square
    congr 1
    ring
  constructor
  · rintro ⟨k, hk, hj, hc, hm⟩
    refine ⟨k, ?_, ?_, ?_⟩
    · have := (hcond k).1 (hc k (Nat.le_refl _))
      rw [hj]; unfold rayIdx
      rcases hdc with rfl | rfl | rfl <;> rcases hdr with rfl | rfl | rfl <;> simp at this ⊢ <;> omega
    · have := (hcond k).1 (hc k (Nat.le_refl _))
      rw [hj]; unfold rayIdx
      rcases hdc with rfl | rfl | rfl <;> rcases hdr with rfl | rfl | rfl <;> simp at this ⊢ <;> omega
    · intro i hi
      rw [← idxEq]
      exact hm i hi
  · rintro ⟨k, hr, hcl, hm⟩
    have hk8 : k < 8 := by
      rcases hdc with rfl | rfl | rfl <;> rcases hdr with rfl | rfl | rfl <;> simp at hr hcl hne ⊢ <;> omega
    refine ⟨k, hk8, ?_, ?_, ?_⟩
    · unfold rayIdx
      rcases hdc with rfl | rfl | rfl <;> rcases hdr with rfl | rfl | rfl <;> simp at hr hcl hne ⊢ <;> omega
    · intro i hi
      rw [hcond i]
      rcases hdc with rfl | rfl | rfl <;> rcases hdr with rfl | rfl | rfl <;> simp at hr hcl hne ⊢ <;> omega
    · intro i hi
      rw [idxEq]
      exact hm i hi


theorem Row_natCast (u : Nat) : Row (u : Int) = (u : Int) / 8 :=
  Row_nonneg_eq _ (Int.natCast_nonneg u)

theorem Col_natCast (u : Nat) : Col (u : Int) = (u : Int) % 8 :=
  Col_nonneg_eq _ (Int.natCast_nonneg u)

theorem rook_geometry (sq : Int) (occ t : Nat) (h0 : 0 ≤ sq) (h1 : sq ≤ 63) (ht : t ≤ 63) :
    (rayHit 0 1 sq t occ ∨ rayHit 1 0 sq t occ ∨ rayHit 0 (-1) sq t occ ∨ rayHit (-1) 0 sq t occ) ↔
      ((t : Int) ≠ sq ∧ (Row t = Row sq ∨ Col t = Col sq) ∧
        ∀ u : Nat, u ≤ 63 → betweenStraight sq t u → occ.testBit u = false) := by
  unfold rayHit betweenStraight Square
  simp only [Row_natCast, Col_natCast, Row_nonneg_eq sq h0, Col_nonneg_eq sq h0]
  constructor
  · intro h
    rcases h with ⟨k, hr, hc, hm⟩ | ⟨k, hr, hc, hm⟩ | ⟨k, hr, hc, hm⟩ | ⟨k, hr, hc, hm⟩
    all_goals
      simp only [mul_zero, add_zero, mul_one, mul_neg] at hr hc hm
      refine ⟨by omega, by omega, ?_⟩
      intro u hu hb
    · obtain ⟨i, hi⟩ : ∃ i : Nat, (i : Int) = (u : Int) / 8 - sq / 8 - 1 := ⟨((u : Int) / 8 - sq / 8 - 1).toNat, by omega⟩
      have := hm i (by omega)
      have e : ((sq / 8 + ((i : Int) + 1)) * 8 + sq % 8).toNat = u := by omega
      rw [e] at this; exact this
    · obtain ⟨i, hi⟩ : ∃ i : Nat, (i : Int) = (u : Int) % 8 - sq % 8 - 1 := ⟨((u : Int) % 8 - sq % 8 - 1).toNat, by omega⟩
      have := hm i (by omega)
      have e : (sq / 8 * 8 + (sq % 8 + ((i : Int) + 1))).toNat = u := by omega
      rw [e] at this; exact this
    · obtain ⟨i, hi⟩ : ∃ i : Nat, (i : Int) = sq / 8 - (u : Int) / 8 - 1 := ⟨(sq / 8 - (u : Int) / 8 - 1).toNat, by omega⟩
      have := hm i (by omega)
      have e : ((sq / 8 + -((i : Int) + 1)) * 8 + sq % 8).toNat = u := by omega
      rw [e] at this; exact this
    · obtain ⟨i, hi⟩ : ∃ i : Nat, (i : Int) = sq % 8 - (u : Int) % 8 - 1 := ⟨(sq % 8 - (u : Int) % 8 - 1).toNat, by omega⟩
      have := hm i (by omega)
      have e : (sq / 8 * 8 + (sq % 8 + -((i : Int) + 1))).toNat = u := by omega
      rw [e] at this; exact this
  · rintro ⟨hne, hline, hclear⟩
    by_cases hN : (t : Int) % 8 = sq % 8 ∧ sq / 8 < (t : Int) / 8
    · left
      obtain ⟨k, hk⟩ : ∃ k : Nat, (k : Int) = (t : Int) / 8 - sq / 8 - 1 := ⟨((t : Int) / 8 - sq / 8 - 1).toNat, by omega⟩
      refine ⟨k, by omega, by omega, ?_⟩
      intro i hi
      simp only [mul_zero, add_zero, mul_one]
      obtain ⟨u, hu⟩ : ∃ u : Nat, (u : Int) = (sq / 8 + ((i : Int) + 1)) * 8 + sq % 8 := ⟨((sq / 8 + ((i : Int) + 1)) * 8 + sq % 8).toNat, by omega⟩
      rw [← hu, Int.toNat_ofNat]
      exact hclear u (by omega) (by omega)
    by_cases hE : (t : Int) / 8 = sq / 8 ∧ sq % 8 < (t : Int) % 8
    · right; left
      obtain ⟨k, hk⟩ : ∃ k : Nat, (k : Int) = (t : Int) % 8 - sq % 8 - 1 := ⟨((t : Int) % 8 - sq % 8 - 1).toNat, by omega⟩
      refine ⟨k, by omega, by omega, ?_⟩
      intro i hi
      simp only [mul_zero, add_zero, mul_one]
      obtain ⟨u, hu⟩ : ∃ u : Nat, (u : Int) = sq / 8 * 8 + (sq % 8 + ((i : Int) + 1)) := ⟨(sq / 8 * 8 + (sq % 8 + ((i : Int) + 1))).toNat, by omega⟩
      rw [← hu, Int.toNat_ofNat]
      exact hclear u (by omega) (by omega)
    by_cases hS : (t : Int) % 8 = sq % 8 ∧ (t : Int) / 8 < sq / 8
    · right; right; left
      obtain ⟨k, hk⟩ : ∃ k : Nat, (k : Int) = sq / 8 - (t : Int) / 8 - 1 := ⟨(sq / 8 - (t : Int) / 8 - 1).toNat, by omega⟩
      refine ⟨k, by omega, by omega, ?_⟩
      intro i hi
      simp only [mul_zero, add_zero, mul_one, mul_neg]
      obtain ⟨u, hu⟩ : ∃ u : Nat, (u : Int) = (sq / 8 + -((i : Int) + 1)) * 8 + sq % 8 := ⟨((sq / 8 + -((i : Int) + 1)) * 8 + sq % 8).toNat, by omega⟩
      rw [← hu, Int.toNat_ofNat]
      exact hclear u (by omega) (by omega)
    · right; right; right
      obtain ⟨k, hk⟩ : ∃ k : Nat, (k : Int) = sq % 8 - (t : Int) % 8 - 1 := ⟨(sq % 8 - (t : Int) % 8 - 1).toNat, by omega⟩
      refine ⟨k, by omega, by omega, ?_⟩
      intro i hi
      simp only [mul_zero, add_zero, mul_one, mul_neg]
      obtain ⟨u, hu⟩ : ∃ u : Nat, (u : Int) = sq / 8 * 8 + (sq % 8 + -((i : Int) + 1)) := ⟨(sq / 8 * 8 + (sq % 8 + -((i : Int) + 1))).toNat, by omega⟩
      rw [← hu, Int.toNat_ofNat]
      exact hclear u (by omega) (by omega)


theorem Abs_eq_Abs_iff (a b : Int) : Abs a = Abs b ↔ (a = b ∨ a = -b) := by
  unfold Abs; split_ifs <;> omega

theorem bishop_geometry (sq : Int) (occ t : Nat) (h0 : 0 ≤ sq) (h1 : sq ≤ 63) (ht : t ≤ 63) :
    (rayHit 1 1 sq t occ ∨ rayHit 1 (-1) sq t occ ∨ rayHit (-1) (-1) sq t occ ∨
        rayHit (-1) 1 sq t occ) ↔
      ((t : Int) ≠ sq ∧ onDiagonal sq t ∧
        ∀ u : Nat, u ≤ 63 → betweenDiagonal sq t u → occ.testBit u = false) := by
  unfold rayHit betweenDiagonal onDiagonal Square
  simp only [Abs_eq_Abs_iff, Row_natCast, Col_natCast, Row_nonneg_eq sq h0, Col_nonneg_eq sq h0]
  constructor
  · intro h
    rcases h with ⟨k, hr, hc, hm⟩ | ⟨k, hr, hc, hm⟩ | ⟨k, hr, hc, hm⟩ | ⟨k, hr, hc, hm⟩
    all_goals
      simp only [mul_zero, add_zero, mul_one, mul_neg] at hr hc hm
      refine ⟨by omega, by omega, ?_⟩
      intro u hu hb
    · obtain ⟨i, hi⟩ : ∃ i : Nat, (i : Int) = (u : Int) / 8 - sq / 8 - 1 := ⟨((u : Int) / 8 - sq / 8 - 1).toNat, by omega⟩
      have := hm i (by omega)
      have e : ((sq / 8 + ((i : Int) + 1)) * 8 + (sq % 8 + ((i : Int) + 1))).toNat = u := by omega
      rw [e] at this; exact this
    · obtain ⟨i, hi⟩ : ∃ i : Nat, (i : Int) = sq / 8 - (u : Int) / 8 - 1 := ⟨(sq / 8 - (u : Int) / 8 - 1).toNat, by omega⟩
      have := hm i (by omega)
      have e : ((sq / 8 + -((i : Int) + 1)) * 8 + (sq % 8 + ((i : Int) + 1))).toNat = u := by omega
      rw [e] at this; exact this
    · obtain ⟨i, hi⟩ : ∃ i : Nat, (i : Int) = sq / 8 - (u : Int) / 8 - 1 := ⟨(sq / 8 - (u : Int) / 8 - 1).toNat, by omega⟩
      have := hm i (by omega)
      have e : ((sq / 8 + -((i : Int) + 1)) * 8 + (sq % 8 + -((i : Int) + 1))).toNat = u := by omega
      rw [e] at this; exact this
    · obtain ⟨i, hi⟩ : ∃ i : Nat, (i : Int) = (u : Int) / 8 - sq / 8 - 1 := ⟨((u : Int) / 8 - sq / 8 - 1).toNat, by omega⟩
      have := hm i (by omega)
      have e : ((sq / 8 + ((i : Int) + 1)) * 8 + (sq % 8 + -((i : Int) + 1))).toNat = u := by omega
      rw [e] at this; exact this
  · rintro ⟨hne, hline, hclear⟩
    by_cases hNE : sq % 8 < (t : Int) % 8 ∧ sq / 8 < (t : Int) / 8
    · left
      obtain ⟨k, hk⟩ : ∃ k : Nat, (k : Int) = (t : Int) / 8 - sq / 8 - 1 := ⟨((t : Int) / 8 - sq / 8 - 1).toNat, by omega⟩
      refine ⟨k, by omega, by omega, ?_⟩
      intro i hi
      simp only [mul_zero, add_zero, mul_one]
      obtain ⟨u, hu⟩ : ∃ u : Nat, (u : Int) = (sq / 8 + ((i : Int) + 1)) * 8 + (sq % 8 + ((i : Int) + 1)) := ⟨((sq / 8 + ((i : Int) + 1)) * 8 + (sq % 8 + ((i : Int) + 1))).toNat, by omega⟩
      have hur : (u : Int) / 8 = sq / 8 + ((i : Int) + 1) := by omega
      have huc : (u : Int) % 8 = sq % 8 + ((i : Int) + 1) := by omega
      rw [← hu, Int.toNat_ofNat]
      exact hclear u (by omega) (by omega)
    by_cases hSE : sq % 8 < (t : Int) % 8 ∧ (t : Int) / 8 < sq / 8
    · right; left
      obtain ⟨k, hk⟩ : ∃ k : Nat, (k : Int) = sq / 8 - (t : Int) / 8 - 1 := ⟨(sq / 8 - (t : Int) / 8 - 1).toNat, by omega⟩
      refine ⟨k, by omega, by omega, ?_⟩
      intro i hi
      simp only [mul_zero, add_zero, mul_one, mul_neg]
      obtain ⟨u, hu⟩ : ∃ u : Nat, (u : Int) = (sq / 8 + -((i : Int) + 1)) * 8 + (sq % 8 + ((i : Int) + 1)) := ⟨((sq / 8 + -((i : Int) + 1)) * 8 + (sq % 8 + ((i : Int) + 1))).toNat, by omega⟩
      have hur : (u : Int) / 8 = sq / 8 + -((i : Int) + 1) := by omega
      have huc : (u : Int) % 8 = sq % 8 + ((i : Int) + 1) := by omega
      rw [← hu, Int.toNat_ofNat]
      exact hclear u (by omega) (by omega)
    by_cases hSW : (t : Int) % 8 < sq % 8 ∧ (t : Int) / 8 < sq / 8
    · right; right; left
      obtain ⟨k, hk⟩ : ∃ k : Nat, (k : Int) = sq / 8 - (t : Int) / 8 - 1 := ⟨(sq / 8 - (t : Int) / 8 - 1).toNat, by omega⟩
      refine ⟨k, by omega, by omega, ?_⟩
      intro i hi
      simp only [mul_zero, add_zero, mul_one, mul_neg]
      obtain ⟨u, hu⟩ : ∃ u : Nat, (u : Int) = (sq / 8 + -((i : Int) + 1)) * 8 + (sq % 8 + -((i : Int) + 1)) := ⟨((sq / 8 + -((i : Int) + 1)) * 8 + (sq % 8 + -((i : Int) + 1))).toNat, by omega⟩
      have hur : (u : Int) / 8 = sq / 8 + -((i : Int) + 1) := by omega
      have huc : (u : Int) % 8 = sq % 8 + -((i : Int) + 1) := by omega
      rw [← hu, Int.toNat_ofNat]
      exact hclear u (by omega) (by omega)
    · right; right; right
      obtain ⟨k, hk⟩ : ∃ k : Nat, (k : Int) = (t : Int) / 8 - sq / 8 - 1 := ⟨((t : Int) / 8 - sq / 8 - 1).toNat, by omega⟩
      refine ⟨k, by omega, by omega, ?_⟩
      intro i hi
      simp only [mul_zero, add_zero, mul_one, mul_neg]
      obtain ⟨u, hu⟩ : ∃ u : Nat, (u : Int) = (sq / 8 + ((i : Int) + 1)) * 8 + (sq % 8 + -((i : Int) + 1)) := ⟨((sq / 8 + ((i : Int) + 1)) * 8 + (sq % 8 + -((i : Int) + 1))).toNat, by omega⟩
      have hur : (u : Int) / 8 = sq / 8 + ((i : Int) + 1) := by omega
      have huc : (u : Int) % 8 = sq % 8 + -((i : Int) + 1) := by omega
      rw [← hu, Int.toNat_ofNat]
      exact hclear u (by omega) (by omega)


/-! ## Lowest-bit arithmetic of `indexedBitmask` -/

theorem subOne_eq (h : Nat) (h0 : 0 < h) (h1 : h < two64) : subOne h = h - 1 := by
  unfold subOne two64 at *
  omega

/-- Bit `j` of `h - 1` is bit `j` of `h`, flipped exactly when all lower bits of `h` are zero. -/
theorem testBit_pred (j : Nat) : ∀ h : Nat, 0 < h →
    (h - 1).testBit j = (h.testBit j != decide (h % 2 ^ j = 0)) := by
  induction j with
  | zero =>
    intro h h0
    simp only [Nat.testBit_zero, pow_zero, Nat.mod_one, decide_True]
    rcases Nat.mod_two_eq_zero_or_one h with e | e
    · have : (h - 1) % 2 = 1 := by omega
      simp [e, this]
    · have : (h - 1) % 2 = 0 := by omega
      simp [e, this]
  | succ j ih =>
    intro h h0
    rw [Nat.testBit_succ, Nat.testBit_succ]
    rcases Nat.mod_two_eq_zero_or_one h with e | e
    · have e1 : (h - 1) / 2 = h / 2 - 1 := by omega
      have e2 : 0 < h / 2 := by omega
      rw [e1, ih _ e2]
      have e3 : (h % 2 ^ (j + 1) = 0) ↔ (h / 2 % 2 ^ j = 0) := by
        rw [pow_succ', Nat.mod_mul]
        generalize h / 2 % 2 ^ j = x
        omega
      simp only [e3]
    · have e1 : (h - 1) / 2 = h / 2 := by omega
      rw [e1]
      have e3 : ¬ (h % 2 ^ (j + 1) = 0) := by
        rw [pow_succ', Nat.mod_mul]
        generalize h / 2 % 2 ^ j = x
        omega
      simp [e3]

/-- Bits of `his & (his - 1)`: those of `his` that have a set bit of `his` below them. -/
theorem testBit_clearLowest (h j : Nat) (h0 : 0 < h) :
    (h &&& (h - 1)).testBit j = (h.testBit j && !decide (h % 2 ^ j = 0)) := by
  rw [Nat.testBit_land, testBit_pred j h h0]
  cases h.testBit j <;> cases decide (h % 2 ^ j = 0) <;> rfl

/-- Bits of `((his - 1) & his) ^ his`: the bit of `his` with no set bit below it. -/
theorem testBit_lowest (h j : Nat) (h0 : 0 < h) :
    (((h - 1) &&& h) ^^^ h).testBit j = (h.testBit j && decide (h % 2 ^ j = 0)) := by
  rw [Nat.testBit_xor, Nat.testBit_land, testBit_pred j h h0]
  cases h.testBit j <;> cases decide (h % 2 ^ j = 0) <;> rfl

theorem mod_two_pow_eq_zero_iff (h j : Nat) :
    h % 2 ^ j = 0 ↔ ∀ i, i < j → h.testBit i = false := by
  constructor
  · intro e i hi
    have := Nat.testBit_mod_two_pow h j i
    rw [e, Nat.zero_testBit] at this
    simpa [hi] using this.symm
  · intro e
    apply Nat.eq_of_testBit_eq
    intro i
    rw [Nat.testBit_mod_two_pow, Nat.zero_testBit]
    by_cases hi : i < j
    · simp [e i hi]
    · simp [hi]

/-- A non-zero bitmask has a lowest set bit. -/
theorem exists_lowest (h : Nat) (h0 : 0 < h) :
    ∃ p, h.testBit p = true ∧ h % 2 ^ p = 0 := by
  have hex : ∃ p, h.testBit p = true := by
    by_contra hne
    push_neg at hne
    have : h = 0 := Nat.eq_of_testBit_eq (by intro i; simpa using hne i)
    omega
  refine ⟨Nat.find hex, Nat.find_spec hex, ?_⟩
  rw [mod_two_pow_eq_zero_iff]
  intro i hi
  have := Nat.find_min hex hi
  simpa using this

/-- The lowest-bit expression of `indexedBitmask` is a single bit of `his`. -/
theorem lowest_eq_two_pow (h : Nat) (h0 : 0 < h) :
    ∃ p, h.testBit p = true ∧ h % 2 ^ p = 0 ∧ ((h - 1) &&& h) ^^^ h = 2 ^ p := by
  obtain ⟨p, hp, hz⟩ := exists_lowest h h0
  refine ⟨p, hp, hz, ?_⟩
  apply Nat.eq_of_testBit_eq
  intro j
  rw [testBit_lowest h j h0, Nat.testBit_two_pow]
  by_cases e : p = j
  · subst e; simp [hp, hz]
  · simp only [e, decide_False]
    rcases Nat.lt_or_gt_of_ne e with l | l
    · have : ¬ (h % 2 ^ j = 0) := by
        intro z
        have := (mod_two_pow_eq_zero_iff h j).1 z p l
        rw [hp] at this; exact absurd this (by simp)
      simp [this]
    · have := (mod_two_pow_eq_zero_iff h p).1 hz j l
      simp [this]

/-- Clearing the lowest bit removes exactly that bit. -/
theorem testBit_clearLowest_of (h p : Nat) (h0 : 0 < h) (hp : h.testBit p = true)
    (hz : h % 2 ^ p = 0) (j : Nat) :
    (h &&& (h - 1)).testBit j = (h.testBit j && decide (j ≠ p)) := by
  rw [testBit_clearLowest h j h0]
  by_cases e : j = p
  · subst e; simp [hz]
  · rcases Nat.lt_or_gt_of_ne e with l | l
    · have := (mod_two_pow_eq_zero_iff h p).1 hz j l
      simp [this]
    · have : ¬ (h % 2 ^ j = 0) := by
        intro z
        have := (mod_two_pow_eq_zero_iff h j).1 z p l
        rw [hp] at this; exact absurd this (by simp)
      simp [this, e]


theorem countP_remove (f : Nat → Bool) (p : Nat) (hf : f p = true) :
    ∀ n, p < n →
      (List.range n).countP (fun j => f j && decide (j ≠ p)) + 1 = (List.range n).countP f := by
  intro n
  induction n with
  | zero => intro h; omega
  | succ n ih =>
    intro hp
    rw [List.range_succ, List.countP_append, List.countP_append]
    by_cases e : p = n
    · subst e
      have h1 : (List.range p).countP (fun j => f j && decide (j ≠ p)) = (List.range p).countP f := by
        apply List.countP_congr
        intro j hj
        have : j ≠ p := by
          have := List.mem_range.1 hj
          omega
        simp [this]
      rw [h1]
      simp [List.countP_cons, hf]
    · have hlt : p < n := by omega
      have := ih hlt
      have h2 : [n].countP (fun j => f j && decide (j ≠ p)) = [n].countP f := by
        have : n ≠ p := fun h => e h.symm
        simp [List.countP_cons, this]
      rw [h2]
      omega

theorem testBit_false_of_lt (h j : Nat) (hh : h < two64) (hj : 64 ≤ j) : h.testBit j = false := by
  apply Nat.testBit_lt_two_pow
  calc h < 2 ^ 64 := hh
    _ ≤ 2 ^ j := Nat.pow_le_pow_right (by decide) hj

theorem count_zero_imp (h : Nat) (hh : h < two64) (hc : count h = 0) : h = 0 := by
  apply Nat.eq_of_testBit_eq
  intro j
  rw [Nat.zero_testBit]
  by_cases hj : j < 64
  · unfold count at hc
    rw [List.countP_eq_zero] at hc
    have := hc j (List.mem_range.2 hj)
    simpa using this
  · exact testBit_false_of_lt h j hh (by omega)

/-- Clearing the lowest bit of a non-zero bitmask lowers its cardinality by one. -/
theorem count_clearLowest (h : Nat) (h0 : 0 < h) (hh : h < two64) :
    count (h &&& (h - 1)) + 1 = count h := by
  obtain ⟨p, hp, hz⟩ := exists_lowest h h0
  have hp64 : p < 64 := by
    by_contra hge
    have := testBit_false_of_lt h p hh (by omega)
    rw [hp] at this; exact absurd this (by simp)
  unfold count
  have e : (fun i => (h &&& (h - 1)).testBit i) = (fun j => h.testBit j && decide (j ≠ p)) := by
    funext j
    exact testBit_clearLowest_of h p h0 hp hz j
  rw [e]
  exact countP_remove (fun j => h.testBit j) p hp 64 hp64

theorem shiftLeft_land_ne_zero (i index : Nat) :
    ((1 <<< i) &&& index ≠ 0) ↔ index.testBit i = true := by
  rw [Nat.one_shiftLeft, Nat.land_comm]
  exact land_bit_ne_zero index i

/-- Every subset of `his` is produced by the loop of `indexedBitmask` for some
index below `2 ^ count`. -/
theorem indexedLoop_surj : ∀ (n his : Nat), his < two64 → count his = n →
    ∀ (s : Nat), s &&& his = s → ∀ (i acc : Nat),
      ∃ idx, idx < 2 ^ n ∧ ∀ index, (index >>> i) % 2 ^ n = idx →
        indexedLoop index n i his acc = acc ||| s := by
  intro n
  induction n with
  | zero =>
    intro his hh hc s hs i acc
    have h0 := count_zero_imp his hh hc
    subst h0
    have : s = 0 := by rw [← hs]; simp
    subst this
    exact ⟨0, by simp, fun index _ => by simp [indexedLoop]⟩
  | succ n ih =>
    intro his hh hc s hs i acc
    have h0 : 0 < his := by
      rcases Nat.eq_zero_or_pos his with e | e
      · subst e
        have : count 0 = 0 := by simp [count]
        omega
      · exact e
    obtain ⟨p, hp, hz, hlow⟩ := lowest_eq_two_pow his h0
    have hsub := subOne_eq his h0 hh
    have hcl := testBit_clearLowest_of his p h0 hp hz
    have hcnt : count (his &&& (his - 1)) = n := by
      have := count_clearLowest his h0 hh
      omega
    have hlt : his &&& (his - 1) < two64 := lt_of_le_of_lt Nat.and_le_left hh
    have hs' : (s &&& (his &&& (his - 1))) &&& (his &&& (his - 1)) = s &&& (his &&& (his - 1)) := by
      rw [Nat.land_assoc, Nat.and_self]
    obtain ⟨idx', hidx', hloop⟩ := ih (his &&& (his - 1)) hlt hcnt (s &&& (his &&& (his - 1))) hs'
      (i + 1) (if s.testBit p then acc ||| 2 ^ p else acc)
    refine ⟨(s.testBit p).toNat + 2 * idx', ?_, ?_⟩
    · have : (s.testBit p).toNat ≤ 1 := Bool.toNat_le _
      rw [pow_succ']
      omega
    · intro index hindex
      have hb : (s.testBit p).toNat ≤ 1 := Bool.toNat_le _
      rw [pow_succ', Nat.mod_mul] at hindex
      have hx2 : (index >>> i) % 2 = (s.testBit p).toNat := by
        have : (index >>> i) % 2 < 2 := Nat.mod_lt _ (by decide)
        omega
      have hx1 : (index >>> (i + 1)) % 2 ^ n = idx' := by
        rw [Nat.shiftRight_succ]
        omega
      have hbit : index.testBit i = s.testBit p := by
        rw [Nat.testBit_to_div_mod, ← Nat.shiftRight_eq_div_pow, hx2]
        cases s.testBit p <;> simp
      unfold indexedLoop
      simp only [hsub, hlow]
      have hcond : ((1 <<< i) &&& index ≠ 0) ↔ s.testBit p = true := by
        rw [shiftLeft_land_ne_zero, hbit]
      rw [Nat.land_comm (his - 1) his] at *
      simp only [hcond]
      rw [hloop index hx1]
      apply Nat.eq_of_testBit_eq
      intro j
      have hsj : s.testBit j = (s.testBit j && his.testBit j) := by
        conv_lhs => rw [← hs]
        rw [Nat.testBit_land]
      by_cases e : j = p
      · subst e
        cases hsp : s.testBit j <;>
          simp [Nat.testBit_lor, Nat.testBit_land, hcl, hsp, Nat.testBit_two_pow]
      · have e' : ¬ p = j := fun h => e h.symm
        cases hsp : s.testBit p <;>
          simp [Nat.testBit_lor, Nat.testBit_land, hcl, e, e', Nat.testBit_two_pow] <;>
          (rw [hsj]; cases s.testBit j <;> cases his.testBit j <;> simp)


/-! ## The magic tables -/

theorem indexedLoop_subset (index j : Nat) : ∀ (n i his acc : Nat),
    (indexedLoop index n i his acc).testBit j = true →
      (acc.testBit j = true ∨ his.testBit j = true) := by
  intro n
  induction n with
  | zero => intro i his acc h; exact Or.inl (by simpa [indexedLoop] using h)
  | succ n ih =>
    intro i his acc h
    unfold indexedLoop at h
    rcases ih _ _ _ h with h1 | h1
    · by_cases c : (1 <<< i) &&& index ≠ 0
      · rw [if_pos c, Nat.testBit_lor, Nat.testBit_xor, Nat.testBit_land] at h1
        cases ha : acc.testBit j
        · right
          rw [ha] at h1
          cases hh : his.testBit j
          · rw [hh] at h1; simp at h1
          · rfl
        · exact Or.inl rfl
      · rw [if_neg c] at h1
        exact Or.inl h1
    · right
      rw [Nat.testBit_land] at h1
      cases hh : his.testBit j
      · rw [hh] at h1; simp at h1
      · rfl

theorem indexedBitmask_subset (index mask : Nat) :
    indexedBitmask index mask &&& mask = indexedBitmask index mask := by
  apply Nat.eq_of_testBit_eq
  intro j
  rw [Nat.testBit_land]
  cases h : (indexedBitmask index mask).testBit j
  · rfl
  · have := indexedLoop_subset index j _ _ _ _ h
    simpa using this

theorem indexedBitmask_surj (mask s : Nat) (hm : mask < two64) (hs : s &&& mask = s) :
    ∃ idx, idx < 1 <<< count mask ∧ indexedBitmask idx mask = s := by
  obtain ⟨idx, hlt, h⟩ := indexedLoop_surj (count mask) mask hm rfl s hs 0 0
  refine ⟨idx, by rw [Nat.one_shiftLeft]; exact hlt, ?_⟩
  unfold indexedBitmask
  rw [h idx (by rw [Nat.shiftRight_zero]; exact Nat.mod_eq_of_lt hlt)]
  simp

/-- After the table-filling loop every cell either keeps its old content and is
hit by no iteration, or holds the attack set written by one of the iterations
that hit it. -/
theorem magicLoop_cell (attacks : Nat → Nat) (magic shift mask : Nat) (k : Nat) :
    ∀ (todo i0 : Nat) (row : Nat → Nat),
      (magicLoop attacks magic shift mask todo i0 row k = row k ∧
          ∀ j, i0 ≤ j → j < i0 + todo →
            (indexedBitmask j mask * magic % two64) >>> shift ≠ k) ∨
        ∃ j, i0 ≤ j ∧ j < i0 + todo ∧
          (indexedBitmask j mask * magic % two64) >>> shift = k ∧
          magicLoop attacks magic shift mask todo i0 row k = attacks (indexedBitmask j mask) := by
  intro todo
  induction todo with
  | zero =>
    intro i0 row
    left
    exact ⟨rfl, fun j h1 h2 => by omega⟩
  | succ n ih =>
    intro i0 row
    unfold magicLoop
    rcases ih (i0 + 1) (Function.update row ((indexedBitmask i0 mask * magic % two64) >>> shift)
      (attacks (indexedBitmask i0 mask))) with ⟨h1, h2⟩ | ⟨j, h1, h2, h3, h4⟩
    · by_cases e : (indexedBitmask i0 mask * magic % two64) >>> shift = k
      · right
        refine ⟨i0, le_refl _, by omega, e, ?_⟩
        simp only [h1]
        rw [← e, Function.update_same]
      · left
        refine ⟨?_, ?_⟩
        · simp only [h1]
          rw [Function.update_noteq (fun h => e h.symm)]
        · intro j hj1 hj2
          by_cases ej : j = i0
          · subst ej; exact e
          · exact h2 j (by omega) (by omega)
    · right
      exact ⟨j, by omega, by omega, h3, h4⟩

/-- Under `NoAlias`, the filled row answers every subset of the mask with its
attack set. -/
theorem magicLoop_lookup (attacks : Nat → Nat) (magic shift mask : Nat) (hm : mask < two64)
    (hna : NoAlias attacks magic shift mask) (row : Nat → Nat) (s : Nat)
    (hs : s &&& mask = s) :
    magicLoop attacks magic shift mask (1 <<< count mask) 0 row
      ((s * magic % two64) >>> shift) = attacks s := by
  obtain ⟨idx, hidx, he⟩ := indexedBitmask_surj mask s hm hs
  rcases magicLoop_cell attacks magic shift mask ((s * magic % two64) >>> shift)
    (1 <<< count mask) 0 row with ⟨_, h2⟩ | ⟨j, _, _, h3, h4⟩
  · exact absurd (by rw [he]) (h2 idx (Nat.zero_le _) (by omega))
  · rw [h4]
    exact hna _ _ (indexedBitmask_subset j mask) hs h3

theorem createRookMask_lt : ∀ q : Fin 64, createRookMask (q.val : Int) < two64 := by decide

theorem createBishopMask_lt : ∀ q : Fin 64, createBishopMask (q.val : Int) < two64 := by decide

/-- The rows of square `sq` after the square loop has passed `sq`: each is the
result of its table-filling loop on some earlier row. -/
theorem initMasks_rows (rookMagic bishopMagic : Nat → Magic) (sq : Nat) :
    ∀ n, sq < n →
      (∃ row, ((List.range n).foldl (initMasksSquare rookMagic bishopMagic)
          AttackTables.zero).rookMagicMoves sq =
        magicLoop (createRookAttacks sq) (rookMagic sq).magic 52 (createRookMask sq)
          (1 <<< count (createRookMask sq)) 0 row) ∧
      (∃ row, ((List.range n).foldl (initMasksSquare rookMagic bishopMagic)
          AttackTables.zero).bishopMagicMoves sq =
        magicLoop (createBishopAttacks sq) (bishopMagic sq).magic 55 (createBishopMask sq)
          (1 <<< count (createBishopMask sq)) 0 row) := by
  intro n
  induction n with
  | zero => intro h; omega
  | succ n ih =>
    intro h
    rw [List.range_succ, List.foldl_append, List.foldl_cons, List.foldl_nil]
    by_cases e : sq = n
    · subst e
      constructor
      · exact ⟨((List.range sq).foldl (initMasksSquare rookMagic bishopMagic)
          AttackTables.zero).rookMagicMoves sq, by simp [initMasksSquare]⟩
      · exact ⟨((List.range sq).foldl (initMasksSquare rookMagic bishopMagic)
          AttackTables.zero).bishopMagicMoves sq, by simp [initMasksSquare]⟩
    · obtain ⟨⟨r1, h1⟩, ⟨r2, h2⟩⟩ := ih (by omega)
      constructor
      · refine ⟨r1, ?_⟩
        rw [← h1]
        simp [initMasksSquare, Function.update_noteq e]
      · refine ⟨r2, ?_⟩
        rw [← h2]
        simp [initMasksSquare, Function.update_noteq e]


/-- A magic constant whose index can be decoded back to the subset aliases nothing. -/
theorem noAlias_of_decoder (attacks : Nat → Nat) (magic shift mask : Nat) (hm : mask < two64)
    (U : Nat → Nat)
    (h : ∀ i, i < 1 <<< count mask →
      U ((indexedBitmask i mask * magic % two64) >>> shift) = indexedBitmask i mask) :
    NoAlias attacks magic shift mask := by
  intro s1 s2 h1 h2 hk
  obtain ⟨i1, hi1, e1⟩ := indexedBitmask_surj mask s1 hm h1
  obtain ⟨i2, hi2, e2⟩ := indexedBitmask_surj mask s2 hm h2
  have a1 := h i1 hi1
  have a2 := h i2 hi2
  rw [e1] at a1
  rw [e2] at a2
  rw [← a1, ← a2, hk]

set_option maxRecDepth 1000000 in
theorem rook_b2_noAlias :
    NoAlias (createRookAttacks ((9 : Nat) : Int)) (sampleRookMagic 9).magic 52
      (createRookMask ((9 : Nat) : Int)) :=
  noAlias_of_decoder _ _ _ _ (by decide)
    (gatherDecode [(3, 10), (4, 11), (5, 12), (6, 13), (7, 14), (10, 17), (1, 25), (9, 33),
      (0, 41), (8, 49)])
    (by decide!)

set_option maxRecDepth 1000000 in
theorem bishop_b2_noAlias :
    NoAlias (createBishopAttacks ((9 : Nat) : Int)) (sampleBishopMagic 9).magic 55
      (createBishopMask ((9 : Nat) : Int)) :=
  noAlias_of_decoder _ _ _ _ (by decide)
    (gatherDecode [(0, 18), (3, 27), (8, 36), (1, 45), (2, 54)])
    (by decide!)


theorem mul_bounds (x y ux uy : Int) (hx0 : 0 ≤ x) (hx : x ≤ ux) (hy0 : 0 ≤ y) (hy : y ≤ uy) :
    0 ≤ x * y ∧ x * y ≤ ux * uy :=
  ⟨mul_nonneg hx0 hy0, mul_le_mul hx hy hy0 (le_trans hx0 hx)⟩

/-- Within the ranges of the material table the imbalance polynomial stays far
inside the range of a 64-bit `int`. -/
theorem imbalance_bound (w2 wP wN wB wR wQ b2 bP bN bB bR bQ : Int)
    (hw20 : 0 ≤ w2) (hw21 : w2 ≤ 1) (hwP0 : 0 ≤ wP) (hwP1 : wP ≤ 8) (hwN0 : 0 ≤ wN) (hwN1 : wN ≤ 2)
    (hwB0 : 0 ≤ wB) (hwB1 : wB ≤ 2) (hwR0 : 0 ≤ wR) (hwR1 : wR ≤ 2) (hwQ0 : 0 ≤ wQ) (hwQ1 : wQ ≤ 1)
    (hb20 : 0 ≤ b2) (hb21 : b2 ≤ 1) (hbP0 : 0 ≤ bP) (hbP1 : bP ≤ 8) (hbN0 : 0 ≤ bN) (hbN1 : bN ≤ 2)
    (hbB0 : 0 ≤ bB) (hbB1 : bB ≤ 2) (hbR0 : 0 ≤ bR) (hbR1 : bR ≤ 2) :
    -100000 < imbalance w2 wP wN wB wR wQ b2 bP bN bB bR bQ ∧
      imbalance w2 wP wN wB wR wQ b2 bP bN bB bR bQ < 100000 := by
  unfold imbalance polynom
  have m0 :=
    mul_bounds wP wP 8 8 hwP0 hwP1 hwP0 hwP1
  have m1 :=
    mul_bounds wP w2 8 1 hwP0 hwP1 hw20 hw21
  have m2 :=
    mul_bounds wP b2 8 1 hwP0 hwP1 hb20 hb21
  have m3 :=
    mul_bounds wN wN 2 2 hwN0 hwN1 hwN0 hwN1
  have m4 :=
    mul_bounds wN w2 2 1 hwN0 hwN1 hw20 hw21
  have m5 :=
    mul_bounds wN wP 2 8 hwN0 hwN1 hwP0 hwP1
  have m6 :=
    mul_bounds wN b2 2 1 hwN0 hwN1 hb20 hb21
  have m7 :=
    mul_bounds wN bP 2 8 hwN0 hwN1 hbP0 hbP1
  have m8 :=
    mul_bounds wB wP 2 8 hwB0 hwB1 hwP0 hwP1
  have m9 :=
    mul_bounds wB wN 2 2 hwB0 hwB1 hwN0 hwN1
  have m10 :=
    mul_bounds wB b2 2 1 hwB0 hwB1 hb20 hb21
  have m11 :=
    mul_bounds wB bP 2 8 hwB0 hwB1 hbP0 hbP1
  have m12 :=
    mul_bounds wB bN 2 2 hwB0 hwB1 hbN0 hbN1
  have m13 :=
    mul_bounds wR wR 2 2 hwR0 hwR1 hwR0 hwR1
  have m14 :=
    mul_bounds wR w2 2 1 hwR0 hwR1 hw20 hw21
  have m15 :=
    mul_bounds wR wP 2 8 hwR0 hwR1 hwP0 hwP1
  have m16 :=
    mul_bounds wR wN 2 2 hwR0 hwR1 hwN0 hwN1
  have m17 :=
    mul_bounds wR wB 2 2 hwR0 hwR1 hwB0 hwB1
  have m18 :=
    mul_bounds wR b2 2 1 hwR0 hwR1 hb20 hb21
  have m19 :=
    mul_bounds wR bP 2 8 hwR0 hwR1 hbP0 hbP1
  have m20 :=
    mul_bounds wR bN 2 2 hwR0 hwR1 hbN0 hbN1
  have m21 :=
    mul_bounds wR bB 2 2 hwR0 hwR1 hbB0 hbB1
  have m22 :=
    mul_bounds wQ w2 1 1 hwQ0 hwQ1 hw20 hw21
  have m23 :=
    mul_bounds wQ wP 1 8 hwQ0 hwQ1 hwP0 hwP1
  have m24 :=
    mul_bounds wQ wN 1 2 hwQ0 hwQ1 hwN0 hwN1
  have m25 :=
    mul_bounds wQ wB 1 2 hwQ0 hwQ1 hwB0 hwB1
  have m26 :=
    mul_bounds wQ wR 1 2 hwQ0 hwQ1 hwR0 hwR1
  have m27 :=
    mul_bounds wQ b2 1 1 hwQ0 hwQ1 hb20 hb21
  have m28 :=
    mul_bounds wQ bP 1 8 hwQ0 hwQ1 hbP0 hbP1
  have m29 :=
    mul_bounds wQ bN 1 2 hwQ0 hwQ1 hbN0 hbN1
  have m30 :=
    mul_bounds wQ bB 1 2 hwQ0 hwQ1 hbB0 hbB1
  have m31 :=
    mul_bounds wQ bR 1 2 hwQ0 hwQ1 hbR0 hbR1
  constructor <;> linarith [m0.1, m0.2, m1.1, m1.2, m2.1, m2.2, m3.1, m3.2, m4.1, m4.2, m5.1, m5.2, m6.1, m6.2, m7.1, m7.2, m8.1, m8.2, m9.1, m9.2, m10.1, m10.2, m11.1, m11.2, m12.1, m12.2, m13.1, m13.2, m14.1, m14.2, m15.1, m15.2, m16.1, m16.2, m17.1, m17.2, m18.1, m18.2, m19.1, m19.2, m20.1, m20.2, m21.1, m21.2, m22.1, m22.2, m23.1, m23.2, m24.1, m24.2, m25.1, m25.2, m26.1, m26.2, m27.1, m27.2, m28.1, m28.2, m29.1, m29.2, m30.1, m30.2, m31.1, m31.2]

theorem adjustment_swap (w b : Counts) : adjustment b w = -adjustment w b := by
  unfold adjustment
  simp only
  rw [← Int.neg_tdiv]
  congr 1
  ring

theorem half_bounds (x : Int) (h0 : 0 ≤ x) (h1 : x < 3) : 0 ≤ x.tdiv 2 ∧ x.tdiv 2 ≤ 1 := by
  rw [Int.tdiv_eq_ediv h0 (by decide)]
  omega

/-! ## Piece-square tables -/

theorem initPST_fold (t : PstInput) : ∀ (n : Nat) (p : Piece) (s : Nat),
    (List.range n).foldl (initPSTSquare t) Pst.zero p s =
      if s < n then pstEntry t p s else ⟨0, 0⟩ := by
  intro n
  induction n with
  | zero => intro p s; simp [Pst.zero]
  | succ n ih =>
    intro p s
    rw [List.range_succ, List.foldl_append, List.foldl_cons, List.foldl_nil]
    generalize (List.range n).foldl (initPSTSquare t) Pst.zero = T at ih
    unfold initPSTSquare
    simp only [Pst.set, ih, lt_irrefl, if_false, A8]
    by_cases e : s = n
    · subst e
      cases p <;> simp [pstEntry, Score.add, Score.subtract]
    · have hlt : s < n + 1 ↔ s < n := by omega
      simp only [e, and_false, if_false, hlt]

theorem initPST_entry (t : PstInput) (p : Piece) (s : Nat) (hs : s < 64) :
    initPST t Pst.zero p s = pstEntry t p s := by
  unfold initPST
  rw [initPST_fold, if_pos hs]

theorem flip_flip : ∀ s : Fin 64, s.val ^^^ 56 < 64 ∧ (s.val ^^^ 56) ^^^ 56 = s.val := by decide


/-! ## Pawn structure and the pawn cache -/

theorem isolated_not_supported (tb : PawnInput) (color hisPawns : Nat) (square : Int)
    (h : pawnIsolated tb hisPawns square = true) :
    pawnSupported tb color hisPawns square = false := by
  unfold pawnIsolated at h
  unfold pawnSupported
  have h0 : tb.maskIsolated (Col square) &&& hisPawns = 0 := by simpa using h
  have : tb.maskIsolated (Col square) &&&
      (tb.maskRank (Row square) ||| pushed (tb.maskRank (Row square)) (color ^^^ 1)) &&&
      hisPawns = 0 := by
    rw [Nat.land_comm (tb.maskIsolated (Col square)), Nat.land_assoc, h0, Nat.and_zero]
  simp [this]

theorem passed_not_doubled (tb : PawnInput) (color hisPawns herPawns : Nat) (square : Int)
    (h : pawnPassed tb color hisPawns herPawns square = true) :
    pawnDoubled tb color hisPawns square = false := by
  unfold pawnPassed at h
  simp only [Bool.and_eq_true, Bool.not_eq_true'] at h
  exact h.2

theorem backwardStage_skip (tb : PawnInput) (color hisPawns herPawns : Nat) (square : Int)
    (score : Score)
    (h : pawnPassed tb color hisPawns herPawns square = true ∨
      pawnSupported tb color hisPawns square = true ∨ pawnIsolated tb hisPawns square = true) :
    backwardStage tb color hisPawns herPawns square score = score := by
  unfold backwardStage
  rcases h with h | h | h <;> simp [h]

theorem setSlot_cache (e : Evaluation) (v : PawnEntry) (i : Nat) :
    (e.setSlot v).pawnCache i = if i = e.pawns then v else e.pawnCache i := rfl

theorem setSlot_pawns (e : Evaluation) (v : PawnEntry) : (e.setSlot v).pawns = e.pawns := rfl

theorem setSlot_score (e : Evaluation) (v : PawnEntry) : (e.setSlot v).score = e.score := rfl

theorem setSlot_position (e : Evaluation) (v : PawnEntry) :
    (e.setSlot v).position = e.position := rfl

theorem setSlot_slot (e : Evaluation) (v : PawnEntry) : (e.setSlot v).slot = v := by
  unfold Evaluation.slot
  rw [setSlot_cache, setSlot_pawns, if_pos rfl]

theorem pawnStructure_fst (tb : PawnInput) (e : Evaluation) (c : Nat) :
    (pawnStructure tb e c).1 = (pawnStructureRun tb e.position c).1 := rfl

theorem pawnStructure_snd (tb : PawnInput) (e : Evaluation) (c : Nat) :
    (pawnStructure tb e c).2 =
      e.setSlot { e.slot with
        passers := writeAt e.slot.passers c (pawnStructureRun tb e.position c).2 } := rfl

theorem clear_add_subtract (s w b : Score) : ((s.clear).add w).subtract b = w.subtract b := by
  simp [Score.clear, Score.add, Score.subtract]


/-! ## Passed pawns -/

theorem isClear_iff (b : Nat) (n : Int) : isClear b n = true ↔ b.testBit n.toNat = false := by
  unfold isClear
  have := land_bit_ne_zero b n.toNat
  cases h : b.testBit n.toNat
  · simp only [h, Bool.false_eq_true, iff_false, ne_eq, not_not] at this
    simp [this]
  · simp only [h, iff_true] at this
    simp [this]

theorem isSet_iff (b : Nat) (n : Int) : isSet b n = true ↔ b.testBit n.toNat = true := by
  unfold isSet
  have := land_bit_ne_zero b n.toNat
  simp only [decide_eq_true_eq]
  exact this

theorem passerAttacked_subset (tb : PawnInput) (e : Evaluation) (color : Nat) (square : Int)
    (t : Nat) (h : (passerAttacked tb e color square).testBit t = true) :
    (tb.maskInFront color square).testBit t = true := by
  unfold passerAttacked at h
  simp only at h
  split_ifs at h
  · rw [Nat.testBit_land] at h
    simp only [Bool.and_eq_true] at h
    exact h.1
  · exact h

theorem testBit_bound (b t : Nat) (hb : b < two64) (h : b.testBit t = true) : t < 64 := by
  by_contra hge
  have := testBit_false_of_lt b t hb (by omega)
  rw [h] at this
  exact absurd this (by simp)

theorem passerExtra_eq_spec (tb : PawnInput) (e : Evaluation) (color : Nat) (square : Int)
    (hIn : tb.maskInFront color square < two64)
    (hNext : (tb.maskInFront color square).testBit (square + tb.eight color).toNat = true) :
    passerExtra tb e color square = passerExtraSpec tb e color square := by
  unfold passerExtra passerExtraSpec
  simp only
  have hA : (passerAttacked tb e color square = 0) ↔
      ∀ t, t < 64 → (tb.maskInFront color square).testBit t = true →
        (passerAttacked tb e color square).testBit t = false := by
    constructor
    · intro h t _ _
      rw [h, Nat.zero_testBit]
    · intro h
      apply Nat.eq_of_testBit_eq
      intro t
      rw [Nat.zero_testBit]
      cases hc : (passerAttacked tb e color square).testBit t
      · rfl
      · have hf := passerAttacked_subset tb e color square t hc
        have := h t (testBit_bound _ t hIn hf) hf
        rw [hc] at this
        exact absurd this (by simp)
  have hP : (tb.maskInFront color square &&& e.attacks color = tb.maskInFront color square) ↔
      ∀ t, t < 64 → (tb.maskInFront color square).testBit t = true →
        (e.attacks color).testBit t = true := by
    constructor
    · intro h t _ ht
      have : (tb.maskInFront color square &&& e.attacks color).testBit t = true := by
        rw [h]; exact ht
      rw [Nat.testBit_land] at this
      simp only [Bool.and_eq_true] at this
      exact this.2
    · intro h
      apply Nat.eq_of_testBit_eq
      intro t
      rw [Nat.testBit_land]
      cases hc : (tb.maskInFront color square).testBit t
      · rfl
      · simp [h t (testBit_bound _ t hIn hc) hc]
  have hS : isSet (tb.maskInFront color square &&& e.attacks color) (square + tb.eight color) =
      (e.attacks color).testBit (square + tb.eight color).toNat := by
    cases hc : (e.attacks color).testBit (square + tb.eight color).toNat
    · cases hs : isSet (tb.maskInFront color square &&& e.attacks color) (square + tb.eight color)
      · rfl
      · rw [isSet_iff, Nat.testBit_land, hc] at hs
        simp at hs
    · rw [isSet_iff, Nat.testBit_land, hc, hNext]
      rfl
  have hC : isClear (passerAttacked tb e color square) (square + tb.eight color) =
      !(passerAttacked tb e color square).testBit (square + tb.eight color).toNat := by
    rw [Bool.eq_iff_iff, isClear_iff]
    simp
  simp only [hA, hP, hS, hC]
  split_ifs <;> simp_all

theorem passerExtraSpec_values (tb : PawnInput) (e : Evaluation) (color : Nat) (square : Int) :
    passerExtraSpec tb e color square ∈ ([0, 2, 4, 6, 8, 10, 12, 14] : List Int) := by
  unfold passerExtraSpec
  simp only
  split_ifs <;> simp


/-! ## Zero-window search -/

theorem moveLoop_cutoff {P M : Type} (env : SearchEnv P M) (search : P → Int → Int → Option Int) (p : P)
    (beta depth : Int) (m : M) (post : List M) (q : P) (s : Int)
    (hq : env.makeMove p m = some q) (hs : moveScore env search q beta depth = some s)
    (hcut : s ≥ beta) :
    ∀ (pre : List M) (bestScore : Int) (moveCount : Nat), bestScore < beta →
      (∀ m' ∈ pre, ∀ q', env.makeMove p m' = some q' →
        ∃ s', moveScore env search q' beta depth = some s' ∧ s' < beta) →
      moveLoop env search p beta depth (pre ++ m :: post) bestScore moveCount = some s := by
  intro pre
  induction pre with
  | nil =>
    intro bestScore moveCount hb _
    simp only [List.nil_append, moveLoop, hq, hs]
    rw [if_pos (by omega), if_pos hcut]
  | cons m' pre ih =>
    intro bestScore moveCount hb hpre
    have hpre' : ∀ x ∈ pre, ∀ q', env.makeMove p x = some q' →
        ∃ s', moveScore env search q' beta depth = some s' ∧ s' < beta :=
      fun x hx => hpre x (List.mem_cons_of_mem _ hx)
    simp only [List.cons_append, moveLoop]
    cases hm : env.makeMove p m' with
    | none => exact ih bestScore moveCount hb hpre'
    | some q' =>
      obtain ⟨s', hs', hlt⟩ := hpre m' (List.mem_cons_self _ _) q' hm
      simp only [hs']
      by_cases hgt : s' > bestScore
      · rw [if_pos hgt, if_neg (by omega)]
        exact ih s' (moveCount + 1) hlt hpre'
      · rw [if_neg hgt]
        exact ih bestScore (moveCount + 1) hb hpre'

theorem moveLoop_all_below {P M : Type} (env : SearchEnv P M) (search : P → Int → Int → Option Int) (p : P)
    (beta depth : Int) :
    ∀ (moves : List M) (bestScore : Int) (moveCount : Nat), bestScore < beta →
      (∀ m ∈ moves, ∀ q, env.makeMove p m = some q →
        ∃ s, moveScore env search q beta depth = some s ∧ s < beta) →
      ∃ scores : List Int,
        (moves.filterMap (env.makeMove p)).map (fun q => moveScore env search q beta depth) =
          scores.map some ∧
        moveLoop env search p beta depth moves bestScore moveCount =
          (if moveCount + scores.length = 0 then some 0
            else some (scores.foldl max bestScore)) ∧
        scores.foldl max bestScore < beta := by
  intro moves
  induction moves with
  | nil =>
    intro bestScore moveCount hb _
    exact ⟨[], by simp, by simp [moveLoop], by simpa using hb⟩
  | cons m rest ih =>
    intro bestScore moveCount hb hall
    have hrest : ∀ x ∈ rest, ∀ q, env.makeMove p x = some q →
        ∃ s, moveScore env search q beta depth = some s ∧ s < beta :=
      fun x hx => hall x (List.mem_cons_of_mem _ hx)
    cases hm : env.makeMove p m with
    | none =>
      obtain ⟨scores, h1, h2, h3⟩ := ih bestScore moveCount hb hrest
      refine ⟨scores, ?_, ?_, h3⟩
      · rw [List.filterMap_cons_none hm]
        exact h1
      · simp only [moveLoop, hm]
        exact h2
    | some q =>
      obtain ⟨s, hs, hlt⟩ := hall m (List.mem_cons_self _ _) q hm
      by_cases hgt : s > bestScore
      · obtain ⟨scores, h1, h2, h3⟩ := ih s (moveCount + 1) hlt hrest
        have hmax : max bestScore s = s := max_eq_right (le_of_lt hgt)
        refine ⟨s :: scores, ?_, ?_, ?_⟩
        · rw [List.filterMap_cons_some hm]
          simp only [List.map_cons, hs, h1]
        · simp only [moveLoop, hm, hs]
          rw [if_pos hgt, if_neg (by omega), h2]
          simp only [List.length_cons, List.foldl_cons, hmax]
          have e1 : moveCount + 1 + scores.length ≠ 0 := by omega
          have e2 : moveCount + (scores.length + 1) ≠ 0 := by omega
          rw [if_neg e1, if_neg e2]
        · simp only [List.foldl_cons, hmax]
          exact h3
      · obtain ⟨scores, h1, h2, h3⟩ := ih bestScore (moveCount + 1) hb hrest
        have hmax : max bestScore s = bestScore := max_eq_left (not_lt.mp hgt)
        refine ⟨s :: scores, ?_, ?_, ?_⟩
        · rw [List.filterMap_cons_some hm]
          simp only [List.map_cons, hs, h1]
        · simp only [moveLoop, hm, hs]
          rw [if_neg hgt, h2]
          simp only [List.length_cons, List.foldl_cons, hmax]
          have e1 : moveCount + 1 + scores.length ≠ 0 := by omega
          have e2 : moveCount + (scores.length + 1) ≠ 0 := by omega
          rw [if_neg e1, if_neg e2]
        · simp only [List.foldl_cons, hmax]
          exact h3

/-- `foldl max` is the maximum of the initial value and the list. -/
theorem foldl_max_spec : ∀ (scores : List Int) (init : Int),
    init ≤ scores.foldl max init ∧ (∀ s ∈ scores, s ≤ scores.foldl max init) ∧
      (scores.foldl max init = init ∨ scores.foldl max init ∈ scores) := by
  intro scores
  induction scores with
  | nil => intro init; simp
  | cons s rest ih =>
    intro init
    obtain ⟨h1, h2, h3⟩ := ih (max init s)
    simp only [List.foldl_cons]
    refine ⟨le_trans (le_max_left _ _) h1, ?_, ?_⟩
    · intro x hx
      rcases List.mem_cons.1 hx with e | e
      · subst e; exact le_trans (le_max_right _ _) h1
      · exact h2 x e
    · rcases h3 with e | e
      · rw [e]
        rcases max_choice init s with c | c
        · left; exact c
        · right; rw [c]; exact List.mem_cons_self _ _
      · right; exact List.mem_cons_of_mem _ e

theorem xSearchWithZeroWindow_step {P M : Type} (env : SearchEnv P M) (fuel : Nat) (p : P) (beta depth : Int)
    (hrep : env.isRepetition p = false) (hbest : env.ply p - env.checkmate < beta) :
    xSearchWithZeroWindow env (fuel + 1) p beta depth =
      moveLoop env (xSearchWithZeroWindow env fuel) p beta depth (env.moves p)
        (env.ply p - env.checkmate) 0 := by
  rw [xSearchWithZeroWindow]
  simp only [hrep, Bool.false_eq_true, if_false]
  rw [if_neg (by omega)]


theorem moveScore_mono {P M : Type} (env : SearchEnv P M)
    (search search' : P → Int → Int → Option Int)
    (hmono : ∀ q b d v, search q b d = some v → search' q b d = some v)
    (q : P) (beta depth v : Int) (h : moveScore env search q beta depth = some v) :
    moveScore env search' q beta depth = some v := by
  unfold moveScore at h ⊢
  simp only at h ⊢
  split_ifs at h ⊢
  · exact h
  · exact h
  · cases hs : search q (1 - beta) (reducedDepth env q depth) with
    | none => rw [hs] at h; simp at h
    | some x =>
      rw [hs] at h
      rw [hmono _ _ _ _ hs]
      exact h

theorem moveLoop_mono {P M : Type} (env : SearchEnv P M)
    (search search' : P → Int → Int → Option Int)
    (hmono : ∀ q b d v, search q b d = some v → search' q b d = some v)
    (p : P) (beta depth : Int) :
    ∀ (moves : List M) (bestScore : Int) (moveCount : Nat) (v : Int),
      moveLoop env search p beta depth moves bestScore moveCount = some v →
      moveLoop env search' p beta depth moves bestScore moveCount = some v := by
  intro moves
  induction moves with
  | nil => intro bestScore moveCount v h; simpa [moveLoop] using h
  | cons m rest ih =>
    intro bestScore moveCount v h
    simp only [moveLoop] at h ⊢
    cases hm : env.makeMove p m with
    | none =>
      simp only [hm] at h ⊢
      exact ih _ _ _ h
    | some q =>
      simp only [hm] at h ⊢
      cases hs : moveScore env search q beta depth with
      | none => simp [hs] at h
      | some x =>
        simp only [hs] at h
        simp only [moveScore_mono env search search' hmono q beta depth x hs]
        split_ifs at h ⊢
        · exact h
        · exact ih _ _ _ h
        · exact ih _ _ _ h

/-- A search that returns within a recursion bound returns the same value within
every larger bound. -/
theorem xSearchWithZeroWindow_mono {P M : Type} (env : SearchEnv P M) :
    ∀ (fuel : Nat) (p : P) (beta depth v : Int),
      xSearchWithZeroWindow env fuel p beta depth = some v →
      xSearchWithZeroWindow env (fuel + 1) p beta depth = some v := by
  intro fuel
  induction fuel with
  | zero => intro p beta depth v h; simp [xSearchWithZeroWindow] at h
  | succ n ih =>
    intro p beta depth v h
    rw [xSearchWithZeroWindow] at h ⊢
    simp only at h ⊢
    split_ifs at h ⊢
    · exact h
    · exact h
    · exact moveLoop_mono env _ _ ih p beta depth _ _ _ v h

theorem moveLoop_isSome {P M : Type} (env : SearchEnv P M)
    (search : P → Int → Int → Option Int) (p : P) (beta depth : Int) :
    ∀ (moves : List M) (bestScore : Int) (moveCount : Nat),
      (∀ m ∈ moves, ∀ q, env.makeMove p m = some q →
        (moveScore env search q beta depth).isSome = true) →
      (moveLoop env search p beta depth moves bestScore moveCount).isSome = true := by
  intro moves
  induction moves with
  | nil => intro bestScore moveCount _; simp only [moveLoop]; split_ifs <;> rfl
  | cons m rest ih =>
    intro bestScore moveCount hall
    have hrest : ∀ x ∈ rest, ∀ q, env.makeMove p x = some q →
        (moveScore env search q beta depth).isSome = true :=
      fun x hx => hall x (List.mem_cons_of_mem _ hx)
    simp only [moveLoop]
    cases hm : env.makeMove p m with
    | none => exact ih _ _ hrest
    | some q =>
      have := hall m (List.mem_cons_self _ _) q hm
      obtain ⟨x, hx⟩ := Option.isSome_iff_exists.1 this
      simp only [hx]
      split_ifs
      · rfl
      · exact ih _ _ hrest
      · exact ih _ _ hrest

/-- With a positive depth and quiescence and in-check searches that return, the
zero-window search returns once the recursion bound reaches the depth. -/
theorem xSearchWithZeroWindow_returns {P M : Type} (env : SearchEnv P M)
    (hq : ∀ q a b, (env.xSearchQuiescence q a b).isSome = true)
    (hc : ∀ q b d, (env.xSearchInCheck q b d).isSome = true) :
    ∀ (fuel : Nat) (p : P) (beta depth : Int), 1 ≤ depth → depth ≤ fuel →
      (xSearchWithZeroWindow env fuel p beta depth).isSome = true := by
  intro fuel
  induction fuel with
  | zero => intro p beta depth h1 h2; simp at h2; omega
  | succ n ih =>
    intro p beta depth h1 h2
    rw [xSearchWithZeroWindow]
    simp only
    split_ifs
    · rfl
    · rfl
    · apply moveLoop_isSome
      intro m _ q _
      unfold moveScore
      simp only
      split_ifs with c1 c2
      · simp [hq]
      · simp [hc]
      · have hrd : reducedDepth env q depth = depth - 1 := by
          unfold reducedDepth
          simp [c2]
        rw [hrd] at c1 ⊢
        have := ih q (1 - beta) (depth - 1) (by omega) (by push_cast at h2; omega)
        simp [this]


/-! ## Endgame selection -/

theorem ite_eq_elim {α : Type} {Q : Prop} (c : Prop) [Decidable c] (a b r : α)
    (h1 : c → a = r → Q) (h2 : ¬ c → b = r → Q) : (if c then a else b) = r → Q := by
  intro h
  by_cases hc : c
  · rw [if_pos hc] at h; exact h1 hc h
  · rw [if_neg hc] at h; exact h2 hc h

theorem kingSafetyFlags_fields (wN wB wR wQ bN bB bR bQ : Int) :
    (kingSafetyFlags wN wB wR wQ bN bB bR bQ).materialDraw = false ∧
    (kingSafetyFlags wN wB wR wQ bN bB bR bQ).knownEndgame = false ∧
    (kingSafetyFlags wN wB wR wQ bN bB bR bQ).lesserKnownEndgame = false ∧
    (kingSafetyFlags wN wB wR wQ bN bB bR bQ).singleBishops = false := by
  unfold kingSafetyFlags
  simp only [Flags.none]
  split_ifs <;> simp

theorem kingSafetyFlags_swap (wN wB wR wQ bN bB bR bQ : Int) :
    kingSafetyFlags bN bB bR bQ wN wB wR wQ =
      (kingSafetyFlags wN wB wR wQ bN bB bR bQ).swapKingSafety := by
  unfold kingSafetyFlags Flags.swapKingSafety
  simp only [Flags.none]
  split_ifs <;> rfl

theorem wrap64_id (n : Int) (h1 : -2 ^ 63 ≤ n) (h2 : n < 2 ^ 63) : wrap64 n = n := by
  unfold wrap64
  omega

theorem wrap64_Abs_sub_comm (a b : Int) :
    wrap64 (Abs (wrap64 (a - b))) = wrap64 (Abs (wrap64 (b - a))) := by
  unfold wrap64 Abs
  split_ifs <;> omega

theorem materialDraw_spec_iff (wP wN wB wR wQ bP bN bB bR bQ : Int)
    (hwP : 0 ≤ wP) (hwN : 0 ≤ wN) (hwB : 0 ≤ wB) (hwR : 0 ≤ wR) (hwQ : 0 ≤ wQ)
    (hbP : 0 ≤ bP) (hbN : 0 ≤ bN) (hbB : 0 ≤ bB) (hbR : 0 ≤ bR) (hbQ : 0 ≤ bQ) :
    ((wP = 0 ∧ bP = 0 ∧ wR = 0 ∧ bR = 0 ∧ wQ = 0 ∧ bQ = 0) ∧
        ((wN + wB ≤ 1 ∧ bN + bB ≤ 1) ∨
          (wN + wB + bN + bB = 2 ∧ (wN = 2 ∨ bN = 2)))) ↔
      (wP + bP + (wN + wB + (bN + bB)) + (wR + wQ + (bR + bQ)) = 0 ∨
        (wP + bP = 0 ∧ wR + wQ + (bR + bQ) = 0 ∧ wN + wB < 2 ∧ bN + bB < 2) ∨
        (wP + bP = 0 ∧ wR + wQ + (bR + bQ) = 0 ∧ wN + wB + (bN + bB) = 2 ∧
          (wN = 2 ∨ bN = 2))) := by
  omega

set_option maxHeartbeats 1000000 in
theorem endgamesChain_swap (f : Flags) (wP wN wB wR wQ bP bN bB bR bQ : Int) :
    endgamesChain f.swapKingSafety bP bN bB bR bQ wP wN wB wR wQ =
      ((endgamesChain f wP wN wB wR wQ bP bN bB bR bQ).1.swapKingSafety,
        (endgamesChain f wP wN wB wR wQ bP bN bB bR bQ).2) := by
  generalize hr : endgamesChain f wP wN wB wR wQ bP bN bB bR bQ = r
  generalize hs : endgamesChain f.swapKingSafety bP bN bB bR bQ wP wN wB wR wQ = s
  unfold endgamesChain at hr hs
  have hA : ∀ a b : Int, wrap64 (Abs (wrap64 (a - b))) = wrap64 (Abs (wrap64 (b - a))) :=
    wrap64_Abs_sub_comm
  generalize wrap64 = w at hr hs hA
  simp only [decide_eq_true_eq, Flags.swapKingSafety, add_comm, mul_comm, and_comm,
    and_left_comm, and_assoc, or_comm, or_left_comm, or_assoc, hA] at hr hs
  revert hr
  repeat' (apply ite_eq_elim <;> intro _)
  all_goals intro hr
  all_goals subst hr
  all_goals revert hs
  all_goals repeat' (apply ite_eq_elim <;> intro _)
  all_goals intro hs
  all_goals subst hs
  all_goals first
    | contradiction
    | rfl


/-! ## Occupancy outside the relevant mask -/

theorem rayLoop_stop (cond : Int → Int → Bool) (dc dr : Int) (mask fuel : Nat) (c r : Int)
    (acc : Nat) (h : cond c r = false) : rayLoop cond dc dr mask fuel c r acc = acc := by
  cases fuel <;> simp [rayLoop, h]

theorem rayLoop_land (cond : Int → Int → Bool) (dc dr : Int) (occ M : Nat) :
    ∀ (fuel : Nat) (c r : Int) (acc : Nat),
      (∀ k : Nat, k < fuel → cond (c + k * dc) (r + k * dr) = true →
        cond (c + (k + 1 : Nat) * dc) (r + (k + 1 : Nat) * dr) = true →
          M.testBit (rayIdx dc dr c r k) = true) →
      rayLoop cond dc dr (occ &&& M) fuel c r acc = rayLoop cond dc dr occ fuel c r acc := by
  intro fuel
  induction fuel with
  | zero => intro c r acc _; rfl
  | succ n ih =>
    intro c r acc H
    unfold rayLoop
    cases hc : cond c r
    · simp
    · simp only [if_true]
      have h0 := H 0 (by omega)
      simp only [rayIdx, Nat.cast_zero, zero_mul, add_zero, zero_add, Nat.cast_one, one_mul] at h0
      have h0 := h0 hc
      cases hm : M.testBit (r * 8 + c).toNat
      · have hnext : cond (c + dc) (r + dr) = false := by
          cases hn : cond (c + dc) (r + dr)
          · rfl
          · have := h0 hn
            rw [hm] at this
            exact absurd this (by simp)
        have e1 : ¬ ((occ &&& M) &&& bit (r * 8 + c).toNat ≠ 0) := by
          rw [land_bit_ne_zero, Nat.testBit_land, hm]
          simp
        rw [if_neg e1, rayLoop_stop _ _ _ _ _ _ _ _ hnext]
        split_ifs
        · rfl
        · rw [rayLoop_stop _ _ _ _ _ _ _ _ hnext]
      · have e1 : ((occ &&& M) &&& bit (r * 8 + c).toNat ≠ 0) ↔
            (occ &&& bit (r * 8 + c).toNat ≠ 0) := by
          rw [land_bit_ne_zero, land_bit_ne_zero, Nat.testBit_land, hm]
          simp
        simp only [e1]
        split_ifs
        · rfl
        · apply ih
          intro k hk h1 h2
          have := H (k + 1) (by omega)
          simp only [rayIdx] at this ⊢
          have e2 : c + ((k + 1 : Nat) : Int) * dc = c + dc + k * dc := by push_cast; ring
          have e3 : r + ((k + 1 : Nat) : Int) * dr = r + dr + k * dr := by push_cast; ring
          have e4 : c + ((k + 1 + 1 : Nat) : Int) * dc = c + dc + ((k + 1 : Nat) : Int) * dc := by
            push_cast; ring
          have e5 : r + ((k + 1 + 1 : Nat) : Int) * dr = r + dr + ((k + 1 : Nat) : Int) * dr := by
            push_cast; ring
          rw [e2, e3, e4, e5] at this
          exact this h1 h2

theorem rayLoop_covered (cond : Int → Int → Bool) (dc dr : Int) (occ M : Nat) (c r : Int)
    (acc : Nat) (h : rayCovered cond dc dr c r M) :
    rayLoop cond dc dr (occ &&& M) 8 c r acc = rayLoop cond dc dr occ 8 c r acc :=
  rayLoop_land cond dc dr occ M 8 c r acc h

set_option maxRecDepth 100000 in
theorem createRookMask_covers : ∀ q : Fin 64,
    rayCovered (fun _ r => decide (r ≤ 7)) 0 1 (Col q.val) (Row q.val + 1) (createRookMask q.val) ∧
    rayCovered (fun c _ => decide (c ≤ 7)) 1 0 (Col q.val + 1) (Row q.val) (createRookMask q.val) ∧
    rayCovered (fun _ r => decide (r ≥ 0)) 0 (-1) (Col q.val) (Row q.val - 1) (createRookMask q.val) ∧
    rayCovered (fun c _ => decide (c ≥ 0)) (-1) 0 (Col q.val - 1) (Row q.val) (createRookMask q.val) := by
  decide

set_option maxRecDepth 100000 in
theorem createBishopMask_covers : ∀ q : Fin 64,
    rayCovered (fun c r => decide (c ≤ 7) && decide (r ≤ 7)) 1 1 (Col q.val + 1) (Row q.val + 1)
      (createBishopMask q.val) ∧
    rayCovered (fun c r => decide (c ≤ 7) && decide (r ≥ 0)) 1 (-1) (Col q.val + 1) (Row q.val - 1)
      (createBishopMask q.val) ∧
    rayCovered (fun c r => decide (c ≥ 0) && decide (r ≥ 0)) (-1) (-1) (Col q.val - 1) (Row q.val - 1)
      (createBishopMask q.val) ∧
    rayCovered (fun c r => decide (c ≥ 0) && decide (r ≤ 7)) (-1) 1 (Col q.val - 1) (Row q.val + 1)
      (createBishopMask q.val) := by
  decide

/-! ## Subset enumeration by rank -/

theorem setBitsBelow_lowest (h q : Nat) (hz : h % 2 ^ q = 0) : setBitsBelow h q = 0 := by
  unfold setBitsBelow
  rw [List.countP_eq_zero]
  intro i hi
  have := (mod_two_pow_eq_zero_iff h q).1 hz i (List.mem_range.1 hi)
  simp [this]

theorem setBitsBelow_clearLowest (h q p : Nat) (h0 : 0 < h) (hq : h.testBit q = true)
    (hz : h % 2 ^ q = 0) (hqp : q < p) :
    setBitsBelow (h &&& (h - 1)) p + 1 = setBitsBelow h p := by
  unfold setBitsBelow
  have e : (fun i => (h &&& (h - 1)).testBit i) = (fun j => h.testBit j && decide (j ≠ q)) := by
    funext j
    exact testBit_clearLowest_of h q h0 hq hz j
  rw [e]
  exact countP_remove (fun j => h.testBit j) q hq p hqp

/-- Bits of the result of the loop of `indexedBitmask`: those already collected,
and each square of `his` whose rank among the squares of `his`, counted from the
loop variable `i`, is a set bit of `index`. -/
theorem indexedLoop_testBit (index : Nat) : ∀ (n his : Nat), his < two64 → count his = n →
    ∀ (i acc p : Nat),
      (indexedLoop index n i his acc).testBit p =
        (acc.testBit p || (his.testBit p && index.testBit (i + setBitsBelow his p))) := by
  intro n
  induction n with
  | zero =>
    intro his hh hc i acc p
    have h0 := count_zero_imp his hh hc
    subst h0
    simp [indexedLoop]
  | succ n ih =>
    intro his hh hc i acc p
    have h0 : 0 < his := by
      rcases Nat.eq_zero_or_pos his with e | e
      · subst e
        have : count 0 = 0 := by simp [count]
        omega
      · exact e
    obtain ⟨q, hq, hz, hlow⟩ := lowest_eq_two_pow his h0
    have hsub := subOne_eq his h0 hh
    have hcl := testBit_clearLowest_of his q h0 hq hz
    have hcnt : count (his &&& (his - 1)) = n := by
      have := count_clearLowest his h0 hh
      omega
    have hlt : his &&& (his - 1) < two64 := lt_of_le_of_lt Nat.and_le_left hh
    unfold indexedLoop
    simp only [hsub, hlow]
    rw [ih _ hlt hcnt, hcl p]
    have hcond : ((1 <<< i) &&& index ≠ 0) ↔ index.testBit i = true :=
      shiftLeft_land_ne_zero i index
    by_cases e : p = q
    · subst e
      rw [setBitsBelow_lowest his p hz, hq]
      cases hb : index.testBit i
      · have : ¬ ((1 <<< i) &&& index ≠ 0) := by rw [hcond, hb]; simp
        rw [if_neg this]
        simp [hb]
      · have : (1 <<< i) &&& index ≠ 0 := by rw [hcond, hb]
        rw [if_pos this]
        simp [hb, Nat.testBit_lor, Nat.testBit_two_pow]
    · have hacc : (if (1 <<< i) &&& index ≠ 0 then acc ||| 2 ^ q else acc).testBit p =
          acc.testBit p := by
        have e' : ¬ q = p := fun h => e h.symm
        split_ifs <;> simp [Nat.testBit_lor, Nat.testBit_two_pow, e']
      rw [hacc]
      cases hp : his.testBit p
      · simp
      · have hqp : q < p := by
          rcases Nat.lt_or_gt_of_ne e with l | l
          · have := (mod_two_pow_eq_zero_iff his q).1 hz p l
            rw [hp] at this
            exact absurd this (by simp)
          · exact l
        have := setBitsBelow_clearLowest his q p h0 hq hz hqp
        have e2 : i + 1 + setBitsBelow (his &&& (his - 1)) p = i + setBitsBelow his p := by omega
        rw [e2]
        simp [e]

/-- Bit `p` of `indexedBitmask index mask`: set exactly when `p` is a square of
`mask` and the bit of `index` numbered by the rank of `p` in `mask` is set. -/
theorem indexedBitmask_testBit (index mask p : Nat) (hm : mask < two64) :
    (indexedBitmask index mask).testBit p =
      (mask.testBit p && index.testBit (setBitsBelow mask p)) := by
  unfold indexedBitmask
  rw [indexedLoop_testBit index (count mask) mask hm rfl 0 0 p]
  simp

/-- Every rank below the number of marked positions is the rank of a marked position. -/
theorem exists_rank (f : Nat → Bool) : ∀ (n j : Nat), j < (List.range n).countP f →
    ∃ p, p < n ∧ f p = true ∧ (List.range p).countP f = j := by
  intro n
  induction n with
  | zero => intro j h; simp at h
  | succ n ih =>
    intro j h
    rw [List.range_succ, List.countP_append] at h
    by_cases hj : j < (List.range n).countP f
    · obtain ⟨p, hp, h1, h2⟩ := ih j hj
      exact ⟨p, by omega, h1, h2⟩
    · cases hf : f n
      · simp [List.countP_cons, hf] at h
        omega
      · refine ⟨n, by omega, hf, ?_⟩
        simp [List.countP_cons, hf] at h
        omega

theorem indexedBitmask_inj (mask i1 i2 : Nat) (hm : mask < two64)
    (h1 : i1 < 2 ^ count mask) (h2 : i2 < 2 ^ count mask)
    (h : indexedBitmask i1 mask = indexedBitmask i2 mask) : i1 = i2 := by
  apply Nat.eq_of_testBit_eq
  intro j
  by_cases hj : j < count mask
  · obtain ⟨p, _, hp, hr⟩ := exists_rank (fun i => mask.testBit i) 64 j hj
    have e1 := indexedBitmask_testBit i1 mask p hm
    have e2 := indexedBitmask_testBit i2 mask p hm
    have hr' : setBitsBelow mask p = j := hr
    rw [hp, hr', Bool.true_and] at e1 e2
    rw [← e1, ← e2, h]
  · have hle : 2 ^ count mask ≤ 2 ^ j := Nat.pow_le_pow_right (by decide) (by omega)
    rw [Nat.testBit_lt_two_pow (lt_of_lt_of_le h1 hle),
      Nat.testBit_lt_two_pow (lt_of_lt_of_le h2 hle)]


/-! ## The fixed tables of `initMasks`: each square's entries come from its own loop iteration -/

theorem agree_refl (T : FixedMasks) (a : Nat) : T.agree T a :=
  ⟨rfl, rfl, fun _ => rfl, fun _ => rfl, fun _ => rfl, fun _ => rfl⟩

theorem agree_symm {T T1 : FixedMasks} {a : Nat} (h : T.agree T1 a) : T1.agree T a :=
  ⟨h.1.symm, h.2.1.symm, fun c => (h.2.2.1 c).symm, fun c => (h.2.2.2.1 c).symm,
    fun b => (h.2.2.2.2.1 b).symm, fun b => (h.2.2.2.2.2 b).symm⟩

theorem agree_trans {T T1 T2 : FixedMasks} {a : Nat} (h : T.agree T1 a) (k : T1.agree T2 a) :
    T.agree T2 a :=
  ⟨h.1.trans k.1, h.2.1.trans k.2.1, fun c => (h.2.2.1 c).trans (k.2.2.1 c),
    fun c => (h.2.2.2.1 c).trans (k.2.2.2.1 c), fun b => (h.2.2.2.2.1 b).trans (k.2.2.2.2.1 b),
    fun b => (h.2.2.2.2.2 b).trans (k.2.2.2.2.2 b)⟩

theorem writeAt_other {α : Type} (f : Nat → α) (k : Nat) (v : α) (a : Nat) (h : k ≠ a) :
    writeAt f k v a = f a := by
  unfold writeAt
  rw [if_neg (fun e => h e.symm)]

theorem writeAt_same {α : Type} (f : Nat → α) (k : Nat) (v : α) : writeAt f k v k = v := by
  unfold writeAt
  rw [if_pos rfl]

theorem writeAt2_apply (f : Nat → Nat → Nat) (i j v x y : Nat) :
    writeAt2 f i j v x y = if x = i ∧ y = j then v else f x y := by
  unfold writeAt2 writeAt
  by_cases hx : x = i
  · subst hx
    by_cases hy : y = j
    · simp [hy]
    · simp [hy]
  · simp [hx]

theorem writeAt2_other (f : Nat → Nat → Nat) (i j v a : Nat) (h : i ≠ a) :
    writeAt2 f i j v a = f a := by
  unfold writeAt2
  exact writeAt_other _ _ _ _ h

theorem writeAt2_row (f : Nat → Nat → Nat) (i j v b : Nat) :
    writeAt2 f i j v i b = if b = j then v else f i b := by
  rw [writeAt2_apply]
  simp

/-- `setupMasks` for square `sq` leaves the entries of every other square alone. -/
theorem setupMasks_other (T : FixedMasks) (sq tgt : Nat) (row col r c : Int) (a : Nat)
    (h : sq ≠ a) : (setupMasks T sq tgt row col r c).agree T a := by
  unfold setupMasks FixedMasks.agree
  simp only
  split_ifs <;> simp [writeAt2_other _ _ _ _ _ h]

/-- The entries of square `sq` after `setupMasks` depend on the entries of `sq` only. -/
theorem setupMasks_congr (T T1 : FixedMasks) (sq tgt : Nat) (row col r c : Int)
    (h : T.agree T1 sq) :
    (setupMasks T sq tgt row col r c).agree (setupMasks T1 sq tgt row col r c) sq := by
  obtain ⟨h1, h2, h3, h4, h5, h6⟩ := h
  unfold setupMasks FixedMasks.agree
  simp only
  split_ifs <;> simp [writeAt2_row, h1, h2, h3, h4, h5, h6]

theorem initMasksTarget_other (sq : Nat) (row col : Int) (T : FixedMasks) (i a : Nat)
    (h : sq ≠ a) : (initMasksTarget sq row col T i).agree T a := by
  have hs := setupMasks_other T sq i row col (Row i) (Col i) a h
  obtain ⟨h1, h2, h3, h4, h5, h6⟩ := hs
  unfold initMasksTarget Coordinate FixedMasks.agree
  simp only
  split_ifs <;> simp [writeAt_other _ _ _ _ h, h1, h2, h3, h4, h5, h6]

theorem initMasksTarget_congr (sq : Nat) (row col : Int) (T T1 : FixedMasks) (i : Nat)
    (h : T.agree T1 sq) :
    (initMasksTarget sq row col T i).agree (initMasksTarget sq row col T1 i) sq := by
  have hs := setupMasks_congr T T1 sq i row col (Row i) (Col i) h
  obtain ⟨h1, h2, h3, h4, h5, h6⟩ := hs
  unfold initMasksTarget Coordinate FixedMasks.agree
  simp only
  split_ifs <;> simp [writeAt_same, h1, h2, h3, h4, h5, h6]

theorem initMasksTargets_other (sq : Nat) (row col : Int) (a : Nat) (h : sq ≠ a) :
    ∀ (l : List Nat) (T : FixedMasks), (l.foldl (initMasksTarget sq row col) T).agree T a := by
  intro l
  induction l with
  | nil => intro T; exact agree_refl T a
  | cons i rest ih =>
    intro T
    rw [List.foldl_cons]
    exact agree_trans (ih _) (initMasksTarget_other sq row col T i a h)

theorem initMasksTargets_congr (sq : Nat) (row col : Int) :
    ∀ (l : List Nat) (T T1 : FixedMasks), T.agree T1 sq →
      (l.foldl (initMasksTarget sq row col) T).agree (l.foldl (initMasksTarget sq row col) T1) sq := by
  intro l
  induction l with
  | nil => intro T T1 h; exact h
  | cons i rest ih =>
    intro T T1 h
    rw [List.foldl_cons, List.foldl_cons]
    exact ih _ _ (initMasksTarget_congr sq row col T T1 i h)

theorem initMasksPawnMoves_other (T : FixedMasks) (sq : Nat) (row col : Int) (a : Nat)
    (h : sq ≠ a) : (initMasksPawnMoves T sq row col).agree T a := by
  have h1 : ¬ a = sq := fun e => h e.symm
  unfold initMasksPawnMoves FixedMasks.agree
  simp only
  split_ifs <;> simp [writeAt2_apply, h1]

theorem initMasksPawnMoves_congr (T T1 : FixedMasks) (sq : Nat) (row col : Int)
    (h : T.agree T1 sq) :
    (initMasksPawnMoves T sq row col).agree (initMasksPawnMoves T1 sq row col) sq := by
  obtain ⟨h1, h2, h3, h4, h5, h6⟩ := h
  unfold initMasksPawnMoves FixedMasks.agree
  simp only
  split_ifs <;> simp [writeAt2_apply, White, Black, h1, h2, h3, h4, h5, h6]

theorem initMasksPawnAttacks_other (T : FixedMasks) (sq : Nat) (row col : Int) (a : Nat)
    (h : sq ≠ a) : (initMasksPawnAttacks T sq row col).agree T a := by
  have h1 : ¬ a = sq := fun e => h e.symm
  unfold initMasksPawnAttacks FixedMasks.agree
  simp only
  split_ifs <;> simp [writeAt2_apply, h1]

theorem initMasksPawnAttacks_congr (T T1 : FixedMasks) (sq : Nat) (row col : Int)
    (h : T.agree T1 sq) :
    (initMasksPawnAttacks T sq row col).agree (initMasksPawnAttacks T1 sq row col) sq := by
  obtain ⟨h1, h2, h3, h4, h5, h6⟩ := h
  unfold initMasksPawnAttacks FixedMasks.agree
  simp only
  split_ifs <;> simp [writeAt2_apply, White, Black, h1, h2, h3, h4, h5, h6]

theorem initMasksFixedSquare_other (T : FixedMasks) (sq a : Nat) (h : sq ≠ a) :
    (initMasksFixedSquare T sq).agree T a := by
  unfold initMasksFixedSquare Coordinate
  simp only
  exact agree_trans (initMasksPawnAttacks_other _ sq _ _ a h)
    (agree_trans (initMasksTargets_other sq _ _ a h _ _) (initMasksPawnMoves_other T sq _ _ a h))

theorem initMasksFixedSquare_congr (T T1 : FixedMasks) (sq : Nat) (h : T.agree T1 sq) :
    (initMasksFixedSquare T sq).agree (initMasksFixedSquare T1 sq) sq := by
  unfold initMasksFixedSquare Coordinate
  simp only
  exact initMasksPawnAttacks_congr _ _ sq _ _
    (initMasksTargets_congr sq _ _ _ _ _ (initMasksPawnMoves_congr T T1 sq _ _ h))

/-- After the square loop has passed square `a`, the entries of `a` are those that
the loop body for `a` leaves on zero-initialised tables. -/
theorem initMasksFixed_rows (a : Nat) : ∀ n : Nat,
    (a < n → ((List.range n).foldl initMasksFixedSquare FixedMasks.zero).agree
      (initMasksFixedSquare FixedMasks.zero a) a) ∧
    (n ≤ a → ((List.range n).foldl initMasksFixedSquare FixedMasks.zero).agree
      FixedMasks.zero a) := by
  intro n
  induction n with
  | zero => exact ⟨fun h => by omega, fun _ => agree_refl _ a⟩
  | succ n ih =>
    rw [List.range_succ, List.foldl_append]
    simp only [List.foldl_cons, List.foldl_nil]
    constructor
    · intro h
      by_cases e : n = a
      · subst e
        exact initMasksFixedSquare_congr _ _ n (ih.2 (le_refl _))
      · exact agree_trans (initMasksFixedSquare_other _ n a e) (ih.1 (by omega))
    · intro h
      exact agree_trans (initMasksFixedSquare_other _ n a (by omega)) (ih.2 (by omega))

theorem initMasksFixed_agree (a : Nat) (h : a < 64) :
    initMasksFixed.agree (initMasksFixedSquare FixedMasks.zero a) a :=
  (initMasksFixed_rows a 64).1 h

/-! ## The fixed tables of `initMasks`: the entries of each square -/

theorem squaresWhere_fold (P : Nat → Bool) (t : Nat) : ∀ n : Nat,
    ((List.range n).foldl (fun m s => if P s then m ||| bit s else m) 0).testBit t =
      (decide (t < n) && P t) := by
  intro n
  induction n with
  | zero => simp
  | succ n ih =>
    rw [List.range_succ, List.foldl_append]
    simp only [List.foldl_cons, List.foldl_nil]
    by_cases e : t = n
    · subst e
      cases hp : P t
      · simp [hp, ih]
      · rw [if_pos rfl, testBit_lor_bit]
        simp
    · have e1 : ¬ n = t := fun h => e h.symm
      cases hp : P n
      · simp only [hp, Bool.false_eq_true, if_false, ih]
        have : (t < n + 1) ↔ t < n := by omega
        simp [this]
      · simp only [if_true, testBit_lor_bit, ih, e1, decide_False, Bool.or_false]
        have : (t < n + 1) ↔ t < n := by omega
        simp [this]

/-- The squares of `squaresWhere P`: those of the board that satisfy `P`. -/
theorem squaresWhere_testBit (P : Nat → Bool) (t : Nat) :
    (squaresWhere P).testBit t = true ↔ (t ≤ 63 ∧ P t = true) := by
  unfold squaresWhere
  rw [squaresWhere_fold P t 64]
  simp
  omega

set_option maxRecDepth 1000000 in
theorem knight_king_rows : ∀ a : Fin 64,
    (initMasksFixedSquare FixedMasks.zero a).knightMoves a =
      squaresWhere (fun b => decide ((Abs (Row b - Row a) = 2 ∧ Abs (Col b - Col a) = 1) ∨
        (Abs (Row b - Row a) = 1 ∧ Abs (Col b - Col a) = 2))) ∧
    (initMasksFixedSquare FixedMasks.zero a).kingMoves a =
      squaresWhere (fun b => decide (a.val ≠ b ∧ Abs (Row b - Row a) ≤ 1 ∧
        Abs (Col b - Col a) ≤ 1)) := by
  decide!

set_option maxRecDepth 1000000 in
theorem knight_king_reach : ∀ a b : Fin 64,
    ((Abs (Row b - Row a) = 2 ∧ Abs (Col b - Col a) = 1) ∨
      (Abs (Row b - Row a) = 1 ∧ Abs (Col b - Col a) = 2) ∨
      (a.val ≠ b.val ∧ Abs (Row b - Row a) ≤ 1 ∧ Abs (Col b - Col a) ≤ 1)) →
    ¬ (((b.val : Nat) : Int) = a.val ∨ Abs (((b.val : Nat) : Int) - a.val) > 17) := by
  decide!

set_option maxRecDepth 1000000 in
theorem pawn_rows : ∀ q : Fin 64,
    (initMasksFixedSquare FixedMasks.zero q).maskPawn White q =
      squaresWhere (fun s => decide (A2H2 ≤ Row s ∧ Row s ≤ A7H7 ∧ Row q = Row s + 1 ∧
        Abs (Col q - Col s) = 1)) ∧
    (initMasksFixedSquare FixedMasks.zero q).maskPawn Black q =
      squaresWhere (fun s => decide (A2H2 ≤ Row s ∧ Row s ≤ A7H7 ∧ Row q = Row s - 1 ∧
        Abs (Col q - Col s) = 1)) ∧
    (initMasksFixedSquare FixedMasks.zero q).pawnMoves White q =
      squaresWhere (fun t => decide (A2H2 ≤ Row q ∧ Row q ≤ A7H7 ∧ Row t = Row q + 1 ∧
        Abs (Col t - Col q) = 1)) ∧
    (initMasksFixedSquare FixedMasks.zero q).pawnMoves Black q =
      squaresWhere (fun t => decide (A2H2 ≤ Row q ∧ Row q ≤ A7H7 ∧ Row t = Row q - 1 ∧
        Abs (Col t - Col q) = 1)) := by
  decide!

set_option maxRecDepth 1000000 in
theorem alignment_cells : ∀ a b : Fin 64,
    (initMasksFixedSquare FixedMasks.zero a).maskStraight a b =
      (if a.val ≠ b.val ∧ Row a = Row b then maskRank (Row a)
       else if a.val ≠ b.val ∧ Col a = Col b then maskFile (Col a) else 0) ∧
    (initMasksFixedSquare FixedMasks.zero a).maskDiagonal a b =
      (if a.val ≠ b.val ∧ Row a - Col a = Row b - Col b then
        squaresWhere (fun t => decide (Row t - Col t = Row a - Col a))
       else if a.val ≠ b.val ∧ Row a + Col a = Row b + Col b then
        squaresWhere (fun t => decide (Row t + Col t = Row a + Col a))
       else 0) := by
  decide!

set_option maxRecDepth 1000000 in
theorem maskRank_maskFile_squares : ∀ k : Fin 8,
    maskRank k.val = squaresWhere (fun t => decide (Row t = k.val)) ∧
    maskFile k.val = squaresWhere (fun t => decide (Col t = k.val)) := by
  decide!

set_option maxRecDepth 1000000 in
theorem maskPawn_c3 :
    (initMasksFixedSquare FixedMasks.zero 18).maskPawn White 18 = bit 9 ||| bit 11 ∧
    (initMasksFixedSquare FixedMasks.zero 18).maskPawn Black 18 = bit 25 ||| bit 27 := by
  decide!

/-! ## Zero-window search: recursion depth and recorded calls -/

theorem moveScore_congr_search {P M : Type} (env : SearchEnv P M)
    (search1 search2 : P → Int → Int → Option Int) (depth : Int) (hdepth : 1 ≤ depth)
    (h : ∀ q b d, 1 ≤ d → d < depth → search1 q b d = search2 q b d)
    (position : P) (beta : Int) :
    moveScore env search1 position beta depth = moveScore env search2 position beta depth := by
  unfold moveScore
  simp only
  split_ifs with c1 c2
  · rfl
  · rfl
  · have hrd : reducedDepth env position depth = depth - 1 := by
      unfold reducedDepth
      simp [c2]
    rw [hrd] at c1 ⊢
    rw [h position (1 - beta) (depth - 1) (by omega) (by omega)]

theorem moveLoop_congr_search {P M : Type} (env : SearchEnv P M)
    (search1 search2 : P → Int → Int → Option Int) (p : P) (beta depth : Int)
    (h : ∀ position, moveScore env search1 position beta depth =
      moveScore env search2 position beta depth) :
    ∀ (moves : List M) (bestScore : Int) (moveCount : Nat),
      moveLoop env search1 p beta depth moves bestScore moveCount =
        moveLoop env search2 p beta depth moves bestScore moveCount := by
  intro moves
  induction moves with
  | nil => intro bestScore moveCount; simp only [moveLoop]
  | cons m rest ih =>
    intro bestScore moveCount
    simp only [moveLoop]
    cases hm : env.makeMove p m with
    | none => exact ih _ _
    | some q =>
      simp only [h q]
      cases moveScore env search2 q beta depth with
      | none => rfl
      | some s =>
        simp only
        split_ifs
        · rfl
        · exact ih _ _
        · exact ih _ _

theorem moveLoopCalls_spec {P M : Type} (env : SearchEnv P M)
    (search : P → Int → Int → Option Int) (p : P) (beta depth : Int) :
    ∀ (moves : List M) (bestScore : Int) (moveCount : Nat),
      (moveLoopCalls env search p beta depth moves bestScore moveCount).map Prod.fst =
        moveLoop env search p beta depth moves bestScore moveCount ∧
      ∀ score calls, moveLoopCalls env search p beta depth moves bestScore moveCount =
          some (score, calls) →
        ∃ tried rest, moves = tried ++ rest ∧ calls = tried.flatMap (movePair env p) := by
  intro moves
  induction moves with
  | nil =>
    intro bestScore moveCount
    simp only [moveLoopCalls, moveLoop]
    refine ⟨by split_ifs <;> rfl, ?_⟩
    intro score calls h
    simp only [Option.some.injEq, Prod.mk.injEq] at h
    exact ⟨[], [], rfl, by rw [← h.2]; rfl⟩
  | cons m rest ih =>
    intro bestScore moveCount
    simp only [moveLoopCalls, moveLoop]
    cases hm : env.makeMove p m with
    | none =>
      simp only
      obtain ⟨h1, h2⟩ := ih bestScore moveCount
      constructor
      · rw [← h1, Option.map_map]
        rfl
      · intro score calls h
        cases hr : moveLoopCalls env search p beta depth rest bestScore moveCount with
        | none => rw [hr] at h; simp at h
        | some r =>
          rw [hr] at h
          simp only [Option.map_some', Option.some.injEq, Prod.mk.injEq] at h
          obtain ⟨tried, rest', e1, e2⟩ := h2 r.1 r.2 hr
          refine ⟨m :: tried, rest', by rw [e1]; rfl, ?_⟩
          rw [← h.2, List.flatMap_cons, ← e2]
          simp [movePair, hm]
    | some q =>
      simp only
      cases hs : moveScore env search q beta depth with
      | none => simp
      | some s =>
        simp only
        have hpair : movePair env p m = [SearchCall.make m (some q), SearchCall.takeBack q m] := by
          simp [movePair, hm]
        have step : ∀ (b : Int) (c : Nat),
            ((moveLoopCalls env search p beta depth rest b c).map
                (fun r => (r.1, SearchCall.make m (some q) :: SearchCall.takeBack q m :: r.2))).map
              Prod.fst = moveLoop env search p beta depth rest b c ∧
            ∀ score calls,
              (moveLoopCalls env search p beta depth rest b c).map
                (fun r => (r.1, SearchCall.make m (some q) :: SearchCall.takeBack q m :: r.2)) =
                  some (score, calls) →
              ∃ tried rest', m :: rest = tried ++ rest' ∧
                calls = tried.flatMap (movePair env p) := by
          intro b c
          obtain ⟨h1, h2⟩ := ih b c
          constructor
          · rw [← h1, Option.map_map]
            rfl
          · intro score calls h
            cases hr : moveLoopCalls env search p beta depth rest b c with
            | none => rw [hr] at h; simp at h
            | some r =>
              rw [hr] at h
              simp only [Option.map_some', Option.some.injEq, Prod.mk.injEq] at h
              obtain ⟨tried, rest', e1, e2⟩ := h2 r.1 r.2 hr
              refine ⟨m :: tried, rest', by rw [e1]; rfl, ?_⟩
              rw [← h.2, List.flatMap_cons, ← e2, hpair]
              rfl
        split_ifs
        · refine ⟨rfl, ?_⟩
          intro score calls h
          simp only [Option.some.injEq, Prod.mk.injEq] at h
          refine ⟨[m], rest, rfl, ?_⟩
          rw [← h.2]
          simp [List.flatMap_cons, hpair]
        · exact step _ _
        · exact step _ _


/-! ## Passed pawns: the loop of `pawnPassers` -/

theorem pawnPassersLoop_eq_foldl (tb : PawnInput) (e : Evaluation) (color : Nat) :
    ∀ (fuel pawns : Nat) (score : Score),
      pawnPassersLoop tb e color fuel pawns score =
        (poppedSquares fuel pawns).foldl
          (fun (s : Score) (sq : Nat) => s.add (passerBonus tb e color sq)) score := by
  intro fuel
  induction fuel with
  | zero => intro pawns score; rfl
  | succ n ih =>
    intro pawns score
    unfold pawnPassersLoop poppedSquares
    by_cases h : pawns ≠ 0
    · rw [if_pos h, if_pos h, List.foldl_cons]
      exact ih _ _
    · rw [if_neg h, if_neg h]
      rfl

theorem find_range_lt (f : Nat → Bool) : ∀ n : Nat,
    ((List.range n).find? f).getD 0 < n ∨ ((List.range n).find? f).getD 0 = 0 := by
  intro n
  cases h : (List.range n).find? f with
  | none => right; rfl
  | some x =>
    left
    have := List.mem_of_find?_eq_some h
    simpa using List.mem_range.1 this

theorem popSquare_lt (b : Nat) : popSquare b < 64 := by
  unfold popSquare
  rcases find_range_lt (fun i => b.testBit i) 64 with h | h
  · exact h
  · rw [h]; decide

theorem poppedSquares_lt : ∀ (fuel pawns sq : Nat), sq ∈ poppedSquares fuel pawns → sq < 64 := by
  intro fuel
  induction fuel with
  | zero => intro pawns sq h; simp [poppedSquares] at h
  | succ n ih =>
    intro pawns sq h
    unfold poppedSquares at h
    by_cases hp : pawns ≠ 0
    · rw [if_pos hp, List.mem_cons] at h
      rcases h with h | h
      · rw [h]; exact popSquare_lt pawns
      · exact ih _ _ h
    · rw [if_neg hp] at h
      simp at h

theorem find_range_first (f : Nat → Bool) (p : Nat) (hp : f p = true)
    (hlow : ∀ i, i < p → f i = false) : ∀ n : Nat, p < n →
    (List.range n).find? f = some p := by
  intro n
  induction n with
  | zero => intro h; omega
  | succ n ih =>
    intro h
    rw [List.range_succ, List.find?_append]
    by_cases e : p = n
    · subst e
      have : (List.range p).find? f = none := by
        rw [List.find?_eq_none]
        intro x hx
        simp [hlow x (List.mem_range.1 hx)]
      rw [this]
      simp [hp]
    · rw [ih (by omega)]
      rfl

/-- The square that `pop` returns is the lowest square of a non-empty bitmask. -/
theorem popSquare_lowest (b : Nat) (h0 : 0 < b) (hb : b < two64) :
    b.testBit (popSquare b) = true ∧ b % 2 ^ popSquare b = 0 := by
  obtain ⟨p, hp, hz⟩ := exists_lowest b h0
  have hp64 : p < 64 := testBit_bound b p hb hp
  have : popSquare b = p := by
    unfold popSquare
    rw [find_range_first (fun i => b.testBit i) p hp
      (fun i hi => (mod_two_pow_eq_zero_iff b p).1 hz i hi) 64 hp64]
    rfl
  rw [this]
  exact ⟨hp, hz⟩

/-- The loop of `pawnPassers` visits every square of a 64-bit bitmask, each once. -/
theorem poppedSquares_spec : ∀ (fuel pawns : Nat), pawns < two64 → count pawns ≤ fuel →
    (∀ sq, sq ∈ poppedSquares fuel pawns ↔ pawns.testBit sq = true) ∧
    (poppedSquares fuel pawns).Nodup := by
  intro fuel
  induction fuel with
  | zero =>
    intro pawns hb hc
    have h0 := count_zero_imp pawns hb (by omega)
    subst h0
    simp [poppedSquares]
  | succ n ih =>
    intro pawns hb hc
    unfold poppedSquares
    by_cases hp : pawns ≠ 0
    · rw [if_pos hp]
      have h0 : 0 < pawns := Nat.pos_of_ne_zero hp
      obtain ⟨ht, hz⟩ := popSquare_lowest pawns h0 hb
      have hrest : popRest pawns = pawns &&& (pawns - 1) := by
        unfold popRest
        rw [subOne_eq pawns h0 hb]
      have hcl := testBit_clearLowest_of pawns (popSquare pawns) h0 ht hz
      have hcnt := count_clearLowest pawns h0 hb
      have hlt : pawns &&& (pawns - 1) < two64 := lt_of_le_of_lt Nat.and_le_left hb
      obtain ⟨i1, i2⟩ := ih (pawns &&& (pawns - 1)) hlt (by omega)
      rw [hrest]
      constructor
      · intro sq
        rw [List.mem_cons, i1 sq, hcl sq]
        by_cases e : sq = popSquare pawns
        · rw [e]; simp [ht]
        · simp [e]
      · rw [List.nodup_cons]
        refine ⟨?_, i2⟩
        rw [i1, hcl]
        simp
    · rw [if_neg hp]
      have : pawns = 0 := by
        by_contra h
        exact hp h
      subst this
      simp

set_option maxRecDepth 1000000 in
theorem maskInFront_squares : ∀ q : Fin 64,
    (maskInFront White q.val < two64 ∧
      ((maskInFront White q.val).testBit (((q.val : Nat) : Int) + eight White).toNat = true ∨
        maskInFront White q.val = 0)) ∧
    (maskInFront Black q.val < two64 ∧
      ((maskInFront Black q.val).testBit (((q.val : Nat) : Int) + eight Black).toNat = true ∨
        maskInFront Black q.val = 0)) := by
  decide!

theorem maskInFront_next (color sq : Nat) (h : sq < 64) :
    maskInFront color sq < two64 ∧
      ((maskInFront color sq).testBit ((sq : Int) + eight color).toNat = true ∨
        maskInFront color sq = 0) := by
  obtain ⟨hW, hB⟩ := maskInFront_squares ⟨sq, h⟩
  by_cases hc : color = White
  · subst hc
    exact hW
  · have e1 : maskInFront color sq = maskInFront Black sq := by
      unfold maskInFront
      rw [if_neg hc, if_neg (by decide)]
    have e2 : eight color = eight Black := by
      unfold eight
      rw [if_neg hc, if_neg (by decide)]
    rw [e1, e2]
    exact hB

theorem passerExtra_eq_spec_empty (tb : PawnInput) (e : Evaluation) (color : Nat) (square : Int)
    (h0 : tb.maskInFront color square = 0) :
    passerExtra tb e color square = passerExtraSpec tb e color square := by
  have hA : passerAttacked tb e color square = 0 := by
    apply Nat.eq_of_testBit_eq
    intro t
    rw [Nat.zero_testBit]
    cases hc : (passerAttacked tb e color square).testBit t
    · rfl
    · have := passerAttacked_subset tb e color square t hc
      rw [h0] at this
      simp at this
  unfold passerExtra passerExtraSpec
  simp [hA, h0]

/-- The bonus of one passed pawn, by cases, for a 64-bit in-front mask that holds
the next square or is empty. -/
theorem passerBonus_cases (tb : PawnInput) (e : Evaluation) (color : Nat) (square : Int)
    (hIn : tb.maskInFront color square < two64)
    (hNext : (tb.maskInFront color square).testBit (square + tb.eight color).toNat = true ∨
      tb.maskInFront color square = 0) :
    ((tb.RelRow square color > A2H2 ∧
        e.position.board.testBit (square + tb.eight color).toNat = false) →
        passerBonus tb e color square =
          (tb.bonusPassedPawn (tb.RelRow square color)).adjust
            (passerExtraSpec tb e color square * tb.extraPassedPawn (tb.RelRow square color))) ∧
    ((tb.RelRow square color ≤ A2H2 ∨
        e.position.board.testBit (square + tb.eight color).toNat = true) →
      passerBonus tb e color square = tb.bonusPassedPawn (tb.RelRow square color)) := by
  have hX : passerExtra tb e color square = passerExtraSpec tb e color square := by
    rcases hNext with h | h
    · exact passerExtra_eq_spec tb e color square hIn h
    · exact passerExtra_eq_spec_empty tb e color square h
  constructor
  · rintro ⟨hrow, hclear⟩
    unfold passerBonus
    simp only [hrow, if_true, (isClear_iff _ _).2 hclear, hX]
    by_cases hx : passerExtraSpec tb e color square > 0
    · rw [if_pos hx]
    · rw [if_neg hx]
      have h0 : passerExtraSpec tb e color square = 0 := by
        have := passerExtraSpec_values tb e color square
        simp only [List.mem_cons, List.mem_singleton, List.not_mem_nil, or_false] at this
        omega
      rw [h0]
      simp [Score.adjust]
  · intro h
    unfold passerBonus
    rcases h with h | h
    · have : ¬ tb.RelRow square color > A2H2 := not_lt.mpr h
      simp only [this, if_false]
    · have : isClear e.position.board (square + tb.eight color) = false := by
        cases hc : isClear e.position.board (square + tb.eight color)
        · rfl
        · rw [isClear_iff, h] at hc
          exact absurd hc (by simp)
      simp only [this, Bool.false_eq_true, if_false, ite_self]


/-- C1: after `initMasks`, for every square and every subset `s` of the square's
rook mask, the rook table entry at `(s * magic) >> 52` (64-bit wrapping product)
is `createRookAttacks sq s`, provided the square's magic constant sends no two
subsets of the mask with different attack sets to the same index; likewise for
the bishop table with `createBishopMask`, `createBishopAttacks` and shift 55. -/
theorem initMasks_magic_tables (rookMagic bishopMagic : Nat → Magic) (sq : Nat)
    (hsq : sq ≤ 63) :
    (NoAlias (createRookAttacks sq) (rookMagic sq).magic 52 (createRookMask sq) →
      ∀ s : Nat, s &&& createRookMask sq = s →
        (initMasks rookMagic bishopMagic).rookMagicMoves sq
          ((s * (rookMagic sq).magic % two64) >>> 52) = createRookAttacks sq s) ∧
    (NoAlias (createBishopAttacks sq) (bishopMagic sq).magic 55 (createBishopMask sq) →
      ∀ s : Nat, s &&& createBishopMask sq = s →
        (initMasks rookMagic bishopMagic).bishopMagicMoves sq
          ((s * (bishopMagic sq).magic % two64) >>> 55) = createBishopAttacks sq s) := by
  obtain ⟨⟨r1, h1⟩, ⟨r2, h2⟩⟩ := initMasks_rows rookMagic bishopMagic sq 64 (by omega)
  have hr := createRookMask_lt ⟨sq, by omega⟩
  have hb := createBishopMask_lt ⟨sq, by omega⟩
  constructor
  · intro hna s hs
    unfold initMasks
    rw [h1]
    exact magicLoop_lookup _ _ _ _ hr hna r1 s hs
  · intro hna s hs
    unfold initMasks
    rw [h2]
    exact magicLoop_lookup _ _ _ _ hb hna r2 s hs


/-- Witness for C1 at the square `B2` with bit-gathering magic constants: both
no-aliasing premises hold there and the tables answer the sample subsets. -/
theorem initMasks_magic_tables_witness :
    (9 ≤ 63) ∧
    (initMasks sampleRookMagic sampleBishopMagic).rookMagicMoves 9
        (((2 ^ 12 + 2 ^ 33) * (sampleRookMagic 9).magic % two64) >>> 52) =
      createRookAttacks ((9 : Nat) : Int) (2 ^ 12 + 2 ^ 33) ∧
    (initMasks sampleRookMagic sampleBishopMagic).bishopMagicMoves 9
        ((2 ^ 27 * (sampleBishopMagic 9).magic % two64) >>> 55) =
      createBishopAttacks ((9 : Nat) : Int) (2 ^ 27) :=
  ⟨by decide,
    (initMasks_magic_tables sampleRookMagic sampleBishopMagic 9 (by decide)).1
      rook_b2_noAlias (2 ^ 12 + 2 ^ 33) (by decide),
    (initMasks_magic_tables sampleRookMagic sampleBishopMagic 9 (by decide)).2
      bishop_b2_noAlias (2 ^ 27) (by decide)⟩

/-- C2: a square `t` of the board is in `createRookAttacks sq occ` exactly when it
differs from `sq`, shares the row or the column of `sq`, and no square strictly
between `sq` and `t` is in `occ`. -/
theorem createRookAttacks_spec (sq : Int) (occ t : Nat) (h0 : 0 ≤ sq) (h1 : sq ≤ 63)
    (ht : t ≤ 63) :
    (createRookAttacks sq occ).testBit t = true ↔
      ((t : Int) ≠ sq ∧ (Row t = Row sq ∨ Col t = Col sq) ∧
        ∀ u : Nat, u ≤ 63 → betweenStraight sq t u → occ.testBit u = false) := by
  rw [← rook_geometry sq occ t h0 h1 ht]
  unfold createRookAttacks Coordinate
  simp only [Row_nonneg_eq sq h0, Col_nonneg_eq sq h0]
  have eW := rayLoop_hit (fun c _ => decide (c ≥ 0)) (-1) 0 (by decide) (by decide) (by decide)
    sq h0 h1 occ t
  have eS := rayLoop_hit (fun _ r => decide (r ≥ 0)) 0 (-1) (by decide) (by decide) (by decide)
    sq h0 h1 occ t
  have eE := rayLoop_hit (fun c _ => decide (c ≤ 7)) 1 0 (by decide) (by decide) (by decide)
    sq h0 h1 occ t
  have eN := rayLoop_hit (fun _ r => decide (r ≤ 7)) 0 1 (by decide) (by decide) (by decide)
    sq h0 h1 occ t
  simp only [add_zero, ← sub_eq_add_neg] at eW eS eE eN
  rw [eW _ ht (by intro i; simp; omega), eS _ ht (by intro i; simp; omega),
    eE _ ht (by intro i; simp; omega), eN _ ht (by intro i; simp; omega)]
  simp only [Nat.zero_testBit, Bool.false_eq_true, false_or]
  tauto


/-- Witness for C2: the rook on `D4` with blockers on `D2`, `F4` and `G4`, and the
target square `F4`. -/
theorem createRookAttacks_spec_witness :
    ((0 : Int) ≤ 27 ∧ (27 : Int) ≤ 63 ∧ 29 ≤ 63) ∧
    ((createRookAttacks 27 (2 ^ 29 + 2 ^ 30 + 2 ^ 11)).testBit 29 = true ↔
      (((29 : Nat) : Int) ≠ 27 ∧ (Row (29 : Nat) = Row 27 ∨ Col (29 : Nat) = Col 27) ∧
        ∀ u : Nat, u ≤ 63 → betweenStraight 27 (29 : Nat) u →
          (2 ^ 29 + 2 ^ 30 + 2 ^ 11).testBit u = false)) :=
  ⟨⟨by decide, by decide, by decide⟩,
    createRookAttacks_spec 27 (2 ^ 29 + 2 ^ 30 + 2 ^ 11) 29 (by decide) (by decide) (by decide)⟩

/-- C3: a square `t` of the board is in `createBishopAttacks sq occ` exactly when it
differs from `sq`, shares a diagonal or anti-diagonal with `sq` (equal absolute row
and column differences), and no square strictly between `sq` and `t` on that
diagonal is in `occ`. -/
theorem createBishopAttacks_spec (sq : Int) (occ t : Nat) (h0 : 0 ≤ sq) (h1 : sq ≤ 63)
    (ht : t ≤ 63) :
    (createBishopAttacks sq occ).testBit t = true ↔
      ((t : Int) ≠ sq ∧ onDiagonal sq t ∧
        ∀ u : Nat, u ≤ 63 → betweenDiagonal sq t u → occ.testBit u = false) := by
  rw [← bishop_geometry sq occ t h0 h1 ht]
  unfold createBishopAttacks Coordinate
  simp only [Row_nonneg_eq sq h0, Col_nonneg_eq sq h0]
  have eNW := rayLoop_hit (fun c r => decide (c ≥ 0) && decide (r ≤ 7)) (-1) 1
    (by decide) (by decide) (by decide) sq h0 h1 occ t
  have eSW := rayLoop_hit (fun c r => decide (c ≥ 0) && decide (r ≥ 0)) (-1) (-1)
    (by decide) (by decide) (by decide) sq h0 h1 occ t
  have eSE := rayLoop_hit (fun c r => decide (c ≤ 7) && decide (r ≥ 0)) 1 (-1)
    (by decide) (by decide) (by decide) sq h0 h1 occ t
  have eNE := rayLoop_hit (fun c r => decide (c ≤ 7) && decide (r ≤ 7)) 1 1
    (by decide) (by decide) (by decide) sq h0 h1 occ t
  simp only [← sub_eq_add_neg] at eNW eSW eSE eNE
  rw [eNW _ ht (by intro i; simp; omega), eSW _ ht (by intro i; simp; omega),
    eSE _ ht (by intro i; simp; omega), eNE _ ht (by intro i; simp; omega)]
  simp only [Nat.zero_testBit, Bool.false_eq_true, false_or]
  tauto


/-- Witness for C3: the bishop on `D4` with blockers on `F6` and `B2`, and the
target square `F6`. -/
theorem createBishopAttacks_spec_witness :
    ((0 : Int) ≤ 27 ∧ (27 : Int) ≤ 63 ∧ 45 ≤ 63) ∧
    ((createBishopAttacks 27 (2 ^ 45 + 2 ^ 9)).testBit 45 = true ↔
      (((45 : Nat) : Int) ≠ 27 ∧ onDiagonal 27 (45 : Nat) ∧
        ∀ u : Nat, u ≤ 63 → betweenDiagonal 27 (45 : Nat) u →
          (2 ^ 45 + 2 ^ 9).testBit u = false)) :=
  ⟨⟨by decide, by decide, by decide⟩,
    createBishopAttacks_spec 27 (2 ^ 45 + 2 ^ 9) 45 (by decide) (by decide) (by decide)⟩

/-- C4: for piece counts in the ranges of the material table, the adjustment
`(imbalance(white; black) - imbalance(black; white)) / 32` (truncating division)
that `initMaterial` computes for the colour-swapped combination is the exact
negation of the one for the combination itself, the score of the swapped entry
moves by the negated amount in both components, and the score is left untouched
when both sides hold identical counts; both imbalance values stay far inside the
64-bit range. -/
theorem initMaterial_adjustment_antisymmetric (w b : Counts) (score : Score)
    (hw : w.inRange) (hb : b.inRange) :
    adjustment b w = -adjustment w b ∧
    (initMaterialScore score b w).midgame - score.midgame =
      -((initMaterialScore score w b).midgame - score.midgame) ∧
    (initMaterialScore score b w).endgame - score.endgame =
      -((initMaterialScore score w b).endgame - score.endgame) ∧
    (w = b → initMaterialScore score w b = score) ∧
    (-100000 < imbalance (w.B.tdiv 2) w.P w.N w.B w.R w.Q (b.B.tdiv 2) b.P b.N b.B b.R b.Q ∧
      imbalance (w.B.tdiv 2) w.P w.N w.B w.R w.Q (b.B.tdiv 2) b.P b.N b.B b.R b.Q < 100000) := by
  have hs := adjustment_swap w b
  have flipGuard : ∀ x y : Counts,
      (x.Q ≠ y.Q ∨ x.R ≠ y.R ∨ x.B ≠ y.B ∨ x.N ≠ y.N ∨ x.P ≠ y.P) →
        (y.Q ≠ x.Q ∨ y.R ≠ x.R ∨ y.B ≠ x.B ∨ y.N ≠ x.N ∨ y.P ≠ x.P) := by
    intro x y h
    rcases h with h | h | h | h | h
    · exact Or.inl (Ne.symm h)
    · exact Or.inr (Or.inl (Ne.symm h))
    · exact Or.inr (Or.inr (Or.inl (Ne.symm h)))
    · exact Or.inr (Or.inr (Or.inr (Or.inl (Ne.symm h))))
    · exact Or.inr (Or.inr (Or.inr (Or.inr (Ne.symm h))))
  have deltas : (initMaterialScore score b w).midgame - score.midgame =
        -((initMaterialScore score w b).midgame - score.midgame) ∧
      (initMaterialScore score b w).endgame - score.endgame =
        -((initMaterialScore score w b).endgame - score.endgame) := by
    unfold initMaterialScore
    by_cases g : w.Q ≠ b.Q ∨ w.R ≠ b.R ∨ w.B ≠ b.B ∨ w.N ≠ b.N ∨ w.P ≠ b.P
    · rw [if_pos g, if_pos (flipGuard w b g)]
      simp only [hs]
      constructor <;> ring
    · rw [if_neg g, if_neg (fun h => g (flipGuard b w h))]
      constructor <;> ring
  refine ⟨hs, deltas.1, deltas.2, ?_, ?_⟩
  · intro e
    subst e
    unfold initMaterialScore
    simp
  · obtain ⟨wq0, wq1, wr0, wr1, wb0, wb1, wn0, wn1, wp0, wp1⟩ := hw
    obtain ⟨bq0, bq1, br0, br1, bb0, bb1, bn0, bn1, bp0, bp1⟩ := hb
    have w2 := half_bounds w.B wb0 wb1
    have b2 := half_bounds b.B bb0 bb1
    exact imbalance_bound _ _ _ _ _ _ _ _ _ _ _ _ w2.1 w2.2 wp0 (by omega) wn0 (by omega)
      wb0 (by omega) wr0 (by omega) wq0 (by omega) b2.1 b2.2 bp0 (by omega) bn0 (by omega)
      bb0 (by omega) br0 (by omega)

/-- Witness for C4: white holds a full set of pieces, black a bare king. -/
theorem initMaterial_adjustment_antisymmetric_witness :
    (Counts.inRange ⟨8, 2, 2, 2, 1⟩ ∧ Counts.inRange ⟨0, 0, 0, 0, 0⟩) ∧
    (adjustment ⟨0, 0, 0, 0, 0⟩ ⟨8, 2, 2, 2, 1⟩ = -adjustment ⟨8, 2, 2, 2, 1⟩ ⟨0, 0, 0, 0, 0⟩ ∧
    (initMaterialScore ⟨0, 0⟩ ⟨0, 0, 0, 0, 0⟩ ⟨8, 2, 2, 2, 1⟩).midgame - (⟨0, 0⟩ : Score).midgame =
      -((initMaterialScore ⟨0, 0⟩ ⟨8, 2, 2, 2, 1⟩ ⟨0, 0, 0, 0, 0⟩).midgame -
        (⟨0, 0⟩ : Score).midgame) ∧
    (initMaterialScore ⟨0, 0⟩ ⟨0, 0, 0, 0, 0⟩ ⟨8, 2, 2, 2, 1⟩).endgame - (⟨0, 0⟩ : Score).endgame =
      -((initMaterialScore ⟨0, 0⟩ ⟨8, 2, 2, 2, 1⟩ ⟨0, 0, 0, 0, 0⟩).endgame -
        (⟨0, 0⟩ : Score).endgame) ∧
    ((⟨8, 2, 2, 2, 1⟩ : Counts) = ⟨0, 0, 0, 0, 0⟩ →
      initMaterialScore ⟨0, 0⟩ ⟨8, 2, 2, 2, 1⟩ ⟨0, 0, 0, 0, 0⟩ = ⟨0, 0⟩) ∧
    (-100000 < imbalance ((2 : Int).tdiv 2) 8 2 2 2 1 ((0 : Int).tdiv 2) 0 0 0 0 0 ∧
      imbalance ((2 : Int).tdiv 2) 8 2 2 2 1 ((0 : Int).tdiv 2) 0 0 0 0 0 < 100000)) :=
  ⟨⟨by decide, by decide⟩,
    initMaterial_adjustment_antisymmetric ⟨8, 2, 2, 2, 1⟩ ⟨0, 0, 0, 0, 0⟩ ⟨0, 0⟩
      (by decide) (by decide)⟩

/-- C5: after `initPST` on zeroed tables, for every piece kind and every square `s`
of the board the black entry is the negation of the white entry on the vertically
mirrored square `s xor 56`, in the midgame and in the endgame component. -/
theorem initPST_black_mirror (t : PstInput) (s : Nat) (hs : s ≤ 63) :
    ∀ kb ∈ piecePairs,
      (initPST t Pst.zero kb.2 s).midgame = -(initPST t Pst.zero kb.1 (s ^^^ 56)).midgame ∧
      (initPST t Pst.zero kb.2 s).endgame = -(initPST t Pst.zero kb.1 (s ^^^ 56)).endgame := by
  have hf := flip_flip ⟨s, by omega⟩
  simp only at hf
  intro kb hkb
  rw [initPST_entry t kb.2 s (by omega), initPST_entry t kb.1 _ hf.1]
  simp only [piecePairs, List.mem_cons, List.mem_singleton, List.not_mem_nil, or_false] at hkb
  rcases hkb with h | h | h | h | h | h <;> subst h <;> simp only [pstEntry, hf.2] <;>
    constructor <;> first | trivial | omega


/-- Witness for C5 at the square `E2` with sample tables. -/
theorem initPST_black_mirror_witness :
    12 ≤ 63 ∧ ∀ kb ∈ piecePairs,
      (initPST samplePstInput Pst.zero kb.2 12).midgame =
        -(initPST samplePstInput Pst.zero kb.1 (12 ^^^ 56)).midgame ∧
      (initPST samplePstInput Pst.zero kb.2 12).endgame =
        -(initPST samplePstInput Pst.zero kb.1 (12 ^^^ 56)).endgame :=
  ⟨by decide, initPST_black_mirror samplePstInput 12 (by decide)⟩

/-- C6: in `pawnStructure`, for every position, side and pawn square: the pawn is
never both isolated and supported, never both passed and doubled, and the
backward-pawn stage changes the score only for a pawn that is none of passed,
supported or isolated (for any other pawn the step ends with the score of the
isolated, doubled and supported stages). -/
theorem pawnStructure_classification (tb : PawnInput) (color hisPawns herPawns : Nat)
    (square : Int) (score : Score) (passers : Nat) :
    ¬ (pawnIsolated tb hisPawns square = true ∧ pawnSupported tb color hisPawns square = true) ∧
    ¬ (pawnPassed tb color hisPawns herPawns square = true ∧
        pawnDoubled tb color hisPawns square = true) ∧
    (backwardStage tb color hisPawns herPawns square score ≠ score →
      pawnPassed tb color hisPawns herPawns square = false ∧
      pawnSupported tb color hisPawns square = false ∧
      pawnIsolated tb hisPawns square = false) ∧
    ((pawnPassed tb color hisPawns herPawns square = true ∨
        pawnSupported tb color hisPawns square = true ∨
        pawnIsolated tb hisPawns square = true) →
      (pawnStep tb color hisPawns herPawns (score, passers) square).1 =
        supportedStage tb color hisPawns square
          (doubledStage tb color hisPawns square
            (isolatedStage tb color hisPawns herPawns square score))) := by
  refine ⟨?_, ?_, ?_, ?_⟩
  · rintro ⟨h1, h2⟩
    rw [isolated_not_supported tb color hisPawns square h1] at h2
    exact absurd h2 (by simp)
  · rintro ⟨h1, h2⟩
    rw [passed_not_doubled tb color hisPawns herPawns square h1] at h2
    exact absurd h2 (by simp)
  · intro hne
    refine ⟨?_, ?_, ?_⟩
    · cases h : pawnPassed tb color hisPawns herPawns square
      · rfl
      · exact absurd (backwardStage_skip tb color hisPawns herPawns square score (Or.inl h)) hne
    · cases h : pawnSupported tb color hisPawns square
      · rfl
      · exact absurd (backwardStage_skip tb color hisPawns herPawns square score
          (Or.inr (Or.inl h))) hne
    · cases h : pawnIsolated tb hisPawns square
      · rfl
      · exact absurd (backwardStage_skip tb color hisPawns herPawns square score
          (Or.inr (Or.inr h))) hne
  · intro h
    unfold pawnStep
    exact backwardStage_skip tb color hisPawns herPawns square _ h

/-- C7: `analyzePawns` selects the cache slot `hashPawn mod 8192`; on a hash mismatch
or under tracing the slot's score becomes `pawnStructure(White) -
pawnStructure(Black)` and its hash `hashPawn`; on a hit without tracing the cache
is unchanged; in every case the slot's hash is `hashPawn` on return, exactly the
slot's score has been added to the evaluation score, and no other slot changed. -/
theorem analyzePawns_cache (tb : PawnInput) (trace : Bool) (e : Evaluation) :
    (analyzePawns tb trace e).pawns = e.position.hashPawn % 8192 ∧
    (((e.pawnCache (e.position.hashPawn % 8192)).hash ≠ e.position.hashPawn ∨ trace = true) →
      ((analyzePawns tb trace e).pawnCache (e.position.hashPawn % 8192)).score =
          (pawnStructureRun tb e.position 0).1.subtract (pawnStructureRun tb e.position 1).1 ∧
        ((analyzePawns tb trace e).pawnCache (e.position.hashPawn % 8192)).hash =
          e.position.hashPawn) ∧
    (((e.pawnCache (e.position.hashPawn % 8192)).hash = e.position.hashPawn ∧ trace = false) →
      (analyzePawns tb trace e).pawnCache = e.pawnCache) ∧
    ((analyzePawns tb trace e).pawnCache (e.position.hashPawn % 8192)).hash =
      e.position.hashPawn ∧
    (analyzePawns tb trace e).score =
      e.score.add ((analyzePawns tb trace e).pawnCache (e.position.hashPawn % 8192)).score ∧
    (∀ i, i ≠ e.position.hashPawn % 8192 →
      (analyzePawns tb trace e).pawnCache i = e.pawnCache i) := by
  have hidx : e.position.hashPawn % 2 ^ 32 % 8192 = e.position.hashPawn % 8192 := by omega
  by_cases hc : (e.pawnCache (e.position.hashPawn % 8192)).hash ≠ e.position.hashPawn ∨
      trace = true
  · unfold analyzePawns
    simp only [hidx, Evaluation.slot, if_pos hc]
    simp only [pawnStructure_fst, pawnStructure_snd, setSlot_cache, setSlot_pawns, setSlot_score,
      setSlot_position, setSlot_slot, clear_add_subtract, if_true, Evaluation.slot]
    refine ⟨trivial, fun _ => ⟨trivial, trivial⟩, ?_, trivial, trivial, ?_⟩
    · rintro ⟨h1, h2⟩
      rcases hc with hc | hc
      · exact absurd h1 hc
      · rw [h2] at hc; exact absurd hc (by simp)
    · intro i hi
      simp only [hi, if_false]
  · have hh : (e.pawnCache (e.position.hashPawn % 8192)).hash = e.position.hashPawn := by
      by_contra h
      exact hc (Or.inl h)
    unfold analyzePawns
    simp only [hidx, Evaluation.slot, if_neg hc]
    exact ⟨trivial, fun h => absurd h hc, fun _ => trivial, hh, trivial, fun _ _ => trivial⟩


/-- C8: `pawnPassers` adds, for every passed pawn that its loop pops from
`passers`, the bonus of that pawn, and subtracts the penalty for blocked pawns.
For a passed pawn beyond its own second rank whose next square is empty the bonus
is `bonusPassedPawn[row]` adjusted by `extra * extraPassedPawn[row]` with
`extra = a + b` as `passerExtraSpec` words it, one of 0, 2, 4, 6, 8, 10, 12, 14; for
a passed pawn on its own second rank or below, or whose next square is occupied,
it is exactly `bonusPassedPawn[row]`.  The tables `maskInFront` and `eight` are the
modelled ones; for a 64-bit `passers` the loop pops each of its squares once. -/
theorem pawnPassers_bonus (tb : PawnInput) (e : Evaluation) (color : Nat) :
    pawnPassers tb.withInFront e color =
      ((poppedSquares 64 (e.slot.passers color)).foldl
        (fun (s : Score) (sq : Nat) => s.add (passerBonus tb.withInFront e color sq))
        (⟨0, 0⟩ : Score)).subtract
        (tb.pawnBlocked.times
          (count (pushed (e.position.outposts (tb.pawn color)) color &&& e.position.board))) ∧
    (∀ sq : Nat, sq ∈ poppedSquares 64 (e.slot.passers color) →
      ((tb.RelRow sq color > A2H2 ∧
          e.position.board.testBit ((sq : Int) + eight color).toNat = false) →
        passerBonus tb.withInFront e color sq =
          (tb.bonusPassedPawn (tb.RelRow sq color)).adjust
            (passerExtraSpec tb.withInFront e color sq *
              tb.extraPassedPawn (tb.RelRow sq color))) ∧
      ((tb.RelRow sq color ≤ A2H2 ∨
          e.position.board.testBit ((sq : Int) + eight color).toNat = true) →
        passerBonus tb.withInFront e color sq = tb.bonusPassedPawn (tb.RelRow sq color))) ∧
    (∀ sq : Nat, passerExtraSpec tb.withInFront e color sq ∈
      ([0, 2, 4, 6, 8, 10, 12, 14] : List Int)) ∧
    (e.slot.passers color < two64 →
      (∀ sq : Nat, sq ∈ poppedSquares 64 (e.slot.passers color) ↔
        (e.slot.passers color).testBit sq = true) ∧
      (poppedSquares 64 (e.slot.passers color)).Nodup) := by
  refine ⟨?_, ?_, fun sq => passerExtraSpec_values _ e color sq, ?_⟩
  · unfold pawnPassers
    simp only
    rw [pawnPassersLoop_eq_foldl]
    rfl
  · intro sq hsq
    have hlt := poppedSquares_lt 64 _ sq hsq
    obtain ⟨h1, h2⟩ := maskInFront_next color sq hlt
    exact passerBonus_cases tb.withInFront e color sq h1 h2
  · intro hb
    refine poppedSquares_spec 64 _ hb ?_
    unfold count
    calc (List.range 64).countP _ ≤ (List.range 64).length := List.countP_le_length _
      _ = 64 := List.length_range 64

/-- Example for C8: the white passed pawn on `E4` of `samplePassers` is the only
pawn popped; `E7` is contested and `E5` is protected, so `extra = 6 + 2`, the bonus
`(30, 60)` is adjusted by `8 * 3`, and no pawn is blocked. -/
theorem pawnPassers_bonus_witness :
    poppedSquares 64 (samplePassers.slot.passers 0) = [28] ∧
    passerBonus samplePawnInput.withInFront samplePassers 0 ((28 : Nat) : Int) =
      (samplePawnInput.bonusPassedPawn (samplePawnInput.RelRow ((28 : Nat) : Int) 0)).adjust
        (passerExtraSpec samplePawnInput.withInFront samplePassers 0 ((28 : Nat) : Int) *
          samplePawnInput.extraPassedPawn (samplePawnInput.RelRow ((28 : Nat) : Int) 0)) ∧
    passerExtraSpec samplePawnInput.withInFront samplePassers 0 28 = 8 ∧
    pawnPassers samplePawnInput.withInFront samplePassers 0 = ⟨54, 84⟩ :=
  ⟨by decide,
    ((pawnPassers_bonus samplePawnInput samplePassers 0).2.1 28 (by decide)).1
      ⟨by decide, by decide⟩,
    by decide, by decide⟩

/-- C9: for a non-repetition position with a legal move and `Ply() - Checkmate <
beta`, the zero-window search returns the negated child score of the first legal
move (in ranked order) whose negated child score reaches `beta`, whatever the
later moves are; if every legal move stays below `beta` it returns the maximum of
`Ply() - Checkmate` and all negated child scores, a value below `beta`. -/
theorem xSearchWithZeroWindow_spec {P M : Type} (env : SearchEnv P M) (fuel : Nat) (p : P) (beta depth : Int)
    (hrep : env.isRepetition p = false)
    (hlegal : ∃ m ∈ env.moves p, (env.makeMove p m).isSome = true)
    (hbest : env.ply p - env.checkmate < beta) :
    (∀ (pre : List M) (m : M) (post : List M) (q : P) (s : Int),
      env.moves p = pre ++ m :: post → env.makeMove p m = some q →
      negChildScore env fuel beta depth q = some s → s ≥ beta →
      (∀ m' ∈ pre, ∀ q', env.makeMove p m' = some q' →
        ∃ s', negChildScore env fuel beta depth q' = some s' ∧ s' < beta) →
      xSearchWithZeroWindow env (fuel + 1) p beta depth = some s) ∧
    ((∀ m ∈ env.moves p, ∀ q, env.makeMove p m = some q →
        ∃ s, negChildScore env fuel beta depth q = some s ∧ s < beta) →
      ∃ scores : List Int,
        (legalChildren env p).map (negChildScore env fuel beta depth) = scores.map some ∧
        xSearchWithZeroWindow env (fuel + 1) p beta depth =
          some (scores.foldl max (env.ply p - env.checkmate)) ∧
        scores.foldl max (env.ply p - env.checkmate) < beta ∧
        env.ply p - env.checkmate ≤ scores.foldl max (env.ply p - env.checkmate) ∧
        (∀ s ∈ scores, s ≤ scores.foldl max (env.ply p - env.checkmate)) ∧
        (scores.foldl max (env.ply p - env.checkmate) = env.ply p - env.checkmate ∨
          scores.foldl max (env.ply p - env.checkmate) ∈ scores)) := by
  rw [xSearchWithZeroWindow_step env fuel p beta depth hrep hbest]
  constructor
  · intro pre m post q s hmoves hq hs hcut hpre
    rw [hmoves]
    exact moveLoop_cutoff env _ p beta depth m post q s hq hs hcut pre _ 0 hbest hpre
  · intro hall
    obtain ⟨scores, h1, h2, h3⟩ :=
      moveLoop_all_below env (xSearchWithZeroWindow env fuel) p beta depth (env.moves p)
        (env.ply p - env.checkmate) 0 hbest hall
    obtain ⟨m, hm, hsome⟩ := hlegal
    have hne : scores ≠ [] := by
      intro e
      subst e
      have hnil : List.filterMap (env.makeMove p) (env.moves p) = [] := by
        simpa using h1
      rw [List.filterMap_eq_nil_iff] at hnil
      have := hnil m hm
      rw [this] at hsome
      exact absurd hsome (by simp)
    have hlen : 0 + scores.length ≠ 0 := by
      have := List.length_pos.2 hne
      omega
    rw [if_neg hlen] at h2
    have hmax := foldl_max_spec scores (env.ply p - env.checkmate)
    exact ⟨scores, h1, h2, h3, hmax.1, hmax.2.1, hmax.2.2⟩


/-- Witness for C9: in the sample position with `beta = 50` the first legal move
scores 20, the second move is illegal and the third scores 70, which is returned. -/
theorem xSearchWithZeroWindow_spec_witness :
    (sampleSearchEnv.isRepetition 0 = false ∧
      (∃ m ∈ sampleSearchEnv.moves 0, (sampleSearchEnv.makeMove 0 m).isSome = true) ∧
      sampleSearchEnv.ply 0 - sampleSearchEnv.checkmate < 50) ∧
    xSearchWithZeroWindow sampleSearchEnv 1 0 50 1 = some 70 :=
  ⟨⟨by decide, by decide, by decide⟩,
    (xSearchWithZeroWindow_spec sampleSearchEnv 0 0 50 1 (by decide) (by decide) (by decide)).1
      [1, 2] 3 [] 3 70 (by decide) (by decide) (by decide) (by decide)
      (by
        intro m' hm q' hq
        simp only [List.mem_cons, List.mem_singleton, List.not_mem_nil, or_false] at hm
        rcases hm with e | e
        · subst e
          have : q' = 1 := by
            simp [sampleSearchEnv] at hq
            exact hq.symm
          subst this
          exact ⟨20, by decide, by decide⟩
        · subst e
          simp [sampleSearchEnv] at hq)⟩

/-- C10 (amended): for a non-repetition position in which no generated move is
legal, the zero-window search returns 0 for every depth when `Ply() - Checkmate <
beta`, and returns `Ply() - Checkmate` when `Ply() - Checkmate ≥ beta`. -/
theorem xSearchWithZeroWindow_no_legal_move {P M : Type} (env : SearchEnv P M) (fuel : Nat) (p : P)
    (beta depth : Int) (hrep : env.isRepetition p = false)
    (hnone : ∀ m ∈ env.moves p, env.makeMove p m = none) :
    (env.ply p - env.checkmate < beta →
      xSearchWithZeroWindow env (fuel + 1) p beta depth = some 0) ∧
    (env.ply p - env.checkmate ≥ beta →
      xSearchWithZeroWindow env (fuel + 1) p beta depth = some (env.ply p - env.checkmate)) := by
  constructor
  · intro hbest
    rw [xSearchWithZeroWindow_step env fuel p beta depth hrep hbest]
    have hall : ∀ m ∈ env.moves p, ∀ q, env.makeMove p m = some q →
        ∃ s, moveScore env (xSearchWithZeroWindow env fuel) q beta depth = some s ∧ s < beta := by
      intro m hm q hq
      rw [hnone m hm] at hq
      exact absurd hq (by simp)
    obtain ⟨scores, h1, h2, _⟩ :=
      moveLoop_all_below env (xSearchWithZeroWindow env fuel) p beta depth (env.moves p)
        (env.ply p - env.checkmate) 0 hbest hall
    have hnil : List.filterMap (env.makeMove p) (env.moves p) = [] := by
      rw [List.filterMap_eq_nil_iff]
      exact hnone
    rw [hnil] at h1
    have : scores = [] := by
      cases scores with
      | nil => rfl
      | cons a b => simp at h1
    subst this
    simpa using h2
  · intro hge
    rw [xSearchWithZeroWindow]
    simp only [hrep, Bool.false_eq_true, if_false]
    rw [if_pos hge]


/-- Witness for the amended C10: the sample leaf position with `beta = 100`. -/
theorem xSearchWithZeroWindow_no_legal_move_witness :
    (sampleSearchEnv.isRepetition 1 = false ∧
      ∀ m ∈ sampleSearchEnv.moves 1, sampleSearchEnv.makeMove 1 m = none) ∧
    xSearchWithZeroWindow sampleSearchEnv 1 1 100 3 = some 0 :=
  ⟨⟨by decide, by decide⟩,
    (xSearchWithZeroWindow_no_legal_move sampleSearchEnv 0 1 100 3 (by decide) (by decide)).1
      (by decide)⟩

/-- Counterexample to C10 as stated: the sample leaf position is no repetition and
has no legal move, yet with `beta = -40000` the search returns `Ply() - Checkmate =
-32765`, not 0, whatever the recursion bound. -/
theorem xSearchWithZeroWindow_no_legal_move_counterexample :
    sampleSearchEnv.isRepetition 1 = false ∧
    (∀ m ∈ sampleSearchEnv.moves 1, sampleSearchEnv.makeMove 1 m = none) ∧
    (∀ fuel : Nat,
      xSearchWithZeroWindow sampleSearchEnv (fuel + 1) 1 (-40000) 3 = some (-32765)) ∧
    xSearchWithZeroWindow sampleSearchEnv 1 1 (-40000) 3 ≠ some 0 := by
  refine ⟨by decide, by decide, ?_, by decide⟩
  intro fuel
  rw [xSearchWithZeroWindow]
  simp only
  rw [if_neg (by decide), if_pos (by decide)]
  decide

/-- C11, amended: when a legal move of `xSearchWithZeroWindow` leads to a position
whose side to move is in check, the reduced depth `depth - 1` is extended by one,
back to the caller's depth.  For every depth other than 0 the position is searched
by `xSearchInCheck` with bound `1 - beta` at that depth, the move loop continues
with the negated result, and the quiescence search has no part in the move score.
At depth 0 the extended depth is 0 and the position is handed to the quiescence
search with window `(-beta, 1 - beta)`; the in-check search has no part in the move
score. -/
theorem xSearchWithZeroWindow_in_check {P M : Type} (env : SearchEnv P M)
    (search : P → Int → Int → Option Int) (position : P) (beta depth : Int)
    (hcheck : env.isInCheck position = true) :
    reducedDepth env position depth = depth - 1 + 1 ∧
    reducedDepth env position depth = depth ∧
    (depth ≠ 0 →
      moveScore env search position beta depth =
        (env.xSearchInCheck position (1 - beta) depth).map (fun s => -s) ∧
      (∀ quiescence : P → Int → Int → Option Int,
        moveScore { env with xSearchQuiescence := quiescence } search position beta depth =
          moveScore env search position beta depth) ∧
      (∀ (p : P) (move : M) (rest : List M) (bestScore : Int) (moveCount : Nat),
        env.makeMove p move = some position →
          moveLoop env search p beta depth (move :: rest) bestScore moveCount =
            match (env.xSearchInCheck position (1 - beta) depth).map (fun s => -s) with
            | none => none
            | some moveScore =>
              if moveScore > bestScore then
                if moveScore ≥ beta then some moveScore
                else moveLoop env search p beta depth rest moveScore (moveCount + 1)
              else moveLoop env search p beta depth rest bestScore (moveCount + 1))) ∧
    (depth = 0 →
      reducedDepth env position depth = 0 ∧
      moveScore env search position beta depth =
        (env.xSearchQuiescence position (-beta) (1 - beta)).map (fun s => -s) ∧
      (∀ inCheckSearch : P → Int → Int → Option Int,
        moveScore { env with xSearchInCheck := inCheckSearch } search position beta depth =
          moveScore env search position beta depth) ∧
      (∀ (p : P) (move : M) (rest : List M) (bestScore : Int) (moveCount : Nat),
        env.makeMove p move = some position →
          moveLoop env search p beta depth (move :: rest) bestScore moveCount =
            match (env.xSearchQuiescence position (-beta) (1 - beta)).map (fun s => -s) with
            | none => none
            | some moveScore =>
              if moveScore > bestScore then
                if moveScore ≥ beta then some moveScore
                else moveLoop env search p beta depth rest moveScore (moveCount + 1)
              else moveLoop env search p beta depth rest bestScore (moveCount + 1))) := by
  have hr : reducedDepth env position depth = depth := by
    unfold reducedDepth
    rw [if_pos hcheck]
    omega
  refine ⟨by rw [hr]; omega, hr, ?_, ?_⟩
  · intro hdepth
    have hs : moveScore env search position beta depth =
        (env.xSearchInCheck position (1 - beta) depth).map (fun s => -s) := by
      unfold moveScore
      simp only [hr, if_neg hdepth, hcheck, if_true]
    refine ⟨hs, ?_, ?_⟩
    · intro quiescence
      have hr2 : reducedDepth { env with xSearchQuiescence := quiescence } position depth =
          depth := by
        unfold reducedDepth
        rw [if_pos hcheck]
        omega
      unfold moveScore
      simp only [hr, hr2, if_neg hdepth, hcheck, if_true]
    · intro p move rest bestScore moveCount hm
      rw [moveLoop]
      simp only [hm, hs]
  · intro hdepth
    subst hdepth
    have hs : moveScore env search position beta 0 =
        (env.xSearchQuiescence position (-beta) (1 - beta)).map (fun s => -s) := by
      unfold moveScore
      simp only [hr, if_true]
    refine ⟨hr, hs, ?_, ?_⟩
    · intro inCheckSearch
      have hr2 : reducedDepth { env with xSearchInCheck := inCheckSearch } position 0 = 0 := by
        unfold reducedDepth
        rw [if_pos hcheck]
        omega
      unfold moveScore
      simp only [hr, hr2, if_true]
    · intro p move rest bestScore moveCount hm
      rw [moveLoop]
      simp only [hm, hs]

/-- Witness for C11: the checking move of `sampleCheckEnv`, scored by the in-check
search (7, negated) at depth 1 and by the quiescence search (5, negated) at depth 0. -/
theorem xSearchWithZeroWindow_in_check_witness :
    sampleCheckEnv.isInCheck 1 = true ∧
    moveScore sampleCheckEnv (xSearchWithZeroWindow sampleCheckEnv 1) 1 0 1 =
      (sampleCheckEnv.xSearchInCheck 1 (1 - 0) 1).map (fun s => -s) ∧
    moveScore sampleCheckEnv (xSearchWithZeroWindow sampleCheckEnv 1) 1 0 0 =
      (sampleCheckEnv.xSearchQuiescence 1 (-0) (1 - 0)).map (fun s => -s) :=
  ⟨by decide,
    ((xSearchWithZeroWindow_in_check sampleCheckEnv (xSearchWithZeroWindow sampleCheckEnv 1) 1 0 1
      (by decide)).2.2.1 (by decide)).1,
    ((xSearchWithZeroWindow_in_check sampleCheckEnv (xSearchWithZeroWindow sampleCheckEnv 1) 1 0 0
      (by decide)).2.2.2 rfl).2.1⟩

/-- Counterexample to C11 as stated (every depth): at depth 0 the reduced depth of
a position in check is 0, and the test `reducedDepth == 0` comes first, so the
position reached by the checking move of `sampleCheckEnv` is scored by the
quiescence search (5, negated) and not by the in-check search (7, negated). -/
theorem xSearchWithZeroWindow_in_check_counterexample :
    sampleCheckEnv.makeMove 0 1 = some 1 ∧ sampleCheckEnv.isInCheck 1 = true ∧
    reducedDepth sampleCheckEnv 1 0 = 0 ∧
    moveScore sampleCheckEnv (xSearchWithZeroWindow sampleCheckEnv 1) 1 0 0 =
      (sampleCheckEnv.xSearchQuiescence 1 (-0) (1 - 0)).map (fun s => -s) ∧
    moveScore sampleCheckEnv (xSearchWithZeroWindow sampleCheckEnv 1) 1 0 0 ≠
      (sampleCheckEnv.xSearchInCheck 1 (1 - 0) 0).map (fun s => -s) ∧
    xSearchWithZeroWindow sampleCheckEnv 2 0 0 0 = some (-5) := by
  decide

/-- C12: for all piece counts, `endgames` returns an endgame handler exactly when it
sets the `knownEndgame` flag or the `lesserKnownEndgame` flag; it never sets both of
these flags; and with the `materialDraw` flag it sets neither of them and returns
no handler. -/
theorem endgames_handler_flags (wP wN wB wR wQ bP bN bB bR bQ : Int) :
    (((endgames wP wN wB wR wQ bP bN bB bR bQ).2.isSome = true) ↔
      ((endgames wP wN wB wR wQ bP bN bB bR bQ).1.knownEndgame = true ∨
        (endgames wP wN wB wR wQ bP bN bB bR bQ).1.lesserKnownEndgame = true)) ∧
    ¬ ((endgames wP wN wB wR wQ bP bN bB bR bQ).1.knownEndgame = true ∧
        (endgames wP wN wB wR wQ bP bN bB bR bQ).1.lesserKnownEndgame = true) ∧
    ((endgames wP wN wB wR wQ bP bN bB bR bQ).1.materialDraw = true →
      (endgames wP wN wB wR wQ bP bN bB bR bQ).1.knownEndgame = false ∧
      (endgames wP wN wB wR wQ bP bN bB bR bQ).1.lesserKnownEndgame = false ∧
      (endgames wP wN wB wR wQ bP bN bB bR bQ).2 = none) := by
  obtain ⟨h1, h2, h3, _⟩ := kingSafetyFlags_fields wN wB wR wQ bN bB bR bQ
  unfold endgames
  generalize kingSafetyFlags wN wB wR wQ bN bB bR bQ = f at h1 h2 h3
  generalize hr : endgamesChain f wP wN wB wR wQ bP bN bB bR bQ = r
  unfold endgamesChain at hr
  simp only at hr
  revert hr
  repeat' (apply ite_eq_elim <;> intro hc <;> clear hc)
  all_goals intro hr
  all_goals subst hr
  all_goals simp [h1, h2, h3]

/-- C13: for every `n` in 0..63, `Row n` and `Col n` are in 0..7 and
`Square (Row n) (Col n) = n`; for every row and column in 0..7,
`Square row column = row * 8 + column` lies in 0..63 and
`Coordinate (Square row column) = (row, column)`. -/
theorem square_coordinates :
    (∀ n : Int, 0 ≤ n → n ≤ 63 →
      0 ≤ Row n ∧ Row n ≤ 7 ∧ 0 ≤ Col n ∧ Col n ≤ 7 ∧ Square (Row n) (Col n) = n) ∧
    (∀ row column : Int, 0 ≤ row → row ≤ 7 → 0 ≤ column → column ≤ 7 →
      Square row column = row * 8 + column ∧ 0 ≤ Square row column ∧ Square row column ≤ 63 ∧
        Coordinate (Square row column) = (row, column)) := by
  constructor
  · intro n h0 h1
    rw [Row_nonneg_eq n h0, Col_nonneg_eq n h0]
    unfold Square
    omega
  · intro row column hr0 hr1 hc0 hc1
    have hs : 0 ≤ Square row column := by unfold Square; omega
    refine ⟨rfl, hs, by unfold Square; omega, ?_⟩
    unfold Coordinate
    rw [Row_nonneg_eq _ hs, Col_nonneg_eq _ hs]
    unfold Square
    have e1 : (row * 8 + column) / 8 = row := by omega
    have e2 : (row * 8 + column) % 8 = column := by omega
    rw [e1, e2]

/-- C14: for every square 0..63 and every occupancy, the rook and bishop attack sets
are unchanged when the occupancy is first restricted to the relevant-occupancy mask
of the square: `createRookAttacks sq occ = createRookAttacks sq (occ AND createRookMask sq)`
and likewise for the bishop. -/
theorem attacks_through_mask (sq : Nat) (hsq : sq ≤ 63) (occ : Nat) :
    createRookAttacks sq occ = createRookAttacks sq (occ &&& createRookMask sq) ∧
    createBishopAttacks sq occ = createBishopAttacks sq (occ &&& createBishopMask sq) := by
  obtain ⟨r1, r2, r3, r4⟩ := createRookMask_covers ⟨sq, by omega⟩
  obtain ⟨b1, b2, b3, b4⟩ := createBishopMask_covers ⟨sq, by omega⟩
  simp only at r1 r2 r3 r4 b1 b2 b3 b4
  constructor
  · generalize createRookMask sq = M at r1 r2 r3 r4
    unfold createRookAttacks Coordinate
    simp only
    rw [rayLoop_covered _ _ _ occ M _ _ _ r1, rayLoop_covered _ _ _ occ M _ _ _ r2,
      rayLoop_covered _ _ _ occ M _ _ _ r3, rayLoop_covered _ _ _ occ M _ _ _ r4]
  · generalize createBishopMask sq = M at b1 b2 b3 b4
    unfold createBishopAttacks Coordinate
    simp only
    rw [rayLoop_covered _ _ _ occ M _ _ _ b1, rayLoop_covered _ _ _ occ M _ _ _ b2,
      rayLoop_covered _ _ _ occ M _ _ _ b3, rayLoop_covered _ _ _ occ M _ _ _ b4]


/-- Witness for C14: square `D4` with blockers on `F4`, `H4`, `D8`, `A1` and `G7`. -/
theorem attacks_through_mask_witness :
    27 ≤ 63 ∧
    (createRookAttacks ((27 : Nat) : Int) (2 ^ 29 + 2 ^ 31 + 2 ^ 59 + 2 ^ 0 + 2 ^ 54) =
        createRookAttacks ((27 : Nat) : Int)
          ((2 ^ 29 + 2 ^ 31 + 2 ^ 59 + 2 ^ 0 + 2 ^ 54) &&& createRookMask ((27 : Nat) : Int)) ∧
      createBishopAttacks ((27 : Nat) : Int) (2 ^ 29 + 2 ^ 31 + 2 ^ 59 + 2 ^ 0 + 2 ^ 54) =
        createBishopAttacks ((27 : Nat) : Int)
          ((2 ^ 29 + 2 ^ 31 + 2 ^ 59 + 2 ^ 0 + 2 ^ 54) &&& createBishopMask ((27 : Nat) : Int))) :=
  ⟨by decide, attacks_through_mask 27 (by decide) (2 ^ 29 + 2 ^ 31 + 2 ^ 59 + 2 ^ 0 + 2 ^ 54)⟩

/-- C15: for a 64-bit `mask` with `k = count mask` set bits, every
`indexedBitmask i mask` is a subset of `mask`; indices below `2 ^ k` that give the
same subset are equal; every subset of `mask` is `indexedBitmask i mask` for exactly
one `i` below `2 ^ k`; and bit `j` of `i` selects the `j`-th lowest set bit of
`mask`: a square `p` is in the result exactly when it is in `mask` and the bit of
`i` numbered by the count of set bits of `mask` below `p` is set, every `j` below
`k` being that count for some square of `mask`. -/
theorem indexedBitmask_enumerates (mask : Nat) (hm : mask < two64) :
    (∀ i : Nat, indexedBitmask i mask &&& mask = indexedBitmask i mask) ∧
    (∀ i1 i2 : Nat, i1 < 2 ^ count mask → i2 < 2 ^ count mask →
      indexedBitmask i1 mask = indexedBitmask i2 mask → i1 = i2) ∧
    (∀ s : Nat, s &&& mask = s → ∃! i : Nat, i < 2 ^ count mask ∧ indexedBitmask i mask = s) ∧
    (∀ i p : Nat, (indexedBitmask i mask).testBit p =
      (mask.testBit p && i.testBit (setBitsBelow mask p))) ∧
    (∀ j : Nat, j < count mask → ∃ p : Nat, mask.testBit p = true ∧ setBitsBelow mask p = j) := by
  refine ⟨fun i => indexedBitmask_subset i mask,
    fun i1 i2 h1 h2 h => indexedBitmask_inj mask i1 i2 hm h1 h2 h, ?_,
    fun i p => indexedBitmask_testBit i mask p hm, ?_⟩
  · intro s hs
    obtain ⟨idx, hlt, he⟩ := indexedBitmask_surj mask s hm hs
    rw [Nat.one_shiftLeft] at hlt
    refine ⟨idx, ⟨hlt, he⟩, ?_⟩
    rintro y ⟨hy, hye⟩
    exact indexedBitmask_inj mask y idx hm hy hlt (hye.trans he.symm)
  · intro j hj
    obtain ⟨p, _, hp, hr⟩ := exists_rank (fun i => mask.testBit i) 64 j hj
    exact ⟨p, hp, hr⟩


/-- Witness for C15: the mask with squares 3, 5 and 10. -/
theorem indexedBitmask_enumerates_witness :
    (1064 < two64) ∧
    ((∀ i1 i2 : Nat, i1 < 2 ^ count 1064 → i2 < 2 ^ count 1064 →
      indexedBitmask i1 1064 = indexedBitmask i2 1064 → i1 = i2) ∧
    (∀ s : Nat, s &&& 1064 = s → ∃! i : Nat, i < 2 ^ count 1064 ∧ indexedBitmask i 1064 = s)) :=
  ⟨by decide,
    (indexedBitmask_enumerates 1064 (by decide)).2.1,
    (indexedBitmask_enumerates 1064 (by decide)).2.2.1⟩

/-- C16: for every square 0..63, `createRookMask` has at most 12 set bits and
`createBishopMask` at most 9, so the `1 << bits` subsets enumerated by `initMasks`
number at most 4096 and 512; and every index `(bitmask * magic) >> 52`,
respectively `>> 55`, of a 64-bit product is below 4096, respectively 512. -/
theorem magic_table_bounds (sq : Nat) (hsq : sq ≤ 63) :
    count (createRookMask sq) ≤ 12 ∧ count (createBishopMask sq) ≤ 9 ∧
    1 <<< count (createRookMask sq) ≤ 4096 ∧ 1 <<< count (createBishopMask sq) ≤ 512 ∧
    (∀ bitmask magic : Nat, (bitmask * magic % two64) >>> 52 < 4096) ∧
    (∀ bitmask magic : Nat, (bitmask * magic % two64) >>> 55 < 512) := by
  have hc : ∀ q : Fin 64, count (createRookMask (q.val : Int)) ≤ 12 ∧
      count (createBishopMask (q.val : Int)) ≤ 9 := by decide
  obtain ⟨h1, h2⟩ := hc ⟨sq, by omega⟩
  simp only at h1 h2
  refine ⟨h1, h2, ?_, ?_, ?_, ?_⟩
  · rw [Nat.one_shiftLeft]
    calc 2 ^ count (createRookMask sq) ≤ 2 ^ 12 := Nat.pow_le_pow_right (by decide) h1
      _ = 4096 := by norm_num
  · rw [Nat.one_shiftLeft]
    calc 2 ^ count (createBishopMask sq) ≤ 2 ^ 9 := Nat.pow_le_pow_right (by decide) h2
      _ = 512 := by norm_num
  · intro bitmask magic
    rw [Nat.shiftRight_eq_div_pow]
    have : bitmask * magic % two64 < two64 := Nat.mod_lt _ (by unfold two64; norm_num)
    unfold two64 at this ⊢
    omega
  · intro bitmask magic
    rw [Nat.shiftRight_eq_div_pow]
    have : bitmask * magic % two64 < two64 := Nat.mod_lt _ (by unfold two64; norm_num)
    unfold two64 at this ⊢
    omega


/-- Witness for C16: square `D4`. -/
theorem magic_table_bounds_witness :
    27 ≤ 63 ∧
    (count (createRookMask ((27 : Nat) : Int)) ≤ 12 ∧
      count (createBishopMask ((27 : Nat) : Int)) ≤ 9) :=
  ⟨by decide, (magic_table_bounds 27 (by decide)).1, (magic_table_bounds 27 (by decide)).2.1⟩

/-- C17, amended to counts without overflow: for non-negative piece counts whose
sum is below `2^63` (so that no sum in `endgames` wraps), `endgames` sets the
`materialDraw` flag exactly when neither side has a pawn, a rook or a queen and
either each side has at most one minor piece, or there are exactly two minor pieces
on the board and they are two knights of the same side. -/
theorem endgames_materialDraw (wP wN wB wR wQ bP bN bB bR bQ : Int)
    (hwP : 0 ≤ wP) (hwN : 0 ≤ wN) (hwB : 0 ≤ wB) (hwR : 0 ≤ wR) (hwQ : 0 ≤ wQ)
    (hbP : 0 ≤ bP) (hbN : 0 ≤ bN) (hbB : 0 ≤ bB) (hbR : 0 ≤ bR) (hbQ : 0 ≤ bQ)
    (htotal : wP + wN + wB + wR + wQ + bP + bN + bB + bR + bQ < 2 ^ 63) :
    (endgames wP wN wB wR wQ bP bN bB bR bQ).1.materialDraw = true ↔
      ((wP = 0 ∧ bP = 0 ∧ wR = 0 ∧ bR = 0 ∧ wQ = 0 ∧ bQ = 0) ∧
        ((wN + wB ≤ 1 ∧ bN + bB ≤ 1) ∨
          (wN + wB + bN + bB = 2 ∧ (wN = 2 ∨ bN = 2)))) := by
  rw [materialDraw_spec_iff wP wN wB wR wQ bP bN bB bR bQ hwP hwN hwB hwR hwQ hbP hbN hbB hbR hbQ]
  obtain ⟨h1, _, _, _⟩ := kingSafetyFlags_fields wN wB wR wQ bN bB bR bQ
  have e1 : wrap64 (wN + wB) = wN + wB := wrap64_id _ (by omega) (by omega)
  have e2 : wrap64 (wR + wQ) = wR + wQ := wrap64_id _ (by omega) (by omega)
  have e3 : wrap64 (bN + bB) = bN + bB := wrap64_id _ (by omega) (by omega)
  have e4 : wrap64 (bR + bQ) = bR + bQ := wrap64_id _ (by omega) (by omega)
  have e5 : wrap64 (wN + wB + (bN + bB)) = wN + wB + (bN + bB) :=
    wrap64_id _ (by omega) (by omega)
  have e6 : wrap64 (wR + wQ + (bR + bQ)) = wR + wQ + (bR + bQ) :=
    wrap64_id _ (by omega) (by omega)
  have e7 : wrap64 (wP + bP) = wP + bP := wrap64_id _ (by omega) (by omega)
  have e8 : wrap64 (wP + bP + (wN + wB + (bN + bB))) = wP + bP + (wN + wB + (bN + bB)) :=
    wrap64_id _ (by omega) (by omega)
  have e9 : wrap64 (wP + bP + (wN + wB + (bN + bB)) + (wR + wQ + (bR + bQ))) =
      wP + bP + (wN + wB + (bN + bB)) + (wR + wQ + (bR + bQ)) :=
    wrap64_id _ (by omega) (by omega)
  unfold endgames
  generalize kingSafetyFlags wN wB wR wQ bN bB bR bQ = f at h1
  generalize hr : endgamesChain f wP wN wB wR wQ bP bN bB bR bQ = r
  unfold endgamesChain at hr
  simp only [decide_eq_true_eq, e1, e2, e3, e4, e5, e6, e7, e8, e9] at hr
  revert hr
  apply ite_eq_elim
  · intro c1 hr
    subst hr
    exact ⟨fun _ => Or.inl c1, fun _ => rfl⟩
  intro n1
  apply ite_eq_elim
  · intro c2 hr
    subst hr
    exact ⟨fun _ => Or.inr (Or.inl c2), fun _ => rfl⟩
  intro n2
  apply ite_eq_elim
  · intro c3 hr
    subst hr
    exact ⟨fun _ => Or.inr (Or.inr c3), fun _ => rfl⟩
  intro n3
  have hno : ¬ (wP + bP + (wN + wB + (bN + bB)) + (wR + wQ + (bR + bQ)) = 0 ∨
      (wP + bP = 0 ∧ wR + wQ + (bR + bQ) = 0 ∧ wN + wB < 2 ∧ bN + bB < 2) ∨
      (wP + bP = 0 ∧ wR + wQ + (bR + bQ) = 0 ∧ wN + wB + (bN + bB) = 2 ∧
        (wN = 2 ∨ bN = 2))) := by
    rintro (h | h | h)
    · exact n1 h
    · exact n2 h
    · exact n3 h
  repeat' (apply ite_eq_elim <;> intro hc <;> clear hc)
  all_goals intro hr
  all_goals subst hr
  all_goals simp only [h1, Bool.false_eq_true, false_iff]
  all_goals exact hno

/-- Witness for C17: two white knights against a bare king. -/
theorem endgames_materialDraw_witness :
    (((0 : Int) ≤ 0 ∧ (0 : Int) ≤ 2) ∧
      (0 : Int) + 2 + 0 + 0 + 0 + 0 + 0 + 0 + 0 + 0 < 2 ^ 63) ∧
    ((endgames 0 2 0 0 0 0 0 0 0 0).1.materialDraw = true ↔
      (((0 : Int) = 0 ∧ (0 : Int) = 0 ∧ (0 : Int) = 0 ∧ (0 : Int) = 0 ∧ (0 : Int) = 0 ∧
          (0 : Int) = 0) ∧
        (((2 : Int) + 0 ≤ 1 ∧ (0 : Int) + 0 ≤ 1) ∨
          ((2 : Int) + 0 + 0 + 0 = 2 ∧ ((2 : Int) = 2 ∨ (0 : Int) = 2))))) :=
  ⟨⟨⟨by decide, by decide⟩, by decide⟩,
    endgames_materialDraw 0 2 0 0 0 0 0 0 0 0 (by decide) (by decide) (by decide) (by decide)
      (by decide) (by decide) (by decide) (by decide) (by decide) (by decide) (by decide)⟩

/-- Counterexample to C17 as stated (every combination of non-negative counts): with
`2^62` pawns and `2^62` knights on each side the Go sum
`wP + bP + allMinor + allMajor` wraps to 0, so `materialDraw` is set although both
sides have pawns. -/
theorem endgames_materialDraw_counterexample :
    ((0 : Int) ≤ 2 ^ 62 ∧ (0 : Int) ≤ 0) ∧
    (endgames (2 ^ 62) (2 ^ 62) 0 0 0 (2 ^ 62) (2 ^ 62) 0 0 0).1.materialDraw = true ∧
    ¬ ((((2 : Int) ^ 62 = 0 ∧ (2 : Int) ^ 62 = 0 ∧ (0 : Int) = 0 ∧ (0 : Int) = 0 ∧ (0 : Int) = 0 ∧
          (0 : Int) = 0) ∧
        (((2 : Int) ^ 62 + 0 ≤ 1 ∧ (2 : Int) ^ 62 + 0 ≤ 1) ∨
          ((2 : Int) ^ 62 + 0 + 2 ^ 62 + 0 = 2 ∧ ((2 : Int) ^ 62 = 2 ∨ (2 : Int) ^ 62 = 2))))) := by
  decide

/-- C18 fails in the code: with a white knight and bishop against a black knight the
handler `knightAndBishopVsBareKing` is selected, and with two white bishops against
a black knight the handler `twoBishopsVsBareKing`; in both the other side is not a
bare king. -/
theorem endgames_minor_handlers_not_bare :
    endgames 0 1 1 0 0 0 1 0 0 0 =
      ({ Flags.none with knownEndgame := true }, some .knightAndBishopVsBareKing) ∧
    endgames 0 0 2 0 0 0 1 0 0 0 =
      ({ Flags.none with knownEndgame := true }, some .twoBishopsVsBareKing) := by
  decide

/-- C19 fails in the code: the handler `rookAndPawnVsRook` is selected for two white
rooks and no pawn against a black rook, and for a white rook and pawn against a
black rook with five pawns. -/
theorem endgames_rookAndPawnVsRook_two_rooks :
    endgames 0 0 0 2 0 0 0 0 1 0 =
      ({ Flags.none with lesserKnownEndgame := true }, some .rookAndPawnVsRook) ∧
    endgames 1 0 0 1 0 5 0 0 1 0 =
      ({ Flags.none with lesserKnownEndgame := true }, some .rookAndPawnVsRook) := by
  decide

/-- C20: `endgames` called with the white and black counts exchanged returns the same
endgame handler and the same flags, except that the `whiteKingSafety` and
`blackKingSafety` flags are exchanged. -/
theorem endgames_color_swap (wP wN wB wR wQ bP bN bB bR bQ : Int) :
    endgames bP bN bB bR bQ wP wN wB wR wQ =
      ((endgames wP wN wB wR wQ bP bN bB bR bQ).1.swapKingSafety,
        (endgames wP wN wB wR wQ bP bN bB bR bQ).2) := by
  unfold endgames
  rw [kingSafetyFlags_swap]
  exact endgamesChain_swap _ wP wN wB wR wQ bP bN bB bR bQ


/-- C21: after `initMasks`, for squares `a` and `b` in 0..63, `maskStraight[a][b]` is
the complete rank mask of `a` when `a` and `b` are distinct squares of one rank, the
complete file mask when they are distinct squares of one file, and 0 otherwise (the
rank and file masks hold exactly the squares of that rank, that file); and a square
`t` is in `maskDiagonal[a][b]` exactly when `a` and `b` are distinct squares that
share a diagonal or an anti-diagonal and `t` is a square of the board on it, so the
entry is 0 when they share none or `a = b`. -/
theorem initMasks_alignment (a b : Nat) (ha : a ≤ 63) (hb : b ≤ 63) :
    (initMasksFixed.maskStraight a b =
      if a ≠ b ∧ Row a = Row b then maskRank (Row a)
      else if a ≠ b ∧ Col a = Col b then maskFile (Col a) else 0) ∧
    (∀ t : Nat, (maskRank (Row a)).testBit t = true ↔ (t ≤ 63 ∧ Row t = Row a)) ∧
    (∀ t : Nat, (maskFile (Col a)).testBit t = true ↔ (t ≤ 63 ∧ Col t = Col a)) ∧
    (∀ t : Nat, (initMasksFixed.maskDiagonal a b).testBit t = true ↔
      (t ≤ 63 ∧ a ≠ b ∧
        ((Row a - Col a = Row b - Col b ∧ Row t - Col t = Row a - Col a) ∨
          (Row a + Col a = Row b + Col b ∧ Row t + Col t = Row a + Col a)))) ∧
    (¬ (a ≠ b ∧ (Row a - Col a = Row b - Col b ∨ Row a + Col a = Row b + Col b)) →
      initMasksFixed.maskDiagonal a b = 0) := by
  have hagree := initMasksFixed_agree a (by omega)
  obtain ⟨hS, hD⟩ := alignment_cells ⟨a, by omega⟩ ⟨b, by omega⟩
  simp only at hS hD
  have hrow : 0 ≤ Row a ∧ Row a ≤ 7 ∧ 0 ≤ Col a ∧ Col a ≤ 7 := by
    rw [Row_natCast, Col_natCast]
    omega
  obtain ⟨hR, _⟩ := maskRank_maskFile_squares ⟨(Row a).toNat, by omega⟩
  obtain ⟨_, hF⟩ := maskRank_maskFile_squares ⟨(Col a).toNat, by omega⟩
  simp only [Int.toNat_of_nonneg hrow.1] at hR
  simp only [Int.toNat_of_nonneg hrow.2.2.1] at hF
  have hDiag : initMasksFixed.maskDiagonal a b = _ := (hagree.2.2.2.2.2 b).trans hD
  refine ⟨(hagree.2.2.2.2.1 b).trans hS, ?_, ?_, ?_, ?_⟩
  · intro t
    rw [hR, squaresWhere_testBit]
    simp only [decide_eq_true_eq]
  · intro t
    rw [hF, squaresWhere_testBit]
    simp only [decide_eq_true_eq]
  · intro t
    rw [hDiag]
    by_cases c1 : a ≠ b ∧ Row a - Col a = Row b - Col b
    · rw [if_pos c1, squaresWhere_testBit]
      simp only [decide_eq_true_eq]
      constructor
      · rintro ⟨h1, h2⟩
        exact ⟨h1, c1.1, Or.inl ⟨c1.2, h2⟩⟩
      · rintro ⟨h1, _, h3 | h3⟩
        · exact ⟨h1, h3.2⟩
        · exfalso
          have hb1 : 0 ≤ Row b ∧ Row b ≤ 7 ∧ 0 ≤ Col b ∧ Col b ≤ 7 := by
            rw [Row_natCast, Col_natCast]
            omega
          have h4 := c1.2
          have h5 := h3.1
          have h6 := c1.1
          rw [Row_natCast, Col_natCast] at h4 h5
          rw [Row_natCast, Col_natCast] at h4 h5
          omega
    · rw [if_neg c1]
      by_cases c2 : a ≠ b ∧ Row a + Col a = Row b + Col b
      · rw [if_pos c2, squaresWhere_testBit]
        simp only [decide_eq_true_eq]
        constructor
        · rintro ⟨h1, h2⟩
          exact ⟨h1, c2.1, Or.inr ⟨c2.2, h2⟩⟩
        · rintro ⟨h1, h0, h3 | h3⟩
          · exact absurd ⟨h0, h3.1⟩ c1
          · exact ⟨h1, h3.2⟩
      · rw [if_neg c2]
        simp only [Nat.zero_testBit, Bool.false_eq_true, false_iff]
        rintro ⟨_, h0, h3 | h3⟩
        · exact c1 ⟨h0, h3.1⟩
        · exact c2 ⟨h0, h3.1⟩
  · intro hno
    rw [hDiag]
    have c1 : ¬ (a ≠ b ∧ Row a - Col a = Row b - Col b) := fun h => hno ⟨h.1, Or.inl h.2⟩
    have c2 : ¬ (a ≠ b ∧ Row a + Col a = Row b + Col b) := fun h => hno ⟨h.1, Or.inr h.2⟩
    rw [if_neg c1, if_neg c2]


/-- Witness for C21: `A1` and `B2` share the long diagonal, which holds `H8`. -/
theorem initMasks_alignment_witness :
    (0 ≤ 63 ∧ 9 ≤ 63) ∧ (initMasksFixed.maskDiagonal 0 9).testBit 63 = true :=
  ⟨⟨by decide, by decide⟩,
    ((initMasks_alignment 0 9 (by decide) (by decide)).2.2.2.1 63).2
      ⟨by decide, by decide, Or.inl ⟨by decide, by decide⟩⟩⟩

/-- C22: after `initMasks`, for squares `a` and `b` in 0..63, `b` is in
`knightMoves[a]` exactly when the absolute row and column differences between `a`
and `b` are (2, 1) or (1, 2), and `b` is in `kingMoves[a]` exactly when `a` differs
from `b` and both absolute differences are at most 1; every such `b` has
`|a - b| <= 17`, so the shortcut `i == square || Abs(i-square) > 17` skips no knight
or king target. -/
theorem initMasks_knight_king (a b : Nat) (ha : a ≤ 63) (hb : b ≤ 63) :
    ((initMasksFixed.knightMoves a).testBit b = true ↔
      ((Abs (Row b - Row a) = 2 ∧ Abs (Col b - Col a) = 1) ∨
        (Abs (Row b - Row a) = 1 ∧ Abs (Col b - Col a) = 2))) ∧
    ((initMasksFixed.kingMoves a).testBit b = true ↔
      (a ≠ b ∧ Abs (Row b - Row a) ≤ 1 ∧ Abs (Col b - Col a) ≤ 1)) ∧
    (((initMasksFixed.knightMoves a).testBit b = true ∨
        (initMasksFixed.kingMoves a).testBit b = true) →
      Abs ((b : Int) - a) ≤ 17) ∧
    (((Abs (Row b - Row a) = 2 ∧ Abs (Col b - Col a) = 1) ∨
        (Abs (Row b - Row a) = 1 ∧ Abs (Col b - Col a) = 2) ∨
        (a ≠ b ∧ Abs (Row b - Row a) ≤ 1 ∧ Abs (Col b - Col a) ≤ 1)) →
      ¬ ((b : Int) = a ∨ Abs ((b : Int) - a) > 17)) := by
  have hagree := initMasksFixed_agree a (by omega)
  obtain ⟨hk, hn⟩ := knight_king_rows ⟨a, by omega⟩
  have hreach := knight_king_reach ⟨a, by omega⟩ ⟨b, by omega⟩
  simp only at hk hn hreach
  have e1 : (initMasksFixed.knightMoves a).testBit b = true ↔
      ((Abs (Row b - Row a) = 2 ∧ Abs (Col b - Col a) = 1) ∨
        (Abs (Row b - Row a) = 1 ∧ Abs (Col b - Col a) = 2)) := by
    rw [hagree.2.1, hk, squaresWhere_testBit]
    simp only [decide_eq_true_eq]
    exact ⟨fun h => h.2, fun h => ⟨hb, h⟩⟩
  have e2 : (initMasksFixed.kingMoves a).testBit b = true ↔
      (a ≠ b ∧ Abs (Row b - Row a) ≤ 1 ∧ Abs (Col b - Col a) ≤ 1) := by
    rw [hagree.1, hn, squaresWhere_testBit]
    simp only [decide_eq_true_eq]
    exact ⟨fun h => h.2, fun h => ⟨hb, h⟩⟩
  refine ⟨e1, e2, ?_, hreach⟩
  intro h
  have hgeo : (Abs (Row b - Row a) = 2 ∧ Abs (Col b - Col a) = 1) ∨
      (Abs (Row b - Row a) = 1 ∧ Abs (Col b - Col a) = 2) ∨
      (a ≠ b ∧ Abs (Row b - Row a) ≤ 1 ∧ Abs (Col b - Col a) ≤ 1) := by
    rcases h with h | h
    · rcases e1.1 h with g | g
      · exact Or.inl g
      · exact Or.inr (Or.inl g)
    · exact Or.inr (Or.inr (e2.1 h))
  have := hreach hgeo
  push_neg at this
  exact this.2

/-- Witness for C22: the knight on `D4` reaches `E6`. -/
theorem initMasks_knight_king_witness :
    (27 ≤ 63 ∧ 44 ≤ 63) ∧ (initMasksFixed.knightMoves 27).testBit 44 = true :=
  ⟨⟨by decide, by decide⟩,
    (initMasks_knight_king 27 44 (by decide) (by decide)).1.2 (by decide)⟩

/-- C23: after `initMasks`, for each colour and squares `s` and `t` in 0..63, `s` is
in `maskPawn[colour][t]` exactly when `t` is in `pawnMoves[colour][s]`, that is when
`s` is on ranks 2 to 7 and `t` is one row ahead of `s` (up for White, down for
Black) on an adjacent column; `maskPawn[White][C3]` is `B2, D2` and
`maskPawn[Black][C3]` is `B4, D4`. -/
theorem initMasks_maskPawn (s t : Nat) (hs : s ≤ 63) (ht : t ≤ 63) :
    ((initMasksFixed.maskPawn White t).testBit s = true ↔
      (initMasksFixed.pawnMoves White s).testBit t = true) ∧
    ((initMasksFixed.maskPawn Black t).testBit s = true ↔
      (initMasksFixed.pawnMoves Black s).testBit t = true) ∧
    ((initMasksFixed.maskPawn White t).testBit s = true ↔
      (A2H2 ≤ Row s ∧ Row s ≤ A7H7 ∧ Row t = Row s + 1 ∧ Abs (Col t - Col s) = 1)) ∧
    ((initMasksFixed.maskPawn Black t).testBit s = true ↔
      (A2H2 ≤ Row s ∧ Row s ≤ A7H7 ∧ Row t = Row s - 1 ∧ Abs (Col t - Col s) = 1)) ∧
    initMasksFixed.maskPawn White 18 = bit 9 ||| bit 11 ∧
    initMasksFixed.maskPawn Black 18 = bit 25 ||| bit 27 := by
  have hs1 := initMasksFixed_agree s (by omega)
  have ht1 := initMasksFixed_agree t (by omega)
  have hc3 := initMasksFixed_agree 18 (by omega)
  obtain ⟨_, _, sW, sB⟩ := pawn_rows ⟨s, by omega⟩
  obtain ⟨tW, tB, _, _⟩ := pawn_rows ⟨t, by omega⟩
  simp only at sW sB tW tB
  have e1 : (initMasksFixed.maskPawn White t).testBit s = true ↔
      (A2H2 ≤ Row s ∧ Row s ≤ A7H7 ∧ Row t = Row s + 1 ∧ Abs (Col t - Col s) = 1) := by
    rw [ht1.2.2.2.1 White, tW, squaresWhere_testBit]
    simp only [decide_eq_true_eq]
    exact ⟨fun h => h.2, fun h => ⟨hs, h⟩⟩
  have e2 : (initMasksFixed.maskPawn Black t).testBit s = true ↔
      (A2H2 ≤ Row s ∧ Row s ≤ A7H7 ∧ Row t = Row s - 1 ∧ Abs (Col t - Col s) = 1) := by
    rw [ht1.2.2.2.1 Black, tB, squaresWhere_testBit]
    simp only [decide_eq_true_eq]
    exact ⟨fun h => h.2, fun h => ⟨hs, h⟩⟩
  have e3 : (initMasksFixed.pawnMoves White s).testBit t = true ↔
      (A2H2 ≤ Row s ∧ Row s ≤ A7H7 ∧ Row t = Row s + 1 ∧ Abs (Col t - Col s) = 1) := by
    rw [hs1.2.2.1 White, sW, squaresWhere_testBit]
    simp only [decide_eq_true_eq]
    exact ⟨fun h => h.2, fun h => ⟨ht, h⟩⟩
  have e4 : (initMasksFixed.pawnMoves Black s).testBit t = true ↔
      (A2H2 ≤ Row s ∧ Row s ≤ A7H7 ∧ Row t = Row s - 1 ∧ Abs (Col t - Col s) = 1) := by
    rw [hs1.2.2.1 Black, sB, squaresWhere_testBit]
    simp only [decide_eq_true_eq]
    exact ⟨fun h => h.2, fun h => ⟨ht, h⟩⟩
  refine ⟨e1.trans e3.symm, e2.trans e4.symm, e1, e2, ?_, ?_⟩
  · rw [hc3.2.2.2.1 White]
    exact maskPawn_c3.1
  · rw [hc3.2.2.2.1 Black]
    exact maskPawn_c3.2

/-- Witness for C23: the white pawn on `B2` attacks `C3`. -/
theorem initMasks_maskPawn_witness :
    (9 ≤ 63 ∧ 18 ≤ 63) ∧
    ((initMasksFixed.maskPawn White 18).testBit 9 = true ↔
      (initMasksFixed.pawnMoves White 9).testBit 18 = true) ∧
    (initMasksFixed.maskPawn White 18).testBit 9 = true :=
  ⟨⟨by decide, by decide⟩, (initMasks_maskPawn 9 18 (by decide) (by decide)).1,
    (initMasks_maskPawn 9 18 (by decide) (by decide)).2.2.1.2 (by decide)⟩

/-- C24: in `pawnPassers`, when an enemy rook or queen stands behind the passed pawn
on its file and attacks it along the file (and the pawn's in-front mask holds its
next square), every square in front of the pawn counts as attacked: the attacked
mask is the whole in-front mask, it is not empty and the next square is not clear
in it, so neither 10 nor 6 is added and `extra` is 4, 2 or 0 from the protection
test alone, at most 4; for a pawn beyond its second rank with an empty next square
the bonus is adjusted by that `extra`. -/
theorem pawnPassers_rook_behind (tb : PawnInput) (e : Evaluation) (color : Nat) (square : Int)
    (hnext : (tb.maskInFront color square).testBit (square + tb.eight color).toNat = true)
    (hbehind : (tb.maskInFront (color ^^^ 1) square &&&
        (e.position.outposts (tb.queen (color ^^^ 1)) |||
          e.position.outposts (tb.rook (color ^^^ 1)))) &&&
      tb.rookMoves e.position square ≠ 0) :
    passerAttacked tb e color square = tb.maskInFront color square ∧
    passerAttacked tb e color square ≠ 0 ∧
    isClear (passerAttacked tb e color square) (square + tb.eight color) = false ∧
    passerExtra tb e color square =
      (if tb.maskInFront color square &&& e.attacks color = tb.maskInFront color square then 4
       else if isSet (tb.maskInFront color square &&& e.attacks color) (square + tb.eight color)
       then 2 else 0) ∧
    passerExtra tb e color square ≤ 4 ∧
    ((tb.RelRow square color > A2H2 ∧
        isClear e.position.board (square + tb.eight color) = true) →
      passerBonus tb e color square =
        if passerExtra tb e color square > 0 then
          (tb.bonusPassedPawn (tb.RelRow square color)).adjust
            (passerExtra tb e color square * tb.extraPassedPawn (tb.RelRow square color))
        else tb.bonusPassedPawn (tb.RelRow square color)) := by
  have henemy : tb.maskInFront (color ^^^ 1) square &&&
      (e.position.outposts (tb.queen (color ^^^ 1)) |||
        e.position.outposts (tb.rook (color ^^^ 1))) ≠ 0 := by
    intro h0
    rw [h0] at hbehind
    simp at hbehind
  have hA : passerAttacked tb e color square = tb.maskInFront color square := by
    unfold passerAttacked
    simp only
    rw [if_neg]
    rintro (h | h)
    · exact henemy h
    · exact hbehind h
  have hne : tb.maskInFront color square ≠ 0 := by
    intro h0
    rw [h0] at hnext
    simp at hnext
  have hclear : isClear (tb.maskInFront color square) (square + tb.eight color) = false := by
    cases hc : isClear (tb.maskInFront color square) (square + tb.eight color)
    · rfl
    · rw [isClear_iff, hnext] at hc
      exact absurd hc (by simp)
  have hX : passerExtra tb e color square =
      (if tb.maskInFront color square &&& e.attacks color = tb.maskInFront color square then 4
       else if isSet (tb.maskInFront color square &&& e.attacks color) (square + tb.eight color)
       then 2 else 0) := by
    unfold passerExtra
    simp only [hA, if_neg hne, hclear, Bool.false_eq_true, if_false, zero_add]
  refine ⟨hA, by rw [hA]; exact hne, by rw [hA]; exact hclear, hX, ?_, ?_⟩
  · rw [hX]
    split_ifs <;> decide
  · rintro ⟨hrow, hboard⟩
    unfold passerBonus
    simp only [hrow, if_true, hboard]

/-- Witness for C24: the white passed pawn on `E4` of `sampleRookBehind`, with the
black rook on `E1`; `E5` is protected, so `extra = 2`. -/
theorem pawnPassers_rook_behind_witness :
    ((samplePawnInput.maskInFront 0 28).testBit ((28 : Int) + samplePawnInput.eight 0).toNat =
        true ∧
      (samplePawnInput.maskInFront (0 ^^^ 1) 28 &&&
          (sampleRookBehind.position.outposts (samplePawnInput.queen (0 ^^^ 1)) |||
            sampleRookBehind.position.outposts (samplePawnInput.rook (0 ^^^ 1)))) &&&
        samplePawnInput.rookMoves sampleRookBehind.position 28 ≠ 0) ∧
    passerAttacked samplePawnInput sampleRookBehind 0 28 = samplePawnInput.maskInFront 0 28 ∧
    passerExtra samplePawnInput sampleRookBehind 0 28 ≤ 4 ∧
    passerExtra samplePawnInput sampleRookBehind 0 28 = 2 :=
  ⟨⟨by decide, by decide⟩,
    (pawnPassers_rook_behind samplePawnInput sampleRookBehind 0 28 (by decide) (by decide)).1,
    (pawnPassers_rook_behind samplePawnInput sampleRookBehind 0 28 (by decide)
      (by decide)).2.2.2.2.1,
    by decide⟩

/-- C25: in a call `xSearchWithZeroWindow(beta, depth)` with `depth >= 1`, a child
position not in check is handed to the quiescence search with window
`(-beta, 1 - beta)` when `depth = 1`, and otherwise to the recursive call at depth
`depth - 1`, which satisfies `1 <= depth - 1 < depth`; a child in check goes to
`xSearchInCheck`; so the move loop depends on the recursive search only at depths
`d` with `1 <= d < depth`, and with quiescence and in-check searches that return,
the search returns within a recursion bound of `depth`. -/
theorem xSearchWithZeroWindow_recursion_depth {P M : Type} (env : SearchEnv P M)
    (depth : Int) (hdepth : 1 ≤ depth) :
    (∀ (search : P → Int → Int → Option Int) (position : P) (beta : Int),
      env.isInCheck position = false → depth = 1 →
        moveScore env search position beta depth =
          (env.xSearchQuiescence position (-beta) (1 - beta)).map (fun s => -s)) ∧
    (∀ (search : P → Int → Int → Option Int) (position : P) (beta : Int),
      env.isInCheck position = false → depth ≠ 1 →
        moveScore env search position beta depth =
          (search position (1 - beta) (depth - 1)).map (fun s => -s) ∧
        1 ≤ depth - 1 ∧ depth - 1 < depth) ∧
    (∀ (search : P → Int → Int → Option Int) (position : P) (beta : Int),
      env.isInCheck position = true →
        moveScore env search position beta depth =
          (env.xSearchInCheck position (1 - beta) depth).map (fun s => -s)) ∧
    (∀ (search1 search2 : P → Int → Int → Option Int),
      (∀ q b d, 1 ≤ d → d < depth → search1 q b d = search2 q b d) →
      ∀ (p : P) (beta : Int) (moves : List M) (bestScore : Int) (moveCount : Nat),
        moveLoop env search1 p beta depth moves bestScore moveCount =
          moveLoop env search2 p beta depth moves bestScore moveCount) ∧
    ((∀ q a b, (env.xSearchQuiescence q a b).isSome = true) →
      (∀ q b d, (env.xSearchInCheck q b d).isSome = true) →
      ∀ (p : P) (beta : Int), (xSearchWithZeroWindow env depth.toNat p beta depth).isSome = true) := by
  refine ⟨?_, ?_, ?_, ?_, ?_⟩
  · intro search position beta hc hd
    subst hd
    unfold moveScore reducedDepth
    simp [hc]
  · intro search position beta hc hd
    refine ⟨?_, by omega, by omega⟩
    have hrd : reducedDepth env position depth = depth - 1 := by
      unfold reducedDepth
      simp [hc]
    have hne : ¬ depth - 1 = 0 := by omega
    unfold moveScore
    simp only [hrd, if_neg hne, hc, Bool.false_eq_true, if_false]
  · intro search position beta hc
    have hrd : reducedDepth env position depth = depth := by
      unfold reducedDepth
      rw [if_pos hc]
      omega
    have hne : ¬ depth = 0 := by omega
    unfold moveScore
    simp only [hrd, if_neg hne, hc, if_true]
  · intro search1 search2 h p beta moves bestScore moveCount
    exact moveLoop_congr_search env search1 search2 p beta depth
      (fun position => moveScore_congr_search env search1 search2 depth hdepth h position beta)
      moves bestScore moveCount
  · intro hq hc p beta
    exact xSearchWithZeroWindow_returns env hq hc depth.toNat p beta depth hdepth
      (by rw [Int.toNat_of_nonneg (by omega)])

/-- Witness for C25: depth 1 and depth 2 on a child of `sampleSearchEnv`. -/
theorem xSearchWithZeroWindow_recursion_depth_witness :
    ((1 : Int) ≤ 1 ∧ (1 : Int) ≤ 2) ∧
    moveScore sampleSearchEnv (xSearchWithZeroWindow sampleSearchEnv 1) 1 0 1 =
      (sampleSearchEnv.xSearchQuiescence 1 (-0) (1 - 0)).map (fun s => -s) ∧
    (moveScore sampleSearchEnv (xSearchWithZeroWindow sampleSearchEnv 1) 1 0 2 =
        (xSearchWithZeroWindow sampleSearchEnv 1 1 (1 - 0) (2 - 1)).map (fun s => -s) ∧
      (1 : Int) ≤ 2 - 1 ∧ (2 : Int) - 1 < 2) :=
  ⟨⟨by decide, by decide⟩,
    (xSearchWithZeroWindow_recursion_depth sampleSearchEnv 1 (by decide)).1 _ 1 0 rfl rfl,
    (xSearchWithZeroWindow_recursion_depth sampleSearchEnv 2 (by decide)).2.1 _ 1 0 rfl
      (by decide)⟩

/-- C26: the calls of `MakeMove` and `TakeBack` that a returning
`xSearchWithZeroWindow` has made on its position are, for the moves tried (a prefix
of the ranked move list, ended by the beta cutoff if there is one), one block per
move in order: `MakeMove` alone when it returned `nil`, else `MakeMove` followed by
exactly one `TakeBack` of the same move on the position `MakeMove` returned; the
value returned is that of `xSearchWithZeroWindow`. -/
theorem xSearchWithZeroWindow_takeBack_paired {P M : Type} (env : SearchEnv P M) (fuel : Nat)
    (p : P) (beta depth : Int) :
    (xSearchWithZeroWindowCalls env fuel p beta depth).map Prod.fst =
      xSearchWithZeroWindow env fuel p beta depth ∧
    (∀ score calls, xSearchWithZeroWindowCalls env fuel p beta depth = some (score, calls) →
      ∃ tried rest, env.moves p = tried ++ rest ∧ calls = tried.flatMap (movePair env p)) ∧
    (∀ move, env.makeMove p move = none → movePair env p move = [SearchCall.make move none]) ∧
    (∀ move position, env.makeMove p move = some position →
      movePair env p move =
        [SearchCall.make move (some position), SearchCall.takeBack position move]) := by
  refine ⟨?_, ?_, ?_, ?_⟩
  · cases fuel with
    | zero => rfl
    | succ n =>
      rw [xSearchWithZeroWindowCalls, xSearchWithZeroWindow]
      simp only
      split_ifs
      · rfl
      · rfl
      · exact (moveLoopCalls_spec env _ p beta depth _ _ _).1
  · intro score calls h
    cases fuel with
    | zero => simp [xSearchWithZeroWindowCalls] at h
    | succ n =>
      rw [xSearchWithZeroWindowCalls] at h
      simp only at h
      split_ifs at h
      · simp only [Option.some.injEq, Prod.mk.injEq] at h
        exact ⟨[], env.moves p, rfl, by rw [← h.2]; rfl⟩
      · simp only [Option.some.injEq, Prod.mk.injEq] at h
        exact ⟨[], env.moves p, rfl, by rw [← h.2]; rfl⟩
      · exact (moveLoopCalls_spec env _ p beta depth _ _ _).2 score calls h
  · intro move h
    simp [movePair, h]
  · intro move position h
    simp [movePair, h]


end Donna
